import Mathlib

/-!
# goTDeskDroid: the theme translation pipeline of `main.go`

A shallow embedding of the converter (`readMapFile`, `readTdesktopFile`,
`readOverrideFile`, the tiling loops of `convertBg`, `makeAttheme`) and theorems
about it.

Conventions of the embedding.

* A Go `string` is its sequence of bytes, a `List Nat`; `len` is `List.length`
  and the slices `s[6:]`, `s[:6]` are `List.drop 6`, `List.take 6`.
* A Go `map[string]string` is an association list. `m[k]` is `lookup` (the
  empty string when `k` is absent), `m[k] = v` is `assign`, `delete(m, k)` is
  `delete`; these keep one entry per key. A theorem that needs a table given
  to a function to have one entry per key, as every Go map has, says so with
  the hypothesis `(keys m).Nodup`.
* `for k, v := range m` visits the entries of `m` in an order Go leaves
  unspecified: the order is the field `rangeOrder` of `GoEnv`, any function
  that permutes the entries.
* Standard output is the list of the texts handed to `fmt.Println`; the output
  file is the list of the byte slices handed to `file.Write`.
* A run that panics or calls `log.Fatal` stops; what it did before is kept.
-/

namespace TDeskDroid

/-! ## Go strings -/

/-- A Go string, as its bytes. -/
abbrev GoString := List Nat

/-- UTF-8 bytes of one code point. -/
def utf8 (c : Nat) : List Nat :=
  if c < 0x80 then [c]
  else if c < 0x800 then [0xC0 + c / 0x40, 0x80 + c % 0x40]
  else if c < 0x10000 then [0xE0 + c / 0x1000, 0x80 + c / 0x40 % 0x40, 0x80 + c % 0x40]
  else [0xF0 + c / 0x40000, 0x80 + c / 0x1000 % 0x40, 0x80 + c / 0x40 % 0x40, 0x80 + c % 0x40]

/-- The Go string written as a literal: the UTF-8 bytes of its characters. -/
def str (s : String) : GoString :=
  s.data.flatMap (fun c => utf8 c.toNat)

/-- Go `strings.HasPrefix`. -/
def hasPrefixOf (s pre : GoString) : Bool :=
  pre.isPrefixOf s

/-- Go `strings.TrimPrefix`. -/
def trimPrefixOf (s pre : GoString) : GoString :=
  if hasPrefixOf s pre then s.drop pre.length else s

/-- Worker of `Split`: the pieces of the text still to read, the first of them being the
piece under way; `skip` counts the bytes of a separator just matched that are still ahead. -/
def splitAux (sep : GoString) : Nat → GoString → List GoString
  | _, [] => [[]]
  | skip + 1, _ :: rest => splitAux sep skip rest
  | 0, c :: rest =>
    if sep.isPrefixOf (c :: rest) then
      [] :: splitAux sep (sep.length - 1) rest
    else
      match splitAux sep 0 rest with
      | [] => [[c]]
      | p :: ps => (c :: p) :: ps

/-- Go `strings.Split(s, sep)` for a separator that is not empty (every call in `main.go`
passes a literal): `s` is cut at each occurrence of `sep`, found left to right without
overlap. -/
def Split (s sep : GoString) : List GoString :=
  splitAux sep 0 s

/-- Upper case of one ASCII byte. -/
def asciiUpper (c : Nat) : Nat :=
  if 97 ≤ c ∧ c ≤ 122 then c - 32 else c

/-! ## Go maps -/

/-- A Go `map[string]string`. -/
abbrev GoMap := List (GoString × GoString)

/-- The keys of a map. -/
def keys (m : GoMap) : List GoString :=
  m.map Prod.fst

/-- Go `m[k]`: the value stored under `k`, the empty string when there is none. -/
def lookup : GoMap → GoString → GoString
  | [], _ => []
  | (k', v) :: m, k => if k' = k then v else lookup m k

/-- Go `m[k] = v`. -/
def assign : GoMap → GoString → GoString → GoMap
  | [], k, v => [(k, v)]
  | (k', v') :: m, k, v => if k' = k then (k, v) :: m else (k', v') :: assign m k v

/-- Go `delete(m, k)`. -/
def delete (m : GoMap) (k : GoString) : GoMap :=
  m.filter (fun e => decide (e.1 ≠ k))

/-! ## What the Go runtime and library leave open -/

/-- The choices the program does not make itself: the order in which a `range` over a map
visits the entries, and the result of `strings.ToUpper` on a string that holds a byte
outside ASCII (`strings.Map(unicode.ToUpper, s)`, which goes by the Unicode tables and
maps no character to nothing). -/
structure GoEnv where
  rangeOrder : GoMap → GoMap
  rangeOrder_perm : ∀ m, (rangeOrder m).Perm m
  unicodeUpper : GoString → GoString
  unicodeUpper_ne_nil : ∀ s, s ≠ [] → unicodeUpper s ≠ []

/-- The environment that ranges over a map in the order its entries were inserted. -/
def insertionEnv : GoEnv where
  rangeOrder := fun m => m
  rangeOrder_perm := fun m => List.Perm.refl m
  unicodeUpper := fun s => s
  unicodeUpper_ne_nil := fun _ h => h

/-- Go `strings.ToUpper`: on an all-ASCII string the bytes `a`..`z` become `A`..`Z`. -/
def ToUpper (env : GoEnv) (s : GoString) : GoString :=
  if s.all (fun c => decide (c < 128)) then s.map asciiUpper else env.unicodeUpper s

/-! ## Failures -/

/-- The ways a function of `main.go` stops the program. -/
inductive Failure where
  /-- Run-time panic of `rule[1]`: index out of range. -/
  | indexOutOfRange
  /-- Run-time panic of `value[6:]`: slice bounds out of range. -/
  | sliceBounds
  /-- `panic(err)` after `os.Open` failed. -/
  | openPanic
  /-- `log.Fatal(err)` after `os.Open` failed. -/
  | openFatal
  /-- `log.Fatal(scanner.Err())`: the scanner met a line too long for its buffer. -/
  | tokenTooLong
  deriving DecidableEq, Repr

/-- Result of a function that returns a value or stops the program. -/
inductive Outcome (α : Type) where
  | ok (a : α)
  | fail (f : Failure)
  deriving DecidableEq, Repr

/-! ## bufio.Scanner -/

/-- Largest buffer of a `bufio.Scanner` (`bufio.MaxScanTokenSize`). -/
def maxScanTokenSize : Nat := 64 * 1024

/-- The text cut at each newline byte; what follows the last newline is a line only when
it is not empty (`bufio.ScanLines`). -/
def rawLines : List Nat → List GoString
  | [] => []
  | c :: rest =>
    if c = 10 then [] :: rawLines rest
    else
      match rawLines rest with
      | [] => [[c]]
      | l :: ls => (c :: l) :: ls

/-- One trailing carriage return is dropped from a line (`dropCR`). -/
def dropCR (l : GoString) : GoString :=
  if l.getLast? = some 13 then l.dropLast else l

/-- The lines `scanner.Scan()` / `scanner.Text()` deliver one after the other, and whether
the scan ends with `scanner.Err() = ErrTooLong`: a line of `maxScanTokenSize` bytes or
more before its newline does not fit the buffer and ends the scan. -/
def scanTokens : List GoString → List GoString × Bool
  | [] => ([], false)
  | l :: ls =>
    if maxScanTokenSize ≤ l.length then ([], true)
    else ((dropCR l) :: (scanTokens ls).1, (scanTokens ls).2)

/-! ## readMapFile -/

/-- The loop `for scanner.Scan() { rule := strings.Split(scanner.Text(), "="); filemap[rule[0]] = rule[1] }`. -/
def readMapLoop : List GoString → GoMap → Outcome GoMap
  | [], filemap => .ok filemap
  | line :: rest, filemap =>
    match Split line (str "=") with
    | rule0 :: rule1 :: _ => readMapLoop rest (assign filemap rule0 rule1)
    | _ => .fail .indexOutOfRange

/-- Source `readMapFile`. The argument is the content of the file, `none` when it cannot be
opened (then the error is logged and the empty map returned). -/
def readMapFile (file : Option (List Nat)) : Outcome GoMap :=
  match file with
  | none => .ok []
  | some data =>
    match readMapLoop (scanTokens (rawLines data)).1 [] with
    | .fail f => .fail f
    | .ok filemap =>
      if (scanTokens (rawLines data)).2 then .fail .tokenTooLong else .ok filemap

/-! ## readTdesktopFile -/

/-- Body of the scanning loop of `readTdesktopFile` for one line. -/
def tdesktopLine (filemap : GoMap) (themeline : GoString) : GoMap :=
  match Split themeline (str ": ") with
  | rule0 :: rule1 :: _ =>
    let rulekey := rule0
    let rulevalue := (Split rule1 (str ";")).headD []
    let rulevalue := if ! hasPrefixOf rulevalue (str "#") then lookup filemap rulevalue else rulevalue
    let rulevalue := trimPrefixOf rulevalue (str "#")
    assign filemap rulekey rulevalue
  | _ => filemap

/-- Source `readTdesktopFile`. The argument is the content of `colors.tdesktop-theme`,
`none` when it cannot be opened. -/
def readTdesktopFile (file : Option (List Nat)) : Outcome GoMap :=
  match file with
  | none => .fail .openFatal
  | some data =>
    let filemap := (scanTokens (rawLines data)).1.foldl tdesktopLine []
    let filemap := assign filemap (str "whatever") (str "ff00ff")
    if (scanTokens (rawLines data)).2 then .fail .tokenTooLong else .ok filemap

/-! ## makeAttheme -/

/-- What a run of `makeAttheme` has done: the override table after the deletions of the
first loop, the table `atthememap` of recorded values, the texts printed on standard
output, the colour lines written to the output file, the byte slices written after them
(the wallpaper block), and the failure that stopped the run, if one did. -/
structure Run where
  overridemap : GoMap
  atthememap : GoMap
  stdout : List GoString
  lines : List GoString
  wallpaper : List GoString
  failure : Option Failure

/-- The bytes of the output file: everything written, in the order of the writes. -/
def Run.file (run : Run) : List Nat :=
  (run.lines ++ run.wallpaper).flatten

/-- The value the first loop takes for a key: the override when `overridemap[key] != ""`,
else `tdesktopmap[value]`. -/
def desktopValue (tdesktopmap overridemap : GoMap) (key value : GoString) : GoString :=
  if lookup overridemap key ≠ [] then lookup overridemap key else lookup tdesktopmap value

/-- The colour the first loop composes from `desktopvalue` (source lines 248-259). -/
def translatedColor (transmap : GoMap) (key desktopvalue : GoString) : GoString :=
  if desktopvalue.length = 6 then
    if lookup transmap key ≠ [] then lookup transmap key ++ desktopvalue else desktopvalue
  else if desktopvalue.length = 8 then desktopvalue.drop 6 ++ desktopvalue.take 6
  else str "00ff00"

/-- The text printed when `desktopvalue` has neither 6 nor 8 bytes. -/
def missingMessage (mapfile : GoMap) (key : GoString) : GoString :=
  str "Key " ++ lookup mapfile key ++ str " missing from .tdesktop-theme"

/-- Body of the first loop of `makeAttheme` (source lines 240-261) for the entry
`key, value` of `mapfile`. -/
def translateKey (env : GoEnv) (mapfile tdesktopmap transmap : GoMap) (run : Run)
    (key value : GoString) : Run :=
  let desktopvalue := desktopValue tdesktopmap run.overridemap key value
  { run with
    overridemap :=
      if lookup run.overridemap key ≠ [] then delete run.overridemap key else run.overridemap
    stdout :=
      if desktopvalue.length = 6 ∨ desktopvalue.length = 8 then run.stdout
      else run.stdout ++ [missingMessage mapfile key]
    atthememap := assign run.atthememap key (ToUpper env (translatedColor transmap key desktopvalue)) }

/-- The colour the second loop composes for an override left over (source lines 264-273);
`value[6:]` panics when `value` has fewer than 6 bytes. -/
def overrideColor (transmap : GoMap) (key value : GoString) : Outcome GoString :=
  if value.length = 6 then
    if lookup transmap key ≠ [] then .ok (lookup transmap key ++ value)
    else .ok (str "ff" ++ value)
  else if value.length < 6 then .fail .sliceBounds
  else .ok (value.drop 6 ++ value.take 6)

/-- The second loop of `makeAttheme` (source lines 263-275) over the entries still to
visit; it stops at the first panic. -/
def overrideLoop (transmap : GoMap) : List (GoString × GoString) → Run → Run
  | [], run => run
  | (key, value) :: rest, run =>
    match overrideColor transmap key value with
    | .fail f => { run with failure := some f }
    | .ok color => overrideLoop transmap rest { run with atthememap := assign run.atthememap key color }

/-- One line of the output file: `key + "=#" + value + "\n"`. -/
def colorLine (e : GoString × GoString) : GoString :=
  e.1 ++ str "=#" ++ e.2 ++ str "\n"

/-- The copy loop of source lines 294-306 over the bytes of `converted.jpg` not yet read:
each `fi.Read(buf)` fills the 1024-byte buffer as far as the file goes, the loop ends when
it reads nothing, and each chunk read is written. The result is the list of writes. -/
def copyLoop (rest : List Nat) : List GoString :=
  if rest.length = 0 then []
  else rest.take 1024 :: copyLoop (rest.drop 1024)
termination_by rest.length
decreasing_by
  simp only [List.length_drop]
  omega

/-- The first loop of `makeAttheme` (source lines 240-261) over the entries of `mapfile`
still to visit. -/
def translateLoop (env : GoEnv) (mapfile tdesktopmap transmap : GoMap) :
    List (GoString × GoString) → Run → Run
  | [], run => run
  | (key, value) :: rest, run =>
    translateLoop env mapfile tdesktopmap transmap rest
      (translateKey env mapfile tdesktopmap transmap run key value)

/-- The two loops of `makeAttheme` that fill `atthememap` (source lines 240-276). -/
def recordColors (env : GoEnv) (mapfile tdesktopmap transmap overridemap : GoMap) : Run :=
  let run : Run :=
    translateLoop env mapfile tdesktopmap transmap (env.rangeOrder mapfile)
      { overridemap := overridemap, atthememap := [], stdout := [], lines := [],
        wallpaper := [], failure := none }
  if run.overridemap.length ≠ 0 then overrideLoop transmap (env.rangeOrder run.overridemap) run
  else run

/-- Source `makeAttheme`. Go passes the four maps by reference; they are taken to be four
different maps, as in `main`. The argument `converted` stands for the parameter `filename`:
it is the content of `./wip/<filename>/converted.jpg`, `none` when the file cannot be
opened. The output file is taken to open and to accept every write. -/
def makeAttheme (env : GoEnv) (mapfile tdesktopmap transmap overridemap : GoMap)
    (converted : Option (List Nat)) : Run :=
  let run : Run := recordColors env mapfile tdesktopmap transmap overridemap
  match run.failure with
  | some _ => run
  | none =>
    let run : Run := { run with lines := (env.rangeOrder run.atthememap).map colorLine }
    if lookup run.atthememap (str "chat_wallpaper") = [] then
      match converted with
      | none => { run with failure := some .openPanic }
      | some data => { run with wallpaper := [str "WPS\n"] ++ copyLoop data ++ [str "\nWPE"] }
    else run

/-! ## readOverrideFile -/

/-- The loop `for key, value := range m { overridemap[key] = value }`. -/
def mergeInto (env : GoEnv) (overridemap m : GoMap) : GoMap :=
  (env.rangeOrder m).foldl (fun o e => assign o e.1 e.2) overridemap

/-- What a run of `readOverrideFile` has done: the names of the files it gave to
`readMapFile`, in order, the texts printed on standard output, and the table returned or
the failure that stopped the run. -/
structure OverrideRun where
  opened : List GoString
  stdout : List GoString
  result : Outcome GoMap

/-- The loop of `readOverrideFile` over the components of the file name still to visit,
from the values `fullname` and `overridemap` have when it gets there. The file system is
the function `fs`, from a file name to the content of the file, `none` when the file cannot
be opened. -/
def readOverrideLoop (env : GoEnv) (fs : GoString → Option (List Nat)) :
    List GoString → GoString → GoMap → OverrideRun
  | [], _, overridemap => { opened := [], stdout := [], result := .ok overridemap }
  | name :: rest, fullname, overridemap =>
    match readMapFile (fs (fullname ++ name ++ str "." ++ str "map")) with
    | .fail f =>
      { opened := [fullname ++ name ++ str "." ++ str "map"]
        stdout := [str "Looking for overrides at " ++ (fullname ++ name ++ str ".") ++ str "map"]
        result := .fail f }
    | .ok m =>
      { opened := (fullname ++ name ++ str "." ++ str "map")
          :: (readOverrideLoop env fs rest (fullname ++ name ++ str ".")
                (mergeInto env overridemap m)).opened
        stdout := (str "Looking for overrides at " ++ (fullname ++ name ++ str ".") ++ str "map")
          :: (readOverrideLoop env fs rest (fullname ++ name ++ str ".")
                (mergeInto env overridemap m)).stdout
        result := (readOverrideLoop env fs rest (fullname ++ name ++ str ".")
                (mergeInto env overridemap m)).result }

/-- Source `readOverrideFile`. -/
def readOverrideFile (env : GoEnv) (fs : GoString → Option (List Nat))
    (filename : GoString) : OverrideRun :=
  readOverrideLoop env fs (Split filename (str ".")) [] []

/-- The file names of the override cascade as the spec lists them for the components
`c1, ..., cn`: `c1.map`, `c1.c2.map`, ..., `c1.c2...cn.map`. -/
def cascadeNames (components : List GoString) : List GoString :=
  components.inits.tail.map (fun p => (str ".").intercalate p ++ str ".map")

/-! ## convertBg: the tiled canvas -/

/-- A Go `image.Image` whose bounds start at the origin, as the PNG and JPEG decoders and
`image.NewRGBA(image.Rect(0, 0, w, h))` yield them: `maxX` and `maxY` are `Bounds().Max.X`
and `Bounds().Max.Y`, `pixel x y` is the colour at `(x, y)`, read in the colour model of the
canvas (`draw.Draw` converts the colours of the source to the model of the destination). -/
structure Image (α : Type) where
  maxX : Nat
  maxY : Nat
  pixel : Int → Int → α

/-- Go `image.NewRGBA(image.Rect(0, 0, w, h))`: every pixel is the zero colour. -/
def newRGBA {α : Type} (zero : α) (w h : Nat) : Image α :=
  { maxX := w, maxY := h, pixel := fun _ _ => zero }

/-- Go `draw.Draw(dst, dst.Bounds(), src, sp, draw.Src)`: the rectangle is clipped to the
bounds of `dst` and to the bounds of `src` moved by `-sp`; inside it the pixel `p` of `dst`
becomes the pixel `p + sp` of `src`; outside it `dst` is left as it is. -/
def drawSrc {α : Type} (dst src : Image α) (sp : Int × Int) : Image α :=
  { dst with
    pixel := fun px py =>
      if 0 ≤ px ∧ px < dst.maxX ∧ 0 ≤ py ∧ py < dst.maxY
          ∧ 0 ≤ px + sp.1 ∧ px + sp.1 < src.maxX ∧ 0 ≤ py + sp.2 ∧ py + sp.2 < src.maxY
      then src.pixel (px + sp.1) (py + sp.2)
      else dst.pixel px py }

/-- The canvas of source `convertBg` for a tiled background (source lines 196-211): the
1920x1920 canvas after the two tiling loops. The integer divisions panic when the tile has
width or height 0; the result is then `none`. -/
def convertBgTile {α : Type} (zero : α) (img : Image α) : Option (Image α) :=
  let imgsizex := 1920
  let imgsizey := 1920
  let back := newRGBA zero imgsizex imgsizey
  let tilesizex := img.maxX
  let tilesizey := img.maxY
  if tilesizex = 0 ∨ tilesizey = 0 then none
  else
    let stepx := imgsizex / tilesizex
    let stepy := imgsizey / tilesizey
    some ((List.range (stepx + 1)).foldl
      (fun back x => (List.range (stepy + 1)).foldl
        (fun back y => drawSrc back img (-((x * tilesizex : Nat) : Int), -((y * tilesizey : Nat) : Int)))
        back)
      back)

/-! ## Cutting a text at the first occurrence; the manifest line as the spec words it -/

/-- Go `strings.Cut`: the texts before and after the first occurrence of `sep`, `none` when
`sep` does not occur. -/
def cutFirst (sep : GoString) : GoString → Option (GoString × GoString)
  | [] => if sep = [] then some ([], []) else none
  | c :: rest =>
    if sep.isPrefixOf (c :: rest) then some ([], (c :: rest).drop sep.length)
    else (cutFirst sep rest).map (fun p => (c :: p.1, p.2))

/-- The text before the first occurrence of `sep`, and the whole text when `sep` does not
occur in it. -/
def beforeFirst (sep s : GoString) : GoString :=
  match cutFirst sep s with
  | none => s
  | some (a, _) => a

/-- Go `strings.TrimSuffix`. -/
def trimSuffixOf (s suf : GoString) : GoString :=
  if suf.isSuffixOf s then s.take (s.length - suf.length) else s

/-- One manifest line as section 4.1 of the spec words it, to compare with `tdesktopLine`:
the line is split at the first `: `, a line without `: ` is skipped, and the value stored is
the whole text after the first `: ` with a trailing `;` trimmed and without its leading
`#`. -/
def specTdesktopLine (filemap : GoMap) (themeline : GoString) : GoMap :=
  match cutFirst (str ": ") themeline with
  | none => filemap
  | some (key, value) =>
    assign filemap key (trimPrefixOf (trimSuffixOf value (str ";")) (str "#"))

/-! ## Reading the output -/

/-- The left-hand side of an output line: the text before its first `=#`. -/
def lineKey : GoString → GoString
  | [] => []
  | c :: rest => if (str "=#").isPrefixOf (c :: rest) then [] else c :: lineKey rest

/-- A hex digit: `0`..`9`, `a`..`f` or `A`..`F`. -/
def isHexDigit (c : Nat) : Bool :=
  decide ((48 ≤ c ∧ c ≤ 57) ∨ (97 ≤ c ∧ c ≤ 102) ∨ (65 ≤ c ∧ c ≤ 70))

/-- An upper-case hex digit: `0`..`9` or `A`..`F`. -/
def isUpperHexDigit (c : Nat) : Bool :=
  decide ((48 ≤ c ∧ c ≤ 57) ∨ (65 ≤ c ∧ c ≤ 70))

/-! ## Lemmas on maps -/

theorem lookup_assign (m : GoMap) (k v k' : GoString) :
    lookup (assign m k v) k' = if k = k' then v else lookup m k' := by
  induction m with
  | nil => simp [assign, lookup]
  | cons e m ih =>
    obtain ⟨a, b⟩ := e
    by_cases h : a = k
    · subst h
      by_cases h' : a = k' <;> simp [assign, lookup, h']
    · by_cases h' : a = k'
      · subst h'
        have : ¬ k = a := fun h'' => h h''.symm
        simp [assign, lookup, h, this]
      · simp [assign, lookup, h, h', ih]

theorem mem_keys_assign (m : GoMap) (k v k' : GoString) :
    k' ∈ keys (assign m k v) ↔ k' = k ∨ k' ∈ keys m := by
  induction m with
  | nil => simp [assign, keys]
  | cons e m ih =>
    obtain ⟨a, b⟩ := e
    by_cases h : a = k
    · subst h
      simp [assign, keys]
    · simp only [keys] at ih
      simp [assign, keys, h, ih]
      tauto

theorem nodup_keys_assign (m : GoMap) (k v : GoString) (h : (keys m).Nodup) :
    (keys (assign m k v)).Nodup := by
  induction m with
  | nil => simp [assign, keys]
  | cons e m ih =>
    obtain ⟨a, b⟩ := e
    have h1 : a ∉ keys m := by
      simpa [keys] using (List.nodup_cons.mp h).1
    have h2 : (keys m).Nodup := (List.nodup_cons.mp h).2
    by_cases hk : a = k
    · subst hk
      simpa [assign, keys] using h
    · have h3 : a ∉ keys (assign m k v) := by
        rw [mem_keys_assign]
        rintro (h4 | h4)
        · exact hk h4
        · exact h1 h4
      have h4 := ih h2
      simp only [assign, hk, if_false]
      exact List.nodup_cons.mpr ⟨h3, h4⟩

theorem lookup_delete (m : GoMap) (k k' : GoString) :
    lookup (delete m k) k' = if k' = k then [] else lookup m k' := by
  induction m with
  | nil => simp [delete, lookup]
  | cons e m ih =>
    obtain ⟨a, b⟩ := e
    simp only [delete] at ih
    by_cases h : a = k
    · subst h
      by_cases h' : k' = a
      · subst h'
        simpa [delete, lookup] using ih
      · have : ¬ a = k' := fun h'' => h' h''.symm
        simpa [delete, lookup, this, h'] using ih
    · by_cases h' : a = k'
      · subst h'
        simp [delete, lookup, h]
      · simp only [ne_eq, decide_not] at ih
        simp [delete, lookup, h, h', List.filter_cons, ih]

theorem mem_keys_delete (m : GoMap) (k k' : GoString) :
    k' ∈ keys (delete m k) ↔ k' ≠ k ∧ k' ∈ keys m := by
  simp only [keys, delete, List.mem_map, List.mem_filter, decide_eq_true_eq]
  constructor
  · rintro ⟨e, ⟨he, hne⟩, rfl⟩
    exact ⟨hne, e, he, rfl⟩
  · rintro ⟨hne, e, he, rfl⟩
    exact ⟨e, ⟨he, hne⟩, rfl⟩

theorem lookup_of_not_mem_keys (m : GoMap) (k : GoString) (h : k ∉ keys m) :
    lookup m k = [] := by
  induction m with
  | nil => rfl
  | cons e m ih =>
    obtain ⟨a, b⟩ := e
    simp only [keys, List.map_cons, List.mem_cons, not_or] at h
    have h1 : ¬ a = k := fun h' => h.1 h'.symm
    simp only [lookup, h1, if_false]
    exact ih h.2

theorem mem_of_mem_keys (m : GoMap) (k : GoString) (h : k ∈ keys m) :
    (k, lookup m k) ∈ m := by
  induction m with
  | nil => simp [keys] at h
  | cons e m ih =>
    obtain ⟨a, b⟩ := e
    by_cases h1 : a = k
    · subst h1
      simp [lookup]
    · have h2 : k ∈ keys m := by
        simp only [keys, List.map_cons, List.mem_cons] at h
        rcases h with h | h
        · exact absurd h.symm h1
        · exact h
      simp only [lookup, h1, if_false]
      exact List.mem_cons_of_mem _ (ih h2)

theorem lookup_of_mem (m : GoMap) (k v : GoString) (hn : (keys m).Nodup) (h : (k, v) ∈ m) :
    lookup m k = v := by
  induction m with
  | nil => simp at h
  | cons e m ih =>
    obtain ⟨a, b⟩ := e
    have h1 : a ∉ keys m := by
      simpa [keys] using (List.nodup_cons.mp hn).1
    have h2 : (keys m).Nodup := (List.nodup_cons.mp hn).2
    rcases List.mem_cons.mp h with h3 | h3
    · injection h3 with h4 h5
      subst h4; subst h5
      simp [lookup]
    · have h4 : k ∈ keys m := List.mem_map.mpr ⟨(k, v), h3, rfl⟩
      have h5 : ¬ a = k := fun h' => h1 (h' ▸ h4)
      simp only [lookup, h5, if_false]
      exact ih h2 h3

/-! ## The first loop -/

theorem translateLoop_failure (env : GoEnv) (mapfile tdesktopmap transmap : GoMap)
    (l : List (GoString × GoString)) (run : Run) :
    (translateLoop env mapfile tdesktopmap transmap l run).failure = run.failure := by
  induction l generalizing run with
  | nil => rfl
  | cons e l ih =>
    obtain ⟨key, value⟩ := e
    simp only [translateLoop]
    rw [ih]
    rfl

theorem translateLoop_lookup_of_not_mem (env : GoEnv) (mapfile tdesktopmap transmap : GoMap)
    (l : List (GoString × GoString)) (run : Run) (K : GoString) (h : K ∉ keys l) :
    lookup (translateLoop env mapfile tdesktopmap transmap l run).atthememap K
      = lookup run.atthememap K := by
  induction l generalizing run with
  | nil => rfl
  | cons e l ih =>
    obtain ⟨key, value⟩ := e
    simp only [keys, List.map_cons, List.mem_cons, not_or] at h
    simp only [translateLoop]
    rw [ih _ h.2]
    have h1 : ¬ key = K := fun h' => h.1 h'.symm
    simp [translateKey, lookup_assign, h1]

theorem translateKey_lookup_override (env : GoEnv) (mapfile tdesktopmap transmap : GoMap)
    (run : Run) (key value K : GoString) (h : K ≠ key) :
    lookup (translateKey env mapfile tdesktopmap transmap run key value).overridemap K
      = lookup run.overridemap K := by
  simp only [translateKey]
  split
  · rw [lookup_delete]
    simp [h]
  · rfl

theorem translateLoop_lookup_of_mem (env : GoEnv) (mapfile tdesktopmap transmap : GoMap)
    (l : List (GoString × GoString)) (run : Run) (K value : GoString)
    (hn : (keys l).Nodup) (h : (K, value) ∈ l) :
    lookup (translateLoop env mapfile tdesktopmap transmap l run).atthememap K
      = ToUpper env (translatedColor transmap K
          (desktopValue tdesktopmap run.overridemap K value)) := by
  induction l generalizing run with
  | nil => simp at h
  | cons e l ih =>
    obtain ⟨key, v⟩ := e
    have h1 : key ∉ keys l := by
      simpa [keys] using (List.nodup_cons.mp hn).1
    have h2 : (keys l).Nodup := (List.nodup_cons.mp hn).2
    simp only [translateLoop]
    rcases List.mem_cons.mp h with h3 | h3
    · injection h3 with h4 h5
      subst h4; subst h5
      rw [translateLoop_lookup_of_not_mem _ _ _ _ _ _ _ h1]
      simp [translateKey, lookup_assign]
    · have h4 : K ∈ keys l := List.mem_map.mpr ⟨(K, value), h3, rfl⟩
      have h5 : K ≠ key := fun h' => h1 (h' ▸ h4)
      rw [ih _ h2 h3]
      simp only [desktopValue, translateKey_lookup_override _ _ _ _ _ _ _ _ h5]

theorem translateLoop_mem_keys (env : GoEnv) (mapfile tdesktopmap transmap : GoMap)
    (l : List (GoString × GoString)) (run : Run) (k : GoString) :
    k ∈ keys (translateLoop env mapfile tdesktopmap transmap l run).atthememap
      ↔ k ∈ keys run.atthememap ∨ k ∈ keys l := by
  induction l generalizing run with
  | nil => simp [translateLoop, keys]
  | cons e l ih =>
    obtain ⟨key, v⟩ := e
    simp only [translateLoop]
    rw [ih]
    have h1 : k ∈ keys (translateKey env mapfile tdesktopmap transmap run key v).atthememap
        ↔ k = key ∨ k ∈ keys run.atthememap := by
      simp only [translateKey]
      exact mem_keys_assign _ _ _ _
    have h2 : k ∈ keys ((key, v) :: l) ↔ k = key ∨ k ∈ keys l := by
      simp [keys]
    rw [h1, h2]
    tauto

theorem translateLoop_nodup (env : GoEnv) (mapfile tdesktopmap transmap : GoMap)
    (l : List (GoString × GoString)) (run : Run) (h : (keys run.atthememap).Nodup) :
    (keys (translateLoop env mapfile tdesktopmap transmap l run).atthememap).Nodup := by
  induction l generalizing run with
  | nil => exact h
  | cons e l ih =>
    obtain ⟨key, v⟩ := e
    simp only [translateLoop]
    apply ih
    simp only [translateKey]
    exact nodup_keys_assign _ _ _ h

/-- The first loop leaves in the override table exactly the entries whose key it did not
visit or whose key had the empty string as its override. -/
theorem translateLoop_overridemap (env : GoEnv) (mapfile tdesktopmap transmap : GoMap)
    (l : List (GoString × GoString)) (run : Run) :
    (translateLoop env mapfile tdesktopmap transmap l run).overridemap
      = run.overridemap.filter
          (fun e => decide (¬ (e.1 ∈ keys l ∧ lookup run.overridemap e.1 ≠ []))) := by
  induction l generalizing run with
  | nil => simp [translateLoop, keys]
  | cons e l ih =>
    obtain ⟨key, v⟩ := e
    simp only [translateLoop]
    rw [ih]
    have hmem : ∀ x : GoString × GoString,
        x.1 ∈ keys ((key, v) :: l) ↔ x.1 = key ∨ x.1 ∈ keys l := by
      intro x
      simp [keys]
    by_cases hk : lookup run.overridemap key ≠ []
    · have h1 : (translateKey env mapfile tdesktopmap transmap run key v).overridemap
          = delete run.overridemap key := by
        simp [translateKey, hk]
      rw [h1, delete, List.filter_filter]
      apply List.filter_congr
      intro x _
      have h2 := lookup_delete run.overridemap key x.1
      simp only [delete] at h2
      rw [Bool.eq_iff_iff]
      simp only [Bool.and_eq_true, decide_eq_true_eq, h2, hmem]
      by_cases hx : x.1 = key
      · rw [hx] at *
        simp [hk]
      · simp [hx]
    · have h1 : (translateKey env mapfile tdesktopmap transmap run key v).overridemap
          = run.overridemap := by
        simp [translateKey, hk]
      rw [h1]
      apply List.filter_congr
      intro x _
      rw [Bool.eq_iff_iff]
      simp only [decide_eq_true_eq, hmem]
      by_cases hx : x.1 = key
      · simp only [ne_eq, not_not] at hk
        simp [hx, hk]
      · simp [hx]

theorem translateLoop_stdout_mono (env : GoEnv) (mapfile tdesktopmap transmap : GoMap)
    (l : List (GoString × GoString)) (run : Run) (msg : GoString) (h : msg ∈ run.stdout) :
    msg ∈ (translateLoop env mapfile tdesktopmap transmap l run).stdout := by
  induction l generalizing run with
  | nil => exact h
  | cons e l ih =>
    obtain ⟨key, v⟩ := e
    simp only [translateLoop]
    apply ih
    simp only [translateKey]
    split
    · exact h
    · exact List.mem_append_left _ h

theorem translateLoop_stdout_of_mem (env : GoEnv) (mapfile tdesktopmap transmap : GoMap)
    (l : List (GoString × GoString)) (run : Run) (K value : GoString)
    (hn : (keys l).Nodup) (h : (K, value) ∈ l)
    (h6 : (desktopValue tdesktopmap run.overridemap K value).length ≠ 6)
    (h8 : (desktopValue tdesktopmap run.overridemap K value).length ≠ 8) :
    missingMessage mapfile K ∈ (translateLoop env mapfile tdesktopmap transmap l run).stdout := by
  induction l generalizing run with
  | nil => simp at h
  | cons e l ih =>
    obtain ⟨key, v⟩ := e
    have h1 : key ∉ keys l := by
      simpa [keys] using (List.nodup_cons.mp hn).1
    have h2 : (keys l).Nodup := (List.nodup_cons.mp hn).2
    simp only [translateLoop]
    rcases List.mem_cons.mp h with h3 | h3
    · injection h3 with h4 h5
      subst h4; subst h5
      apply translateLoop_stdout_mono
      simp [translateKey, h6, h8]
    · have h4 : K ∈ keys l := List.mem_map.mpr ⟨(K, value), h3, rfl⟩
      have h5 : K ≠ key := fun h' => h1 (h' ▸ h4)
      apply ih _ h2 h3
      · simpa only [desktopValue, translateKey_lookup_override _ _ _ _ _ _ _ _ h5] using h6
      · simpa only [desktopValue, translateKey_lookup_override _ _ _ _ _ _ _ _ h5] using h8

/-! ## The second loop -/

theorem overrideLoop_overridemap (transmap : GoMap) (l : List (GoString × GoString))
    (run : Run) : (overrideLoop transmap l run).overridemap = run.overridemap := by
  induction l generalizing run with
  | nil => rfl
  | cons e l ih =>
    obtain ⟨key, value⟩ := e
    simp only [overrideLoop]
    split
    · rfl
    · rw [ih]

theorem overrideLoop_stdout (transmap : GoMap) (l : List (GoString × GoString))
    (run : Run) : (overrideLoop transmap l run).stdout = run.stdout := by
  induction l generalizing run with
  | nil => rfl
  | cons e l ih =>
    obtain ⟨key, value⟩ := e
    simp only [overrideLoop]
    split
    · rfl
    · rw [ih]

theorem overrideLoop_lookup_of_not_mem (transmap : GoMap) (l : List (GoString × GoString))
    (run : Run) (K : GoString) (h : K ∉ keys l) :
    lookup (overrideLoop transmap l run).atthememap K = lookup run.atthememap K := by
  induction l generalizing run with
  | nil => rfl
  | cons e l ih =>
    obtain ⟨key, value⟩ := e
    simp only [keys, List.map_cons, List.mem_cons, not_or] at h
    have h1 : ¬ key = K := fun h' => h.1 h'.symm
    simp only [overrideLoop]
    split
    · rfl
    · rw [ih _ h.2]
      simp [lookup_assign, h1]

theorem overrideLoop_keys_subset (transmap : GoMap) (l : List (GoString × GoString))
    (run : Run) (k : GoString) (h : k ∈ keys (overrideLoop transmap l run).atthememap) :
    k ∈ keys run.atthememap ∨ k ∈ keys l := by
  induction l generalizing run with
  | nil => exact Or.inl h
  | cons e l ih =>
    obtain ⟨key, value⟩ := e
    have h2 : k ∈ keys ((key, value) :: l) ↔ k = key ∨ k ∈ keys l := by
      simp [keys]
    simp only [overrideLoop] at h
    split at h
    · exact Or.inl h
    · rcases ih _ h with h3 | h3
      · rcases (mem_keys_assign _ _ _ _).mp h3 with h4 | h4
        · exact Or.inr (h2.mpr (Or.inl h4))
        · exact Or.inl h4
      · exact Or.inr (h2.mpr (Or.inr h3))

theorem overrideLoop_keys_mono (transmap : GoMap) (l : List (GoString × GoString))
    (run : Run) (k : GoString) (h : k ∈ keys run.atthememap) :
    k ∈ keys (overrideLoop transmap l run).atthememap := by
  induction l generalizing run with
  | nil => exact h
  | cons e l ih =>
    obtain ⟨key, value⟩ := e
    simp only [overrideLoop]
    split
    · exact h
    · apply ih
      exact (mem_keys_assign _ _ _ _).mpr (Or.inr h)

theorem overrideLoop_nodup (transmap : GoMap) (l : List (GoString × GoString))
    (run : Run) (h : (keys run.atthememap).Nodup) :
    (keys (overrideLoop transmap l run).atthememap).Nodup := by
  induction l generalizing run with
  | nil => exact h
  | cons e l ih =>
    obtain ⟨key, value⟩ := e
    simp only [overrideLoop]
    split
    · exact h
    · apply ih
      exact nodup_keys_assign _ _ _ h

theorem overrideColor_ok (transmap : GoMap) (key value color : GoString)
    (h : overrideColor transmap key value = .ok color) : 6 ≤ value.length := by
  unfold overrideColor at h
  split at h
  · omega
  · split at h
    · cases h
    · omega

theorem overrideColor_fail (transmap : GoMap) (key value : GoString) (f : Failure)
    (h : overrideColor transmap key value = .fail f) :
    value.length < 6 ∧ f = Failure.sliceBounds := by
  unfold overrideColor at h
  split at h
  · split at h <;> cases h
  · split at h
    · injection h with h'
      exact ⟨by assumption, h'.symm⟩
    · cases h

/-- The second loop panics exactly when an entry it visits has a value shorter than 6
bytes. -/
theorem overrideLoop_failure (transmap : GoMap) (l : List (GoString × GoString))
    (run : Run) :
    (overrideLoop transmap l run).failure
      = if ∀ e ∈ l, 6 ≤ e.2.length then run.failure else some Failure.sliceBounds := by
  induction l generalizing run with
  | nil => simp [overrideLoop]
  | cons e l ih =>
    obtain ⟨key, value⟩ := e
    simp only [overrideLoop, List.forall_mem_cons]
    cases hc : overrideColor transmap key value with
    | ok color =>
      have h6 := overrideColor_ok _ _ _ _ hc
      simp only [ih, h6, true_and]
    | fail f =>
      obtain ⟨h6, hf⟩ := overrideColor_fail _ _ _ _ hc
      have : ¬ (6 ≤ value.length) := by omega
      simp [this, hf]

/-! ## The two loops together -/

theorem mem_keys_rangeOrder (env : GoEnv) (m : GoMap) (k : GoString) :
    k ∈ keys (env.rangeOrder m) ↔ k ∈ keys m :=
  ((env.rangeOrder_perm m).map Prod.fst).mem_iff

theorem nodup_keys_rangeOrder (env : GoEnv) (m : GoMap) :
    (keys (env.rangeOrder m)).Nodup ↔ (keys m).Nodup :=
  ((env.rangeOrder_perm m).map Prod.fst).nodup_iff

theorem overrideLoop_lookup_of_short (transmap : GoMap) (l : List (GoString × GoString))
    (run : Run) (K : GoString) (h : ∀ e ∈ l, e.1 = K → e.2.length < 6) :
    lookup (overrideLoop transmap l run).atthememap K = lookup run.atthememap K := by
  induction l generalizing run with
  | nil => rfl
  | cons e l ih =>
    obtain ⟨key, value⟩ := e
    simp only [overrideLoop]
    cases hc : overrideColor transmap key value with
    | fail f => rfl
    | ok color =>
      have h6 := overrideColor_ok _ _ _ _ hc
      have h1 : ¬ key = K := by
        intro h'
        have := h (key, value) (List.mem_cons_self _ _) h'
        simp only at this
        omega
      simp only
      rw [ih _ (fun e he => h e (List.mem_cons_of_mem _ he))]
      simp [lookup_assign, h1]

/-- The table after the first loop, from the table the first loop starts with. -/
theorem firstLoop_overridemap (env : GoEnv) (mapfile tdesktopmap transmap overridemap : GoMap)
    (e : GoString × GoString) :
    e ∈ (translateLoop env mapfile tdesktopmap transmap (env.rangeOrder mapfile)
        { overridemap := overridemap, atthememap := [], stdout := [], lines := [],
          wallpaper := [], failure := none }).overridemap
      ↔ e ∈ overridemap ∧ ¬ (e.1 ∈ keys mapfile ∧ lookup overridemap e.1 ≠ []) := by
  rw [translateLoop_overridemap]
  simp only [List.mem_filter, decide_eq_true_eq, mem_keys_rangeOrder]

theorem recordColors_overridemap (env : GoEnv) (mapfile tdesktopmap transmap overridemap : GoMap)
    (e : GoString × GoString) :
    e ∈ (recordColors env mapfile tdesktopmap transmap overridemap).overridemap
      ↔ e ∈ overridemap ∧ ¬ (e.1 ∈ keys mapfile ∧ lookup overridemap e.1 ≠ []) := by
  unfold recordColors
  simp only
  split
  · rw [overrideLoop_overridemap]
    exact firstLoop_overridemap _ _ _ _ _ _
  · exact firstLoop_overridemap _ _ _ _ _ _

/-- The value the two loops record for a translated key whose override, if it has one, is
consumed by the first loop or too short for the second. -/
theorem recordColors_lookup (env : GoEnv) (mapfile tdesktopmap transmap overridemap : GoMap)
    (K : GoString) (hn : (keys mapfile).Nodup) (hK : K ∈ keys mapfile)
    (ho : ∀ e ∈ overridemap, e.1 = K → lookup overridemap K ≠ [] ∨ e.2.length < 6) :
    lookup (recordColors env mapfile tdesktopmap transmap overridemap).atthememap K
      = ToUpper env (translatedColor transmap K
          (desktopValue tdesktopmap overridemap K (lookup mapfile K))) := by
  have h1 : lookup (translateLoop env mapfile tdesktopmap transmap (env.rangeOrder mapfile)
        { overridemap := overridemap, atthememap := [], stdout := [], lines := [],
          wallpaper := [], failure := none }).atthememap K
      = ToUpper env (translatedColor transmap K
          (desktopValue tdesktopmap overridemap K (lookup mapfile K))) := by
    apply translateLoop_lookup_of_mem
    · exact (nodup_keys_rangeOrder env mapfile).mpr hn
    · exact (env.rangeOrder_perm mapfile).mem_iff.mpr (mem_of_mem_keys _ _ hK)
  unfold recordColors
  simp only
  split
  · rw [overrideLoop_lookup_of_short, h1]
    intro e he he1
    have he2 := (firstLoop_overridemap env mapfile tdesktopmap transmap overridemap e).mp
      ((env.rangeOrder_perm _).mem_iff.mp he)
    rcases ho e he2.1 he1 with h3 | h3
    · exact absurd ⟨he1 ▸ hK, he1 ▸ h3⟩ he2.2
    · exact h3
  · exact h1

theorem recordColors_stdout (env : GoEnv) (mapfile tdesktopmap transmap overridemap : GoMap) :
    (recordColors env mapfile tdesktopmap transmap overridemap).stdout
      = (translateLoop env mapfile tdesktopmap transmap (env.rangeOrder mapfile)
        { overridemap := overridemap, atthememap := [], stdout := [], lines := [],
          wallpaper := [], failure := none }).stdout := by
  unfold recordColors
  simp only
  split
  · rw [overrideLoop_stdout]
  · rfl

theorem recordColors_nodup (env : GoEnv) (mapfile tdesktopmap transmap overridemap : GoMap) :
    (keys (recordColors env mapfile tdesktopmap transmap overridemap).atthememap).Nodup := by
  have h1 : (keys (translateLoop env mapfile tdesktopmap transmap (env.rangeOrder mapfile)
        { overridemap := overridemap, atthememap := [], stdout := [], lines := [],
          wallpaper := [], failure := none }).atthememap).Nodup := by
    apply translateLoop_nodup
    simp [keys]
  unfold recordColors
  simp only
  split
  · exact overrideLoop_nodup _ _ _ h1
  · exact h1

theorem recordColors_mem_keys_of_mem (env : GoEnv)
    (mapfile tdesktopmap transmap overridemap : GoMap) (K : GoString) (hK : K ∈ keys mapfile) :
    K ∈ keys (recordColors env mapfile tdesktopmap transmap overridemap).atthememap := by
  have h1 : K ∈ keys (translateLoop env mapfile tdesktopmap transmap (env.rangeOrder mapfile)
        { overridemap := overridemap, atthememap := [], stdout := [], lines := [],
          wallpaper := [], failure := none }).atthememap := by
    rw [translateLoop_mem_keys]
    exact Or.inr ((mem_keys_rangeOrder env mapfile K).mpr hK)
  unfold recordColors
  simp only
  split
  · exact overrideLoop_keys_mono _ _ _ _ h1
  · exact h1

theorem recordColors_keys_subset (env : GoEnv)
    (mapfile tdesktopmap transmap overridemap : GoMap) (k : GoString)
    (h : k ∈ keys (recordColors env mapfile tdesktopmap transmap overridemap).atthememap) :
    k ∈ keys mapfile ∨ k ∈ keys overridemap := by
  have h1 : ∀ k, k ∈ keys (translateLoop env mapfile tdesktopmap transmap (env.rangeOrder mapfile)
        { overridemap := overridemap, atthememap := [], stdout := [], lines := [],
          wallpaper := [], failure := none }).atthememap → k ∈ keys mapfile := by
    intro k hk
    rw [translateLoop_mem_keys] at hk
    rcases hk with hk | hk
    · simp [keys] at hk
    · exact (mem_keys_rangeOrder env mapfile k).mp hk
  unfold recordColors at h
  simp only at h
  split at h
  · rcases overrideLoop_keys_subset _ _ _ _ h with h2 | h2
    · exact Or.inl (h1 k h2)
    · right
      rw [mem_keys_rangeOrder] at h2
      obtain ⟨e, he, rfl⟩ := List.mem_map.mp h2
      exact List.mem_map.mpr ⟨e,
        ((firstLoop_overridemap env mapfile tdesktopmap transmap overridemap e).mp he).1, rfl⟩
  · exact Or.inl (h1 k h)

/-- The two loops end with a failure exactly when an override left over by the first loop
has fewer than 6 bytes; the failure is then the panic of the slice. -/
theorem recordColors_failure (env : GoEnv) (mapfile tdesktopmap transmap overridemap : GoMap) :
    (recordColors env mapfile tdesktopmap transmap overridemap).failure
      = if ∀ e ∈ (recordColors env mapfile tdesktopmap transmap overridemap).overridemap,
            6 ≤ e.2.length
        then none else some Failure.sliceBounds := by
  unfold recordColors
  simp only
  split
  · rw [overrideLoop_failure, overrideLoop_overridemap, translateLoop_failure]
    simp only [(env.rangeOrder_perm _).mem_iff]
  · rename_i h
    simp only [ne_eq, List.length_eq_zero, not_not] at h
    rw [translateLoop_failure, h]
    simp

/-! ## The writes of makeAttheme -/

theorem makeAttheme_atthememap (env : GoEnv) (mapfile tdesktopmap transmap overridemap : GoMap)
    (converted : Option (List Nat)) :
    (makeAttheme env mapfile tdesktopmap transmap overridemap converted).atthememap
      = (recordColors env mapfile tdesktopmap transmap overridemap).atthememap := by
  unfold makeAttheme
  simp only
  split
  · rfl
  · split
    · split <;> rfl
    · rfl

theorem makeAttheme_overridemap (env : GoEnv) (mapfile tdesktopmap transmap overridemap : GoMap)
    (converted : Option (List Nat)) :
    (makeAttheme env mapfile tdesktopmap transmap overridemap converted).overridemap
      = (recordColors env mapfile tdesktopmap transmap overridemap).overridemap := by
  unfold makeAttheme
  simp only
  split
  · rfl
  · split
    · split <;> rfl
    · rfl

theorem makeAttheme_stdout (env : GoEnv) (mapfile tdesktopmap transmap overridemap : GoMap)
    (converted : Option (List Nat)) :
    (makeAttheme env mapfile tdesktopmap transmap overridemap converted).stdout
      = (recordColors env mapfile tdesktopmap transmap overridemap).stdout := by
  unfold makeAttheme
  simp only
  split
  · rfl
  · split
    · split <;> rfl
    · rfl

/-- The failure of the two loops is the slice panic or none. -/
theorem recordColors_failure_cases (env : GoEnv)
    (mapfile tdesktopmap transmap overridemap : GoMap) :
    (recordColors env mapfile tdesktopmap transmap overridemap).failure = none
      ∨ (recordColors env mapfile tdesktopmap transmap overridemap).failure
          = some Failure.sliceBounds := by
  rw [recordColors_failure]
  split
  · exact Or.inl rfl
  · exact Or.inr rfl

theorem makeAttheme_sliceBounds_iff (env : GoEnv)
    (mapfile tdesktopmap transmap overridemap : GoMap) (converted : Option (List Nat)) :
    (makeAttheme env mapfile tdesktopmap transmap overridemap converted).failure
        = some Failure.sliceBounds
      ↔ (recordColors env mapfile tdesktopmap transmap overridemap).failure
        = some Failure.sliceBounds := by
  unfold makeAttheme
  simp only
  split
  · rfl
  · rename_i h
    rw [h]
    split
    · split <;> simp
    · simp [h]

/-- Once the two loops have ended without a panic, the colour lines are written: one line
for each entry of `atthememap`, in the order of the range. -/
theorem makeAttheme_lines (env : GoEnv) (mapfile tdesktopmap transmap overridemap : GoMap)
    (converted : Option (List Nat))
    (h : (makeAttheme env mapfile tdesktopmap transmap overridemap converted).failure
      ≠ some Failure.sliceBounds) :
    (makeAttheme env mapfile tdesktopmap transmap overridemap converted).lines
      = (env.rangeOrder
          (makeAttheme env mapfile tdesktopmap transmap overridemap converted).atthememap).map
          colorLine := by
  have h1 : (recordColors env mapfile tdesktopmap transmap overridemap).failure = none := by
    rcases recordColors_failure_cases env mapfile tdesktopmap transmap overridemap with h2 | h2
    · exact h2
    · exact absurd ((makeAttheme_sliceBounds_iff _ _ _ _ _ _).mpr h2) h
  rw [makeAttheme_atthememap]
  unfold makeAttheme
  simp only
  split
  · rename_i f hf
    rw [h1] at hf
    cases hf
  · split
    · split <;> rfl
    · rfl

theorem mem_makeAttheme_lines (env : GoEnv) (mapfile tdesktopmap transmap overridemap : GoMap)
    (converted : Option (List Nat)) (K : GoString)
    (h : (makeAttheme env mapfile tdesktopmap transmap overridemap converted).failure
      ≠ some Failure.sliceBounds)
    (hK : K ∈ keys (makeAttheme env mapfile tdesktopmap transmap overridemap converted).atthememap) :
    colorLine (K, lookup
        (makeAttheme env mapfile tdesktopmap transmap overridemap converted).atthememap K)
      ∈ (makeAttheme env mapfile tdesktopmap transmap overridemap converted).lines := by
  rw [makeAttheme_lines _ _ _ _ _ _ h]
  apply List.mem_map_of_mem
  exact (env.rangeOrder_perm _).mem_iff.mpr (mem_of_mem_keys _ _ hK)

/-! ## The copy loop -/

theorem copyLoop_flatten_aux (n : Nat) :
    ∀ rest : List Nat, rest.length ≤ n → (copyLoop rest).flatten = rest := by
  induction n with
  | zero =>
    intro rest h
    have h0 : rest = [] := List.length_eq_zero.mp (Nat.le_zero.mp h)
    subst h0
    rw [copyLoop]
    simp
  | succ n ih =>
    intro rest h
    rw [copyLoop]
    split
    · rename_i h0
      rw [List.length_eq_zero.mp h0]
      rfl
    · rename_i h0
      rw [List.flatten_cons, ih]
      · exact List.take_append_drop 1024 rest
      · rw [List.length_drop]
        omega

/-- The chunks the copy loop writes are, put end to end, the bytes of the file. -/
theorem copyLoop_flatten (data : List Nat) : (copyLoop data).flatten = data :=
  copyLoop_flatten_aux data.length data (Nat.le_refl _)

/-! ## The left-hand side of a line -/

theorem lineKey_append (k rest : GoString) (h : 61 ∉ k) :
    lineKey (k ++ str "=#" ++ rest) = k := by
  induction k with
  | nil =>
    have : str "=#" = [61, 35] := by decide
    rw [this]
    simp [lineKey, List.isPrefixOf]
  | cons c k ih =>
    have hc : c ≠ 61 := fun h' => h (h' ▸ List.mem_cons_self _ _)
    have hk : 61 ∉ k := fun h' => h (List.mem_cons_of_mem _ h')
    have h1 : (str "=#").isPrefixOf (c :: (k ++ str "=#" ++ rest)) = false := by
      have : str "=#" = [61, 35] := by decide
      rw [this]
      simp [List.isPrefixOf]
      intro h'
      exact absurd h'.symm hc
    simp only [List.cons_append] at h1 ⊢
    rw [lineKey, h1]
    simp only [Bool.false_eq_true, if_false, List.cons.injEq, true_and]
    exact ih hk

theorem lineKey_colorLine (e : GoString × GoString) (h : 61 ∉ e.1) :
    lineKey (colorLine e) = e.1 := by
  unfold colorLine
  rw [List.append_assoc]
  exact lineKey_append _ _ h

theorem countP_key_eq_one (m : GoMap) (K : GoString) (hn : (keys m).Nodup)
    (hK : K ∈ keys m) : List.countP (fun e => decide (e.1 = K)) m = 1 := by
  induction m with
  | nil => simp [keys] at hK
  | cons e m ih =>
    obtain ⟨a, b⟩ := e
    have h1 : a ∉ keys m := by
      simpa [keys] using (List.nodup_cons.mp hn).1
    have h2 : (keys m).Nodup := (List.nodup_cons.mp hn).2
    by_cases h : a = K
    · subst h
      have h3 : List.countP (fun e : GoString × GoString => decide (e.1 = a)) m = 0 := by
        rw [List.countP_eq_zero]
        intro e he
        simp only [decide_eq_true_eq]
        intro h'
        exact h1 (List.mem_map.mpr ⟨e, he, h'⟩)
      rw [List.countP_cons_of_pos _ _ (by simp), h3]
    · have h3 : K ∈ keys m := by
        simp only [keys, List.map_cons, List.mem_cons] at hK
        rcases hK with hK | hK
        · exact absurd hK.symm h
        · exact hK
      rw [List.countP_cons_of_neg _ _ (by simp [h])]
      exact ih h2 h3

/-! ## Claims C1 to C3 -/

/-- C1: for a mobile key K of the key-translation table with no override, when the desktop
table maps K's translated key to a value V of 8 bytes, the value `makeAttheme` records for
K is the upper case of V[6:8] followed by V[0:6], and the line written for K carries that
value once the two loops have ended without a panic. -/
theorem C1_eight_digits_reordered (env : GoEnv)
    (mapfile tdesktopmap transmap overridemap : GoMap) (converted : Option (List Nat))
    (K : GoString) (hn : (keys mapfile).Nodup) (hK : K ∈ keys mapfile)
    (ho : K ∉ keys overridemap)
    (h8 : (lookup tdesktopmap (lookup mapfile K)).length = 8) :
    lookup (makeAttheme env mapfile tdesktopmap transmap overridemap converted).atthememap K
        = ToUpper env ((lookup tdesktopmap (lookup mapfile K)).drop 6
            ++ (lookup tdesktopmap (lookup mapfile K)).take 6)
      ∧ ((makeAttheme env mapfile tdesktopmap transmap overridemap converted).failure
            ≠ some Failure.sliceBounds →
          colorLine (K, ToUpper env ((lookup tdesktopmap (lookup mapfile K)).drop 6
              ++ (lookup tdesktopmap (lookup mapfile K)).take 6))
            ∈ (makeAttheme env mapfile tdesktopmap transmap overridemap converted).lines) := by
  have h1 : lookup
      (makeAttheme env mapfile tdesktopmap transmap overridemap converted).atthememap K
        = ToUpper env ((lookup tdesktopmap (lookup mapfile K)).drop 6
            ++ (lookup tdesktopmap (lookup mapfile K)).take 6) := by
    rw [makeAttheme_atthememap, recordColors_lookup env mapfile tdesktopmap transmap
      overridemap K hn hK]
    · have h2 : lookup overridemap K = [] := lookup_of_not_mem_keys _ _ ho
      simp [desktopValue, translatedColor, h2, h8]
    · intro e he he1
      exact absurd (List.mem_map.mpr ⟨e, he, he1⟩) ho
  refine ⟨h1, fun hf => ?_⟩
  rw [← h1]
  apply mem_makeAttheme_lines _ _ _ _ _ _ _ hf
  rw [makeAttheme_atthememap]
  exact recordColors_mem_keys_of_mem _ _ _ _ _ _ hK

/-- Scenario S2: the manifest `fg: #aabbccdd;` with the translation `text=fg` gives the
value `DDAABBCC`, on the line `text=#DDAABBCC`. -/
theorem C1_witness_S2 :
    readMapFile (some (str "text=fg")) = .ok [(str "text", str "fg")]
      ∧ readTdesktopFile (some (str "fg: #aabbccdd;"))
          = .ok [(str "fg", str "aabbccdd"), (str "whatever", str "ff00ff")]
      ∧ (keys [(str "text", str "fg")]).Nodup
      ∧ str "text" ∈ keys [(str "text", str "fg")]
      ∧ str "text" ∉ keys []
      ∧ (lookup [(str "fg", str "aabbccdd"), (str "whatever", str "ff00ff")]
            (lookup [(str "text", str "fg")] (str "text"))).length = 8
      ∧ lookup (makeAttheme insertionEnv [(str "text", str "fg")]
            [(str "fg", str "aabbccdd"), (str "whatever", str "ff00ff")] [] []
            (some [])).atthememap (str "text") = str "DDAABBCC"
      ∧ str "text=#DDAABBCC\n" ∈ (makeAttheme insertionEnv [(str "text", str "fg")]
            [(str "fg", str "aabbccdd"), (str "whatever", str "ff00ff")] [] []
            (some [])).lines :=
  ⟨by decide, by decide, by decide, by decide, by decide, by decide,
    (C1_eight_digits_reordered insertionEnv [(str "text", str "fg")]
      [(str "fg", str "aabbccdd"), (str "whatever", str "ff00ff")] [] [] (some [])
      (str "text") (by decide) (by decide) (by decide) (by decide)).1.trans (by decide),
    by decide⟩

/-- C2, as the code has it: for a mobile key K of the key-translation table whose override
is not the empty string, the value `makeAttheme` records for K is composed from the
override value and K's alpha prefix alone, whatever the desktop table holds, and K is
removed from the override table. -/
theorem C2_override_wins (env : GoEnv)
    (mapfile tdesktopmap transmap overridemap : GoMap) (converted : Option (List Nat))
    (K : GoString) (hn : (keys mapfile).Nodup) (hK : K ∈ keys mapfile)
    (ho : lookup overridemap K ≠ []) :
    lookup (makeAttheme env mapfile tdesktopmap transmap overridemap converted).atthememap K
        = ToUpper env (translatedColor transmap K (lookup overridemap K))
      ∧ K ∉ keys (makeAttheme env mapfile tdesktopmap transmap overridemap
          converted).overridemap := by
  constructor
  · rw [makeAttheme_atthememap, recordColors_lookup env mapfile tdesktopmap transmap
      overridemap K hn hK (fun _ _ _ => Or.inl ho)]
    simp [desktopValue, ho]
  · rw [makeAttheme_overridemap]
    intro h
    obtain ⟨e, he, he1⟩ := List.mem_map.mp h
    have h2 := ((recordColors_overridemap env mapfile tdesktopmap transmap overridemap e).mp
      he).2
    apply h2
    rw [he1]
    exact ⟨hK, ho⟩

/-- The override `k=99887766` of a translated key `k`: its value is recorded, reordered,
and `k` leaves the override table. -/
theorem C2_witness :
    (keys [(str "k", str "whatever")]).Nodup
      ∧ str "k" ∈ keys [(str "k", str "whatever")]
      ∧ lookup [(str "k", str "99887766")] (str "k") ≠ []
      ∧ lookup (makeAttheme insertionEnv [(str "k", str "whatever")]
            [(str "whatever", str "ff00ff")] [] [(str "k", str "99887766")]
            (some [])).atthememap (str "k") = str "66998877"
      ∧ str "k" ∉ keys (makeAttheme insertionEnv [(str "k", str "whatever")]
            [(str "whatever", str "ff00ff")] [] [(str "k", str "99887766")]
            (some [])).overridemap :=
  ⟨by decide, by decide, by decide,
    (C2_override_wins insertionEnv [(str "k", str "whatever")]
      [(str "whatever", str "ff00ff")] [] [(str "k", str "99887766")] (some [])
      (str "k") (by decide) (by decide) (by decide)).1.trans (by decide),
    (C2_override_wins insertionEnv [(str "k", str "whatever")]
      [(str "whatever", str "ff00ff")] [] [(str "k", str "99887766")] (some [])
      (str "k") (by decide) (by decide) (by decide)).2⟩

/-- C2 as stated fails for an override that is the empty string: the override file line
`k=` puts `k` in the override table, yet with the translation `k=bg` the value recorded for
`k` is the desktop value of `bg` (it changes with the desktop table), `k` stays in the
override table, and the second loop then panics on it. -/
theorem C2_counterexample_empty_override :
    readMapFile (some (str "k=")) = .ok [(str "k", [])]
      ∧ str "k" ∈ keys [(str "k", str "bg")]
      ∧ str "k" ∈ keys [(str "k", ([] : GoString))]
      ∧ lookup (makeAttheme insertionEnv [(str "k", str "bg")] [(str "bg", str "112233")] []
            [(str "k", [])] (some [])).atthememap (str "k") = str "112233"
      ∧ lookup (makeAttheme insertionEnv [(str "k", str "bg")] [(str "bg", str "445566")] []
            [(str "k", [])] (some [])).atthememap (str "k") = str "445566"
      ∧ str "k" ∈ keys (makeAttheme insertionEnv [(str "k", str "bg")]
            [(str "bg", str "112233")] [] [(str "k", [])] (some [])).overridemap
      ∧ (makeAttheme insertionEnv [(str "k", str "bg")] [(str "bg", str "112233")] []
            [(str "k", [])] (some [])).failure = some Failure.sliceBounds := by
  decide

/-- C3: when `makeAttheme` completes, on tables whose keys hold no `=` (as `readMapFile`
yields them), each mobile key K of the key-translation table has exactly one line in the
output whose left-hand side, the text before `=#`, is K. -/
theorem C3_one_line_per_translated_key (env : GoEnv)
    (mapfile tdesktopmap transmap overridemap : GoMap) (converted : Option (List Nat))
    (K : GoString)
    (hkeys : ∀ k ∈ keys mapfile ++ keys overridemap, 61 ∉ k)
    (hdone : (makeAttheme env mapfile tdesktopmap transmap overridemap converted).failure
      = none)
    (hK : K ∈ keys mapfile) :
    List.countP (fun line => decide (lineKey line = K))
      (makeAttheme env mapfile tdesktopmap transmap overridemap converted).lines = 1 := by
  have hf : (makeAttheme env mapfile tdesktopmap transmap overridemap converted).failure
      ≠ some Failure.sliceBounds := by
    rw [hdone]
    exact fun h => nomatch h
  rw [makeAttheme_lines _ _ _ _ _ _ hf, makeAttheme_atthememap, List.countP_map]
  have h1 : ∀ e ∈ env.rangeOrder
      (recordColors env mapfile tdesktopmap transmap overridemap).atthememap,
      (((fun line => decide (lineKey line = K)) ∘ colorLine) e = true
        ↔ (fun e : GoString × GoString => decide (e.1 = K)) e = true) := by
    intro e he
    have he1 : e.1 ∈ keys (recordColors env mapfile tdesktopmap transmap
        overridemap).atthememap :=
      List.mem_map.mpr ⟨e, (env.rangeOrder_perm _).mem_iff.mp he, rfl⟩
    have he2 : 61 ∉ e.1 := by
      apply hkeys
      rcases recordColors_keys_subset _ _ _ _ _ _ he1 with h | h
      · exact List.mem_append_left _ h
      · exact List.mem_append_right _ h
    simp only [Function.comp, lineKey_colorLine e he2]
  rw [List.countP_congr h1, (env.rangeOrder_perm _).countP_eq]
  exact countP_key_eq_one _ _ (recordColors_nodup _ _ _ _ _)
    (recordColors_mem_keys_of_mem _ _ _ _ _ _ hK)

/-- Two translated keys, one of them with an override: the run completes and the key
`text` has one line. -/
theorem C3_witness :
    (∀ k ∈ keys [(str "text", str "fg"), (str "k", str "whatever")]
        ++ keys [(str "k", str "99887766")], 61 ∉ k)
      ∧ (makeAttheme insertionEnv [(str "text", str "fg"), (str "k", str "whatever")]
          [(str "fg", str "aabbccdd"), (str "whatever", str "ff00ff")] []
          [(str "k", str "99887766")] (some [])).failure = none
      ∧ str "text" ∈ keys [(str "text", str "fg"), (str "k", str "whatever")]
      ∧ List.countP (fun line => decide (lineKey line = str "text"))
          (makeAttheme insertionEnv [(str "text", str "fg"), (str "k", str "whatever")]
            [(str "fg", str "aabbccdd"), (str "whatever", str "ff00ff")] []
            [(str "k", str "99887766")] (some [])).lines = 1 :=
  ⟨by decide, by decide, by decide,
    C3_one_line_per_translated_key insertionEnv
      [(str "text", str "fg"), (str "k", str "whatever")]
      [(str "fg", str "aabbccdd"), (str "whatever", str "ff00ff")] []
      [(str "k", str "99887766")] (some []) (str "text") (by decide) (by decide)
      (by decide)⟩

/-! ## Upper case of hex digits -/

theorem ToUpper_ascii (env : GoEnv) (s : GoString) (h : ∀ c ∈ s, c < 128) :
    ToUpper env s = s.map asciiUpper := by
  unfold ToUpper
  have : s.all (fun c => decide (c < 128)) = true := by
    rw [List.all_eq_true]
    intro c hc
    simpa using h c hc
  rw [if_pos this]

theorem isHexDigit_lt (c : Nat) (h : isHexDigit c = true) : c < 128 := by
  simp only [isHexDigit, decide_eq_true_eq] at h
  omega

theorem isUpperHexDigit_asciiUpper (c : Nat) (h : isHexDigit c = true) :
    isUpperHexDigit (asciiUpper c) = true := by
  simp only [isHexDigit, decide_eq_true_eq] at h
  simp only [isUpperHexDigit, asciiUpper, decide_eq_true_eq]
  split <;> omega

theorem ToUpper_hex (env : GoEnv) (s : GoString) (h : ∀ c ∈ s, isHexDigit c = true) :
    ToUpper env s = s.map asciiUpper :=
  ToUpper_ascii env s (fun c hc => isHexDigit_lt c (h c hc))

theorem upperHex_map_asciiUpper (s : GoString) (h : ∀ c ∈ s, isHexDigit c = true) :
    ∀ c ∈ s.map asciiUpper, isUpperHexDigit c = true := by
  intro c hc
  obtain ⟨d, hd, rfl⟩ := List.mem_map.mp hc
  exact isUpperHexDigit_asciiUpper d (h d hd)

theorem lookup_mem_or_nil (m : GoMap) (k : GoString) :
    lookup m k = [] ∨ (k, lookup m k) ∈ m := by
  by_cases h : k ∈ keys m
  · exact Or.inr (mem_of_mem_keys m k h)
  · exact Or.inl (lookup_of_not_mem_keys m k h)

theorem lookup_hex (m : GoMap) (k : GoString)
    (h : ∀ e ∈ m, ∀ c ∈ e.2, isHexDigit c = true) : ∀ c ∈ lookup m k, isHexDigit c = true := by
  rcases lookup_mem_or_nil m k with h1 | h1
  · rw [h1]
    intro c hc
    simp at hc
  · exact h _ h1

/-- No override is left to panic on: the run does not end with the slice panic. -/
theorem makeAttheme_ne_sliceBounds (env : GoEnv)
    (mapfile tdesktopmap transmap overridemap : GoMap) (converted : Option (List Nat))
    (h : ∀ e ∈ overridemap,
      (e.1 ∈ keys mapfile ∧ lookup overridemap e.1 ≠ []) ∨ 6 ≤ e.2.length) :
    (makeAttheme env mapfile tdesktopmap transmap overridemap converted).failure
      ≠ some Failure.sliceBounds := by
  intro hf
  rw [makeAttheme_sliceBounds_iff, recordColors_failure] at hf
  split at hf
  · cases hf
  · rename_i h1
    apply h1
    intro e he
    have h2 := (recordColors_overridemap env mapfile tdesktopmap transmap overridemap e).mp he
    rcases h e h2.1 with h3 | h3
    · exact absurd h3 h2.2
    · exact h3

/-- A run completes when no override is left to panic on and `converted.jpg` opens. -/
theorem makeAttheme_failure_none (env : GoEnv)
    (mapfile tdesktopmap transmap overridemap : GoMap) (data : List Nat)
    (h : ∀ e ∈ overridemap,
      (e.1 ∈ keys mapfile ∧ lookup overridemap e.1 ≠ []) ∨ 6 ≤ e.2.length) :
    (makeAttheme env mapfile tdesktopmap transmap overridemap (some data)).failure = none := by
  have h1 := makeAttheme_ne_sliceBounds env mapfile tdesktopmap transmap overridemap
    (some data) h
  have h2 : (recordColors env mapfile tdesktopmap transmap overridemap).failure = none := by
    rcases recordColors_failure_cases env mapfile tdesktopmap transmap overridemap with h2 | h2
    · exact h2
    · exact absurd ((makeAttheme_sliceBounds_iff _ _ _ _ _ _).mpr h2) h1
  unfold makeAttheme
  simp only
  split
  · rename_i f hf
    rw [h2] at hf
    cases hf
  · split
    · exact h2
    · exact h2

/-! ## Values of translated keys on tables of hex digits -/

/-- The value recorded for a translated key on tables of hex digits: on tables with one
entry per key, whose desktop and override values are hex digits and whose alpha prefixes
are two hex digits, the value `makeAttheme` records for a translated key K is made of
upper-case hex digits and is either 8 digits long, or the 6 digits of a 6-digit colour V in
upper case when K has no alpha prefix (no `ff` is put in front), or the sentinel `00FF00`
when V has neither 6 nor 8 digits; it is the value on the line written for K once the two
loops have ended without a panic. -/
theorem translated_value_hex (env : GoEnv)
    (mapfile tdesktopmap transmap overridemap : GoMap) (converted : Option (List Nat))
    (K : GoString) (hn : (keys mapfile).Nodup) (hno : (keys overridemap).Nodup)
    (hK : K ∈ keys mapfile)
    (hd : ∀ e ∈ tdesktopmap, ∀ c ∈ e.2, isHexDigit c = true)
    (hov : ∀ e ∈ overridemap, ∀ c ∈ e.2, isHexDigit c = true)
    (ht : ∀ e ∈ transmap, e.2.length = 2 ∧ ∀ c ∈ e.2, isHexDigit c = true) :
    (∀ c ∈ lookup (makeAttheme env mapfile tdesktopmap transmap overridemap
          converted).atthememap K, isUpperHexDigit c = true)
      ∧ ((lookup (makeAttheme env mapfile tdesktopmap transmap overridemap
            converted).atthememap K).length = 8
        ∨ ((desktopValue tdesktopmap overridemap K (lookup mapfile K)).length = 6
            ∧ K ∉ keys transmap
            ∧ lookup (makeAttheme env mapfile tdesktopmap transmap overridemap
                converted).atthememap K
              = (desktopValue tdesktopmap overridemap K (lookup mapfile K)).map asciiUpper)
        ∨ ((desktopValue tdesktopmap overridemap K (lookup mapfile K)).length ≠ 6
            ∧ (desktopValue tdesktopmap overridemap K (lookup mapfile K)).length ≠ 8
            ∧ lookup (makeAttheme env mapfile tdesktopmap transmap overridemap
                converted).atthememap K = str "00FF00"))
      ∧ ((makeAttheme env mapfile tdesktopmap transmap overridemap converted).failure
            ≠ some Failure.sliceBounds →
          colorLine (K, lookup (makeAttheme env mapfile tdesktopmap transmap overridemap
              converted).atthememap K)
            ∈ (makeAttheme env mapfile tdesktopmap transmap overridemap converted).lines) := by
  have ho : ∀ e ∈ overridemap, e.1 = K → lookup overridemap K ≠ [] ∨ e.2.length < 6 := by
    intro e he he1
    have h1 : lookup overridemap K = e.2 := by
      apply lookup_of_mem _ _ _ hno
      rw [← he1]
      exact he
    by_cases h2 : e.2 = []
    · right
      rw [h2]
      decide
    · left
      rw [h1]
      exact h2
  have hV : ∀ c ∈ desktopValue tdesktopmap overridemap K (lookup mapfile K),
      isHexDigit c = true := by
    unfold desktopValue
    split
    · exact lookup_hex _ _ hov
    · exact lookup_hex _ _ hd
  have hrec := recordColors_lookup env mapfile tdesktopmap transmap overridemap K hn hK ho
  rw [makeAttheme_atthememap, hrec]
  refine ⟨?_, ?_, ?_⟩
  · unfold translatedColor
    split
    · split
      · have h1 : ∀ c ∈ lookup transmap K
            ++ desktopValue tdesktopmap overridemap K (lookup mapfile K),
            isHexDigit c = true := by
          intro c hc
          rcases List.mem_append.mp hc with h2 | h2
          · exact lookup_hex _ _ (fun e he => (ht e he).2) c h2
          · exact hV c h2
        rw [ToUpper_hex env _ h1]
        exact upperHex_map_asciiUpper _ h1
      · rw [ToUpper_hex env _ hV]
        exact upperHex_map_asciiUpper _ hV
    · split
      · have h1 : ∀ c ∈ (desktopValue tdesktopmap overridemap K (lookup mapfile K)).drop 6
            ++ (desktopValue tdesktopmap overridemap K (lookup mapfile K)).take 6,
            isHexDigit c = true := by
          intro c hc
          rcases List.mem_append.mp hc with h2 | h2
          · exact hV c (List.mem_of_mem_drop h2)
          · exact hV c (List.mem_of_mem_take h2)
        rw [ToUpper_hex env _ h1]
        exact upperHex_map_asciiUpper _ h1
      · have h1 : ToUpper env (str "00ff00") = str "00FF00" := by
          rw [ToUpper_ascii env _ (by decide)]
          decide
        rw [h1]
        decide
  · unfold translatedColor
    by_cases h6 : (desktopValue tdesktopmap overridemap K (lookup mapfile K)).length = 6
    · rw [if_pos h6]
      by_cases hk : K ∈ keys transmap
      · left
        have h2 := mem_of_mem_keys transmap K hk
        have h3 := (ht _ h2).1
        have h4 : lookup transmap K ≠ [] := by
          intro h'
          rw [h'] at h3
          simp at h3
        rw [if_pos h4]
        have h1 : ∀ c ∈ lookup transmap K
            ++ desktopValue tdesktopmap overridemap K (lookup mapfile K),
            isHexDigit c = true := by
          intro c hc
          rcases List.mem_append.mp hc with h5 | h5
          · exact lookup_hex _ _ (fun e he => (ht e he).2) c h5
          · exact hV c h5
        rw [ToUpper_hex env _ h1, List.length_map, List.length_append, h3, h6]
      · right
        left
        have h4 : ¬ lookup transmap K ≠ [] := by
          simp [lookup_of_not_mem_keys _ _ hk]
        rw [if_neg h4]
        exact ⟨h6, hk, ToUpper_hex env _ hV⟩
    · rw [if_neg h6]
      by_cases h8 : (desktopValue tdesktopmap overridemap K (lookup mapfile K)).length = 8
      · left
        rw [if_pos h8]
        have h1 : ∀ c ∈ (desktopValue tdesktopmap overridemap K (lookup mapfile K)).drop 6
            ++ (desktopValue tdesktopmap overridemap K (lookup mapfile K)).take 6,
            isHexDigit c = true := by
          intro c hc
          rcases List.mem_append.mp hc with h2 | h2
          · exact hV c (List.mem_of_mem_drop h2)
          · exact hV c (List.mem_of_mem_take h2)
        rw [ToUpper_hex env _ h1, List.length_map, List.length_append, List.length_drop,
          List.length_take, h8]
        omega
      · right
        right
        rw [if_neg h8]
        refine ⟨h6, h8, ?_⟩
        rw [ToUpper_ascii env _ (by decide)]
        decide
  · intro hf
    rw [← hrec, ← makeAttheme_atthememap env mapfile tdesktopmap transmap overridemap converted]
    apply mem_makeAttheme_lines _ _ _ _ _ _ _ hf
    rw [makeAttheme_atthememap]
    exact recordColors_mem_keys_of_mem _ _ _ _ _ _ hK

/-! ## The wallpaper block -/

theorem copyLoop_chunk_aux (n : Nat) :
    ∀ rest : List Nat, rest.length ≤ n →
      ∀ chunk ∈ copyLoop rest, 0 < chunk.length ∧ chunk.length ≤ 1024 := by
  induction n with
  | zero =>
    intro rest h chunk hc
    have h0 : rest = [] := List.length_eq_zero.mp (Nat.le_zero.mp h)
    subst h0
    rw [copyLoop] at hc
    simp at hc
  | succ n ih =>
    intro rest h chunk hc
    rw [copyLoop] at hc
    split at hc
    · simp at hc
    · rename_i h0
      rcases List.mem_cons.mp hc with h1 | h1
      · rw [h1, List.length_take]
        omega
      · apply ih (rest.drop 1024) _ chunk h1
        rw [List.length_drop]
        omega

/-- Each write of the copy loop is a chunk of 1 to 1024 bytes. -/
theorem copyLoop_chunk (data : List Nat) :
    ∀ chunk ∈ copyLoop data, 0 < chunk.length ∧ chunk.length ≤ 1024 :=
  copyLoop_chunk_aux data.length data (Nat.le_refl _)

theorem makeAttheme_wallpaper (env : GoEnv)
    (mapfile tdesktopmap transmap overridemap : GoMap) (data : List Nat)
    (hdone : (makeAttheme env mapfile tdesktopmap transmap overridemap (some data)).failure
      = none)
    (hw : lookup (makeAttheme env mapfile tdesktopmap transmap overridemap
      (some data)).atthememap (str "chat_wallpaper") = []) :
    (makeAttheme env mapfile tdesktopmap transmap overridemap (some data)).wallpaper
      = [str "WPS\n"] ++ copyLoop data ++ [str "\nWPE"] := by
  rw [makeAttheme_atthememap] at hw
  have h2 : (recordColors env mapfile tdesktopmap transmap overridemap).failure = none := by
    rcases recordColors_failure_cases env mapfile tdesktopmap transmap overridemap with h2 | h2
    · exact h2
    · have := (makeAttheme_sliceBounds_iff env mapfile tdesktopmap transmap overridemap
        (some data)).mpr h2
      rw [hdone] at this
      cases this
  unfold makeAttheme
  simp only
  split
  · rename_i f hf
    rw [h2] at hf
    cases hf
  · rw [if_pos hw]

/-! ## Claims C5 to C7 -/

/-- C5: when `makeAttheme` completes with `converted.jpg` holding the bytes `data` and no
value recorded for `chat_wallpaper`, the output file is the colour lines, then `WPS\n`,
then exactly `data`, then `\nWPE` and nothing after it; the bytes of `data` are written in
chunks of at most 1024 bytes that put end to end are `data`, whatever its length. -/
theorem C5_wallpaper_block (env : GoEnv)
    (mapfile tdesktopmap transmap overridemap : GoMap) (data : List Nat)
    (hdone : (makeAttheme env mapfile tdesktopmap transmap overridemap (some data)).failure
      = none)
    (hw : lookup (makeAttheme env mapfile tdesktopmap transmap overridemap
      (some data)).atthememap (str "chat_wallpaper") = []) :
    (makeAttheme env mapfile tdesktopmap transmap overridemap (some data)).file
        = ((env.rangeOrder (makeAttheme env mapfile tdesktopmap transmap overridemap
            (some data)).atthememap).map colorLine).flatten
          ++ str "WPS\n" ++ data ++ str "\nWPE"
      ∧ (makeAttheme env mapfile tdesktopmap transmap overridemap (some data)).wallpaper
          = [str "WPS\n"] ++ copyLoop data ++ [str "\nWPE"]
      ∧ (copyLoop data).flatten = data
      ∧ ∀ chunk ∈ copyLoop data, 0 < chunk.length ∧ chunk.length ≤ 1024 := by
  have hf : (makeAttheme env mapfile tdesktopmap transmap overridemap (some data)).failure
      ≠ some Failure.sliceBounds := by
    rw [hdone]
    exact fun h => nomatch h
  have h1 := makeAttheme_wallpaper env mapfile tdesktopmap transmap overridemap data hdone hw
  refine ⟨?_, h1, copyLoop_flatten data, copyLoop_chunk data⟩
  rw [Run.file, h1, makeAttheme_lines _ _ _ _ _ _ hf]
  simp only [List.flatten_append, List.flatten_cons, List.flatten_nil, List.append_nil,
    copyLoop_flatten, List.append_assoc]

/-- A run with one colour line and a 4-byte `converted.jpg`. -/
theorem C5_witness :
    (makeAttheme insertionEnv [(str "text", str "fg")] [(str "fg", str "aabbccdd")] [] []
        (some [255, 216, 255, 217])).failure = none
      ∧ lookup (makeAttheme insertionEnv [(str "text", str "fg")] [(str "fg", str "aabbccdd")]
          [] [] (some [255, 216, 255, 217])).atthememap (str "chat_wallpaper") = []
      ∧ (makeAttheme insertionEnv [(str "text", str "fg")] [(str "fg", str "aabbccdd")] [] []
          (some [255, 216, 255, 217])).file
        = str "text=#DDAABBCC\nWPS\n" ++ [255, 216, 255, 217] ++ str "\nWPE" :=
  ⟨by decide, by decide,
    (C5_wallpaper_block insertionEnv [(str "text", str "fg")] [(str "fg", str "aabbccdd")]
      [] [] [255, 216, 255, 217] (by decide) (by decide)).1.trans (by decide)⟩

/-- C6 as stated fails: on scenario S1 the only line written is `chat_bg=#CC112233`, with
the key as the translation file spells it; `CHAT_BG=#CC112233` is not a line of the
output. -/
theorem C6_counterexample_key_case :
    readTdesktopFile (some (str "bg: #112233;"))
        = .ok [(str "bg", str "112233"), (str "whatever", str "ff00ff")]
      ∧ readMapFile (some (str "chat_bg=bg")) = .ok [(str "chat_bg", str "bg")]
      ∧ readMapFile (some (str "chat_bg=cc")) = .ok [(str "chat_bg", str "cc")]
      ∧ (makeAttheme insertionEnv [(str "chat_bg", str "bg")]
          [(str "bg", str "112233"), (str "whatever", str "ff00ff")]
          [(str "chat_bg", str "cc")] [] (some [])).lines = [str "chat_bg=#CC112233\n"]
      ∧ str "CHAT_BG=#CC112233\n" ∉ (makeAttheme insertionEnv [(str "chat_bg", str "bg")]
          [(str "bg", str "112233"), (str "whatever", str "ff00ff")]
          [(str "chat_bg", str "cc")] [] (some [])).lines
      ∧ (makeAttheme insertionEnv [(str "chat_bg", str "bg")]
          [(str "bg", str "112233"), (str "whatever", str "ff00ff")]
          [(str "chat_bg", str "cc")] [] (some [])).file
        = str "chat_bg=#CC112233\nWPS\n\nWPE" := by
  refine ⟨by decide, by decide, by decide, by decide, by decide, ?_⟩
  simp [Run.file, makeAttheme, copyLoop]
  decide

/-- C6, as the code has it: for the manifest `bg: #112233;`, the key-translation rule
`chat_bg=bg`, the alpha-prefix rule `chat_bg=cc` and no overrides, `readTdesktopFile`,
`readMapFile` and `makeAttheme` write the line `chat_bg=#CC112233`: the value is in upper
case, the key is left as written. This holds for every order of iteration and whether or
not `converted.jpg` can be opened. -/
theorem C6_scenario_S1 (env : GoEnv) (converted : Option (List Nat)) :
    ∃ mapfile transmap tdesktopmap,
      readMapFile (some (str "chat_bg=bg")) = .ok mapfile
        ∧ readMapFile (some (str "chat_bg=cc")) = .ok transmap
        ∧ readTdesktopFile (some (str "bg: #112233;")) = .ok tdesktopmap
        ∧ str "chat_bg=#CC112233\n"
            ∈ (makeAttheme env mapfile tdesktopmap transmap [] converted).lines := by
  refine ⟨[(str "chat_bg", str "bg")], [(str "chat_bg", str "cc")],
    [(str "bg", str "112233"), (str "whatever", str "ff00ff")],
    by decide, by decide, by decide, ?_⟩
  have hf := makeAttheme_ne_sliceBounds env [(str "chat_bg", str "bg")]
    [(str "bg", str "112233"), (str "whatever", str "ff00ff")] [(str "chat_bg", str "cc")]
    [] converted (by simp)
  have hK : str "chat_bg" ∈ keys [(str "chat_bg", str "bg")] := by decide
  have hmem := mem_makeAttheme_lines env [(str "chat_bg", str "bg")]
    [(str "bg", str "112233"), (str "whatever", str "ff00ff")] [(str "chat_bg", str "cc")]
    [] converted (str "chat_bg") hf
    (by rw [makeAttheme_atthememap]; exact recordColors_mem_keys_of_mem _ _ _ _ _ _ hK)
  rw [makeAttheme_atthememap, recordColors_lookup env _ _ _ _ (str "chat_bg") (by decide) hK
    (by simp)] at hmem
  have hv : ToUpper env (translatedColor [(str "chat_bg", str "cc")] (str "chat_bg")
      (desktopValue [(str "bg", str "112233"), (str "whatever", str "ff00ff")] []
        (str "chat_bg") (lookup [(str "chat_bg", str "bg")] (str "chat_bg"))))
      = str "CC112233" := by
    rw [ToUpper_ascii env _ (by decide)]
    decide
  rw [hv] at hmem
  exact hmem

/-- C7: for a translated mobile key K with no override whose desktop value V has 6 bytes,
the value recorded is the upper case of alpha-prefix[K] followed by V when the alpha-prefix
table has an entry for K, and the upper case of V alone when it has none. -/
theorem C7_six_digits (env : GoEnv)
    (mapfile tdesktopmap transmap overridemap : GoMap) (converted : Option (List Nat))
    (K : GoString) (hn : (keys mapfile).Nodup) (hK : K ∈ keys mapfile)
    (ho : K ∉ keys overridemap)
    (h6 : (lookup tdesktopmap (lookup mapfile K)).length = 6) :
    (K ∈ keys transmap →
        lookup (makeAttheme env mapfile tdesktopmap transmap overridemap
            converted).atthememap K
          = ToUpper env (lookup transmap K ++ lookup tdesktopmap (lookup mapfile K)))
      ∧ (K ∉ keys transmap →
        lookup (makeAttheme env mapfile tdesktopmap transmap overridemap
            converted).atthememap K
          = ToUpper env (lookup tdesktopmap (lookup mapfile K))) := by
  have h1 : lookup
      (makeAttheme env mapfile tdesktopmap transmap overridemap converted).atthememap K
        = ToUpper env (translatedColor transmap K (lookup tdesktopmap (lookup mapfile K))) := by
    rw [makeAttheme_atthememap, recordColors_lookup env mapfile tdesktopmap transmap
      overridemap K hn hK]
    · have h2 : lookup overridemap K = [] := lookup_of_not_mem_keys _ _ ho
      simp [desktopValue, h2]
    · intro e he he1
      exact absurd (List.mem_map.mpr ⟨e, he, he1⟩) ho
  rw [h1]
  unfold translatedColor
  rw [if_pos h6]
  constructor
  · intro _
    by_cases h3 : lookup transmap K = []
    · rw [if_neg (by simpa using h3), h3]
      rfl
    · rw [if_pos h3]
  · intro h3
    rw [if_neg (by simp [lookup_of_not_mem_keys _ _ h3])]

/-- Scenario S1 with and without the alpha-prefix rule: `CC112233` and `112233`. -/
theorem C7_witness :
    (keys [(str "chat_bg", str "bg")]).Nodup
      ∧ str "chat_bg" ∈ keys [(str "chat_bg", str "bg")]
      ∧ str "chat_bg" ∉ keys ([] : GoMap)
      ∧ (lookup [(str "bg", str "112233")]
          (lookup [(str "chat_bg", str "bg")] (str "chat_bg"))).length = 6
      ∧ lookup (makeAttheme insertionEnv [(str "chat_bg", str "bg")] [(str "bg", str "112233")]
          [(str "chat_bg", str "cc")] [] (some [])).atthememap (str "chat_bg")
        = str "CC112233"
      ∧ lookup (makeAttheme insertionEnv [(str "chat_bg", str "bg")] [(str "bg", str "112233")]
          [] [] (some [])).atthememap (str "chat_bg")
        = str "112233" :=
  ⟨by decide, by decide, by decide, by decide,
    ((C7_six_digits insertionEnv [(str "chat_bg", str "bg")] [(str "bg", str "112233")]
      [(str "chat_bg", str "cc")] [] (some []) (str "chat_bg")
      (by decide) (by decide) (by decide) (by decide)).1 (by decide)).trans (by decide),
    ((C7_six_digits insertionEnv [(str "chat_bg", str "bg")] [(str "bg", str "112233")]
      [] [] (some []) (str "chat_bg")
      (by decide) (by decide) (by decide) (by decide)).2 (by decide)).trans (by decide)⟩

theorem translateLoop_lines (env : GoEnv) (mapfile tdesktopmap transmap : GoMap)
    (l : List (GoString × GoString)) (run : Run) :
    (translateLoop env mapfile tdesktopmap transmap l run).lines = run.lines := by
  induction l generalizing run with
  | nil => rfl
  | cons e l ih =>
    obtain ⟨key, value⟩ := e
    simp only [translateLoop]
    rw [ih]
    rfl

theorem overrideLoop_lines (transmap : GoMap) (l : List (GoString × GoString))
    (run : Run) : (overrideLoop transmap l run).lines = run.lines := by
  induction l generalizing run with
  | nil => rfl
  | cons e l ih =>
    obtain ⟨key, value⟩ := e
    simp only [overrideLoop]
    split
    · rfl
    · rw [ih]

theorem recordColors_lines (env : GoEnv) (mapfile tdesktopmap transmap overridemap : GoMap) :
    (recordColors env mapfile tdesktopmap transmap overridemap).lines = [] := by
  unfold recordColors
  simp only
  split
  · rw [overrideLoop_lines, translateLoop_lines]
  · rw [translateLoop_lines]

/-- A run that the slice panic stops has written no line. -/
theorem makeAttheme_lines_of_sliceBounds (env : GoEnv)
    (mapfile tdesktopmap transmap overridemap : GoMap) (converted : Option (List Nat))
    (h : (makeAttheme env mapfile tdesktopmap transmap overridemap converted).failure
      = some Failure.sliceBounds) :
    (makeAttheme env mapfile tdesktopmap transmap overridemap converted).lines = [] := by
  have h3 := (makeAttheme_sliceBounds_iff _ _ _ _ _ _).mp h
  unfold makeAttheme
  simp only
  split
  · exact recordColors_lines _ _ _ _ _
  · rename_i h5
    rw [h5] at h3
    cases h3

/-! ## Claims C8 to C10 -/

/-- C8 as stated fails: `readMapFile` keeps the `#` of the override line `k=#99887766`, so
the override value has 9 bytes, neither 6 nor 8; with the translation `k=whatever` the line
written for `k` is `k=#00FF00`, not `k=#66998877`, and the missing-key message is
printed. -/
theorem C8_counterexample_hash_kept :
    readMapFile (some (str "k=#99887766")) = .ok [(str "k", str "#99887766")]
      ∧ readMapFile (some (str "k=whatever")) = .ok [(str "k", str "whatever")]
      ∧ (str "#99887766").length = 9
      ∧ (makeAttheme insertionEnv [(str "k", str "whatever")] [(str "whatever", str "ff00ff")]
          [] [(str "k", str "#99887766")] (some [])).lines = [str "k=#00FF00\n"]
      ∧ str "k=#66998877\n" ∉ (makeAttheme insertionEnv [(str "k", str "whatever")]
          [(str "whatever", str "ff00ff")] [] [(str "k", str "#99887766")] (some [])).lines
      ∧ (makeAttheme insertionEnv [(str "k", str "whatever")] [(str "whatever", str "ff00ff")]
          [] [(str "k", str "#99887766")] (some [])).stdout
        = [str "Key whatever missing from .tdesktop-theme"] := by
  decide

/-- C8, as the code has it: an override rule whose value is written as 8 hex digits
RRGGBBAA with no `#` in front is emitted for its translated key as AARRGGBB. With the
override line `k=99887766` (loaded by `readMapFile`) and the translation `k=whatever`, the
line `makeAttheme` writes for `k` is `k=#66998877`, whatever the desktop and alpha-prefix
tables hold. -/
theorem C8_scenario_S4 (env : GoEnv) (tdesktopmap transmap : GoMap)
    (converted : Option (List Nat)) :
    ∃ mapfile overridemap,
      readMapFile (some (str "k=whatever")) = .ok mapfile
        ∧ readMapFile (some (str "k=99887766")) = .ok overridemap
        ∧ lookup (makeAttheme env mapfile tdesktopmap transmap overridemap
            converted).atthememap (str "k") = str "66998877"
        ∧ str "k=#66998877\n"
            ∈ (makeAttheme env mapfile tdesktopmap transmap overridemap converted).lines := by
  refine ⟨[(str "k", str "whatever")], [(str "k", str "99887766")], by decide, by decide, ?_⟩
  have hK : str "k" ∈ keys [(str "k", str "whatever")] := by decide
  have hf := makeAttheme_ne_sliceBounds env [(str "k", str "whatever")] tdesktopmap transmap
    [(str "k", str "99887766")] converted (by decide)
  have hv : lookup (makeAttheme env [(str "k", str "whatever")] tdesktopmap transmap
      [(str "k", str "99887766")] converted).atthememap (str "k") = str "66998877" := by
    rw [makeAttheme_atthememap, recordColors_lookup env _ _ _ _ (str "k") (by decide) hK
      (fun _ _ _ => Or.inl (by decide))]
    have h1 : desktopValue tdesktopmap [(str "k", str "99887766")] (str "k")
        (lookup [(str "k", str "whatever")] (str "k")) = str "99887766" := by
      unfold desktopValue
      rw [if_pos (by decide)]
      decide
    rw [h1]
    have h2 : translatedColor transmap (str "k") (str "99887766") = str "66998877" := by
      unfold translatedColor
      rw [if_neg (by decide), if_pos (by decide)]
      decide
    rw [h2, ToUpper_ascii env _ (by decide)]
    decide
  refine ⟨hv, ?_⟩
  have hmem := mem_makeAttheme_lines env [(str "k", str "whatever")] tdesktopmap transmap
    [(str "k", str "99887766")] converted (str "k") hf
    (by rw [makeAttheme_atthememap]; exact recordColors_mem_keys_of_mem _ _ _ _ _ _ hK)
  rw [hv] at hmem
  exact hmem

/-- C9: for a translated mobile key K with no override whose translated desktop key D
resolves to a value of neither 6 nor 8 bytes (D absent from the desktop table included),
`makeAttheme` prints `Key D missing from .tdesktop-theme` and records the sentinel `00FF00`
for K. This is no failure: no failure is raised by the first loop, the line of K is
written once the second loop has not panicked, and the run completes when no override is
left over and `converted.jpg` opens. -/
theorem C9_missing_key (env : GoEnv)
    (mapfile tdesktopmap transmap overridemap : GoMap) (converted : Option (List Nat))
    (K : GoString) (hn : (keys mapfile).Nodup) (hK : K ∈ keys mapfile)
    (ho : K ∉ keys overridemap)
    (h6 : (lookup tdesktopmap (lookup mapfile K)).length ≠ 6)
    (h8 : (lookup tdesktopmap (lookup mapfile K)).length ≠ 8) :
    (str "Key " ++ lookup mapfile K ++ str " missing from .tdesktop-theme")
        ∈ (makeAttheme env mapfile tdesktopmap transmap overridemap converted).stdout
      ∧ lookup (makeAttheme env mapfile tdesktopmap transmap overridemap
          converted).atthememap K = str "00FF00"
      ∧ (translateLoop env mapfile tdesktopmap transmap (env.rangeOrder mapfile)
          { overridemap := overridemap, atthememap := [], stdout := [], lines := [],
            wallpaper := [], failure := none }).failure = none
      ∧ ((makeAttheme env mapfile tdesktopmap transmap overridemap converted).failure
            ≠ some Failure.sliceBounds →
          colorLine (K, str "00FF00")
            ∈ (makeAttheme env mapfile tdesktopmap transmap overridemap converted).lines)
      ∧ ((makeAttheme env mapfile tdesktopmap transmap overridemap converted).overridemap = []
            → converted ≠ none →
          (makeAttheme env mapfile tdesktopmap transmap overridemap converted).failure
            = none) := by
  have h2 : lookup overridemap K = [] := lookup_of_not_mem_keys _ _ ho
  have hV : desktopValue tdesktopmap overridemap K (lookup mapfile K)
      = lookup tdesktopmap (lookup mapfile K) := by
    simp [desktopValue, h2]
  have hrec : lookup (makeAttheme env mapfile tdesktopmap transmap overridemap
      converted).atthememap K = str "00FF00" := by
    rw [makeAttheme_atthememap, recordColors_lookup env mapfile tdesktopmap transmap
      overridemap K hn hK, hV]
    · unfold translatedColor
      rw [if_neg h6, if_neg h8, ToUpper_ascii env _ (by decide)]
      decide
    · intro e he he1
      exact absurd (List.mem_map.mpr ⟨e, he, he1⟩) ho
  refine ⟨?_, hrec, translateLoop_failure _ _ _ _ _ _, ?_, ?_⟩
  · rw [makeAttheme_stdout, recordColors_stdout]
    apply translateLoop_stdout_of_mem env mapfile tdesktopmap transmap _ _ K (lookup mapfile K)
    · exact (nodup_keys_rangeOrder env mapfile).mpr hn
    · exact (env.rangeOrder_perm mapfile).mem_iff.mpr (mem_of_mem_keys _ _ hK)
    · rw [hV]
      exact h6
    · rw [hV]
      exact h8
  · intro hf
    rw [← hrec]
    apply mem_makeAttheme_lines _ _ _ _ _ _ _ hf
    rw [makeAttheme_atthememap]
    exact recordColors_mem_keys_of_mem _ _ _ _ _ _ hK
  · intro hleft hconv
    obtain ⟨data, rfl⟩ := Option.ne_none_iff_exists'.mp hconv
    have h3 : (recordColors env mapfile tdesktopmap transmap overridemap).failure = none := by
      rw [recordColors_failure]
      rw [makeAttheme_overridemap] at hleft
      rw [hleft]
      simp
    unfold makeAttheme
    simp only
    split
    · rename_i f hf
      rw [h3] at hf
      cases hf
    · split
      · exact h3
      · exact h3

/-- Scenario S5: translation `k=nosuch`, no override. The message names `nosuch`, the line
is `k=#00FF00`, and the run completes. -/
theorem C9_witness_S5 :
    readMapFile (some (str "k=nosuch")) = .ok [(str "k", str "nosuch")]
      ∧ (keys [(str "k", str "nosuch")]).Nodup
      ∧ str "k" ∈ keys [(str "k", str "nosuch")]
      ∧ str "k" ∉ keys ([] : GoMap)
      ∧ (lookup [(str "whatever", str "ff00ff")]
          (lookup [(str "k", str "nosuch")] (str "k"))).length ≠ 6
      ∧ (lookup [(str "whatever", str "ff00ff")]
          (lookup [(str "k", str "nosuch")] (str "k"))).length ≠ 8
      ∧ str "Key nosuch missing from .tdesktop-theme"
          ∈ (makeAttheme insertionEnv [(str "k", str "nosuch")]
              [(str "whatever", str "ff00ff")] [] [] (some [])).stdout
      ∧ str "k=#00FF00\n"
          ∈ (makeAttheme insertionEnv [(str "k", str "nosuch")]
              [(str "whatever", str "ff00ff")] [] [] (some [])).lines
      ∧ (makeAttheme insertionEnv [(str "k", str "nosuch")]
            [(str "whatever", str "ff00ff")] [] [] (some [])).failure = none :=
  ⟨by decide, by decide, by decide, by decide, by decide, by decide,
    (C9_missing_key insertionEnv [(str "k", str "nosuch")] [(str "whatever", str "ff00ff")]
      [] [] (some []) (str "k") (by decide) (by decide) (by decide) (by decide)
      (by decide)).1,
    (C9_missing_key insertionEnv [(str "k", str "nosuch")] [(str "whatever", str "ff00ff")]
      [] [] (some []) (str "k") (by decide) (by decide) (by decide) (by decide)
      (by decide)).2.2.2.1 (by decide),
    (C9_missing_key insertionEnv [(str "k", str "nosuch")] [(str "whatever", str "ff00ff")]
      [] [] (some []) (str "k") (by decide) (by decide) (by decide) (by decide)
      (by decide)).2.2.2.2 (by decide) (by decide)⟩

/-- C10: a mobile key that is a key neither of the key-translation table nor of the
override table gets no value recorded by `makeAttheme`, and, on tables whose keys hold no
`=` (as `readMapFile` yields them), no line of the output has it as left-hand side. -/
theorem C10_no_line_for_unknown_key (env : GoEnv)
    (mapfile tdesktopmap transmap overridemap : GoMap) (converted : Option (List Nat))
    (K : GoString) (hm : K ∉ keys mapfile) (ho : K ∉ keys overridemap) :
    K ∉ keys (makeAttheme env mapfile tdesktopmap transmap overridemap converted).atthememap
      ∧ ((∀ k ∈ keys mapfile ++ keys overridemap, 61 ∉ k) →
          ∀ line ∈ (makeAttheme env mapfile tdesktopmap transmap overridemap converted).lines,
            lineKey line ≠ K) := by
  have h1 : K ∉ keys (makeAttheme env mapfile tdesktopmap transmap overridemap
      converted).atthememap := by
    rw [makeAttheme_atthememap]
    intro h
    rcases recordColors_keys_subset _ _ _ _ _ _ h with h2 | h2
    · exact hm h2
    · exact ho h2
  refine ⟨h1, ?_⟩
  intro hkeys line hline
  by_cases hf : (makeAttheme env mapfile tdesktopmap transmap overridemap converted).failure
      = some Failure.sliceBounds
  · rw [makeAttheme_lines_of_sliceBounds _ _ _ _ _ _ hf] at hline
    simp at hline
  · rw [makeAttheme_lines _ _ _ _ _ _ hf] at hline
    obtain ⟨e, he, rfl⟩ := List.mem_map.mp hline
    have he1 : e.1 ∈ keys (makeAttheme env mapfile tdesktopmap transmap overridemap
        converted).atthememap :=
      List.mem_map.mpr ⟨e, (env.rangeOrder_perm _).mem_iff.mp he, rfl⟩
    have he2 : 61 ∉ e.1 := by
      apply hkeys
      rw [makeAttheme_atthememap] at he1
      rcases recordColors_keys_subset _ _ _ _ _ _ he1 with h | h
      · exact List.mem_append_left _ h
      · exact List.mem_append_right _ h
    rw [lineKey_colorLine e he2]
    intro h
    exact h1 (h ▸ he1)

/-- The key `nokey` with the tables of scenario S2: nothing recorded and no line. -/
theorem C10_witness :
    str "nokey" ∉ keys [(str "text", str "fg")]
      ∧ str "nokey" ∉ keys [(str "k", str "99887766")]
      ∧ (∀ k ∈ keys [(str "text", str "fg")] ++ keys [(str "k", str "99887766")], 61 ∉ k)
      ∧ str "nokey" ∉ keys (makeAttheme insertionEnv [(str "text", str "fg")]
          [(str "fg", str "aabbccdd")] [] [(str "k", str "99887766")] (some [])).atthememap
      ∧ ∀ line ∈ (makeAttheme insertionEnv [(str "text", str "fg")]
          [(str "fg", str "aabbccdd")] [] [(str "k", str "99887766")] (some [])).lines,
          lineKey line ≠ str "nokey" :=
  ⟨by decide, by decide, by decide,
    (C10_no_line_for_unknown_key insertionEnv [(str "text", str "fg")]
      [(str "fg", str "aabbccdd")] [] [(str "k", str "99887766")] (some []) (str "nokey")
      (by decide) (by decide)).1,
    (C10_no_line_for_unknown_key insertionEnv [(str "text", str "fg")]
      [(str "fg", str "aabbccdd")] [] [(str "k", str "99887766")] (some []) (str "nokey")
      (by decide) (by decide)).2 (by decide)⟩

/-! ## strings.Split -/

theorem splitAux_ne_nil (sep : GoString) (n : Nat) (s : GoString) : splitAux sep n s ≠ [] := by
  induction s generalizing n with
  | nil => simp [splitAux]
  | cons c rest ih =>
    cases n with
    | succ k =>
      rw [splitAux]
      exact ih k
    | zero =>
      rw [splitAux]
      split
      · simp
      · split <;> simp

theorem splitAux_skip (sep x rest : GoString) :
    splitAux sep x.length (x ++ rest) = splitAux sep 0 rest := by
  induction x with
  | nil => rfl
  | cons c x ih =>
    simp only [List.length_cons, List.cons_append]
    rw [splitAux]
    exact ih

/-- A text in which the separator does not occur is one piece. -/
theorem Split_of_no_occurrence (s sep : GoString) (h : ¬ sep <:+: s) : Split s sep = [s] := by
  unfold Split
  induction s with
  | nil => rfl
  | cons c rest ih =>
    have h1 : sep.isPrefixOf (c :: rest) = false := by
      rw [Bool.eq_false_iff]
      intro h2
      exact h (List.isPrefixOf_iff_prefix.mp h2).isInfix
    have h2 : ¬ sep <:+: rest := fun h3 => h (h3.trans (List.suffix_cons c rest).isInfix)
    rw [splitAux, h1, ih h2]
    rfl

/-- A text cut at the first occurrence of the separator, when the first byte of the
separator does not occur before it. -/
theorem Split_append_sep (k rest : GoString) (a : Nat) (tl : GoString) (h : a ∉ k) :
    Split (k ++ (a :: tl) ++ rest) (a :: tl) = k :: Split rest (a :: tl) := by
  unfold Split
  induction k with
  | nil =>
    have h1 : (a :: tl).isPrefixOf ([] ++ (a :: tl) ++ rest) = true := by
      rw [List.isPrefixOf_iff_prefix, List.nil_append]
      exact List.prefix_append _ _
    simp only [List.nil_append, List.cons_append] at h1 ⊢
    rw [splitAux, h1]
    simp only [if_true, List.length_cons, Nat.add_sub_cancel]
    rw [splitAux_skip]
  | cons c k ih =>
    have hc : a ≠ c := fun h' => h (h' ▸ List.mem_cons_self _ _)
    have hk : a ∉ k := fun h' => h (List.mem_cons_of_mem _ h')
    have h1 : (a :: tl).isPrefixOf (c :: (k ++ (a :: tl) ++ rest)) = false := by
      rw [Bool.eq_false_iff]
      intro h2
      have h3 := List.isPrefixOf_iff_prefix.mp h2
      obtain ⟨t, ht⟩ := h3
      simp only [List.cons_append, List.cons.injEq] at ht
      exact hc ht.1
    simp only [List.cons_append] at h1 ⊢
    rw [splitAux, h1]
    simp only [List.cons_append] at ih
    rw [ih hk]
    rfl

/-- The first piece of a text starts with every beginning of the text that is free of the
first byte of the separator. -/
theorem Split_head_append (p q : GoString) (a : Nat) (tl : GoString) (h : a ∉ p) :
    ∃ t ps, Split (p ++ q) (a :: tl) = (p ++ t) :: ps := by
  unfold Split
  induction p with
  | nil =>
    cases hs : splitAux (a :: tl) 0 q with
    | nil => exact absurd hs (splitAux_ne_nil _ _ _)
    | cons t ps => exact ⟨t, ps, by simpa using hs⟩
  | cons c p ih =>
    have hc : a ≠ c := fun h' => h (h' ▸ List.mem_cons_self _ _)
    have hp : a ∉ p := fun h' => h (List.mem_cons_of_mem _ h')
    obtain ⟨t, ps, ht⟩ := ih hp
    have h1 : (a :: tl).isPrefixOf (c :: (p ++ q)) = false := by
      rw [Bool.eq_false_iff]
      intro h2
      obtain ⟨u, hu⟩ := List.isPrefixOf_iff_prefix.mp h2
      simp only [List.cons_append, List.cons.injEq] at hu
      exact hc hu.1
    refine ⟨t, ps, ?_⟩
    simp only [List.cons_append]
    rw [splitAux, h1, ht]
    rfl

theorem singleton_infix_iff (c : Nat) (s : GoString) : [c] <:+: s ↔ c ∈ s := by
  constructor
  · rintro ⟨u, v, h⟩
    rw [← h]
    simp
  · intro h
    obtain ⟨u, v, h1⟩ := List.append_of_mem h
    exact ⟨u, v, by rw [h1]; simp⟩

/-- Cut at a one-byte separator, a text has two pieces or more exactly when the byte occurs
in it. -/
theorem Split_length_ge_two_iff (c : Nat) (s : GoString) :
    2 ≤ (Split s [c]).length ↔ c ∈ s := by
  constructor
  · intro h
    by_contra hc
    rw [Split_of_no_occurrence s [c] (fun h' => hc ((singleton_infix_iff c s).mp h'))] at h
    simp at h
  · intro h
    obtain ⟨u, v, h1, h2⟩ := List.eq_append_cons_of_mem h
    have h3 : s = u ++ [c] ++ v := by rw [h1]; simp
    rw [h3, Split_append_sep u v c [] h2, List.length_cons]
    have h4 : Split v [c] ≠ [] := splitAux_ne_nil _ _ _
    have h5 : 0 < (Split v [c]).length := List.length_pos.mpr h4
    omega

/-! ## The scanner -/

theorem scanTokens_snd (ls : List GoString) :
    (scanTokens ls).2 = false ↔ ∀ l ∈ ls, l.length < maxScanTokenSize := by
  induction ls with
  | nil => simp [scanTokens]
  | cons l ls ih =>
    rw [scanTokens]
    by_cases h : maxScanTokenSize ≤ l.length
    · rw [if_pos h]
      simp only [List.forall_mem_cons]
      constructor
      · intro h'
        cases h'
      · intro h'
        omega
    · rw [if_neg h]
      simp only [List.forall_mem_cons, ih]
      constructor
      · intro h'
        exact ⟨by omega, h'⟩
      · intro h'
        exact h'.2

/-! ## The manifest line -/

/-- What the loop of `readTdesktopFile` does with a line `key: value;tail` whose key and
value hold no `:` and whose value holds no `;`. -/
theorem tdesktopLine_rule (filemap : GoMap) (k v tail : GoString) (hk : 58 ∉ k)
    (hv : 58 ∉ v) (hv' : 59 ∉ v) :
    tdesktopLine filemap (k ++ str ": " ++ v ++ str ";" ++ tail)
      = assign filemap k (trimPrefixOf
          (if hasPrefixOf v (str "#") then v else lookup filemap v) (str "#")) := by
  have e1 : str ": " = 58 :: [32] := by decide
  have e2 : str ";" = 59 :: [] := by decide
  have h1 : k ++ str ": " ++ v ++ str ";" ++ tail = k ++ (58 :: [32]) ++ (v ++ [59] ++ tail) := by
    rw [e1, e2]
    simp
  have h2 : 58 ∉ v ++ [59] := by
    intro h
    rcases List.mem_append.mp h with h | h
    · exact hv h
    · simp at h
  obtain ⟨t, ps, h3⟩ := Split_head_append (v ++ [59]) tail 58 [32] h2
  have h4 : Split (v ++ [59] ++ t) (59 :: []) = v :: Split t (59 :: []) :=
    Split_append_sep v t 59 [] hv'
  unfold tdesktopLine
  rw [h1, e1, Split_append_sep k _ 58 [32] hk, h3]
  simp only
  rw [e2, h4]
  by_cases hp : hasPrefixOf v (str "#") = true
  · simp [hp]
  · simp [hp]

/-- The same for a line `key: value` with no `;`. -/
theorem tdesktopLine_rule_bare (filemap : GoMap) (k v : GoString) (hk : 58 ∉ k)
    (hv : 58 ∉ v) (hv' : 59 ∉ v) :
    tdesktopLine filemap (k ++ str ": " ++ v)
      = assign filemap k (trimPrefixOf
          (if hasPrefixOf v (str "#") then v else lookup filemap v) (str "#")) := by
  have e1 : str ": " = 58 :: [32] := by decide
  have e2 : str ";" = 59 :: [] := by decide
  have h3 : Split v (58 :: [32]) = [v] := by
    apply Split_of_no_occurrence
    rintro ⟨a, b, h⟩
    apply hv
    rw [← h]
    simp
  have h4 : Split v (59 :: []) = [v] := by
    apply Split_of_no_occurrence
    intro h
    exact hv' ((singleton_infix_iff 59 v).mp h)
  unfold tdesktopLine
  rw [e1, Split_append_sep k _ 58 [32] hk, h3]
  simp only
  rw [e2, h4]
  by_cases hp : hasPrefixOf v (str "#") = true
  · simp [hp]
  · simp [hp]

/-- The same for a line `key: value: tail`, cut again at the second `: `. -/
theorem tdesktopLine_rule_second (filemap : GoMap) (k v tail : GoString) (hk : 58 ∉ k)
    (hv : 58 ∉ v) (hv' : 59 ∉ v) :
    tdesktopLine filemap (k ++ str ": " ++ v ++ str ": " ++ tail)
      = assign filemap k (trimPrefixOf
          (if hasPrefixOf v (str "#") then v else lookup filemap v) (str "#")) := by
  have e1 : str ": " = 58 :: [32] := by decide
  have e2 : str ";" = 59 :: [] := by decide
  have h1 : k ++ str ": " ++ v ++ str ": " ++ tail
      = k ++ (58 :: [32]) ++ (v ++ (58 :: [32]) ++ tail) := by
    rw [e1]
    simp
  have h4 : Split v (59 :: []) = [v] := by
    apply Split_of_no_occurrence
    intro h
    exact hv' ((singleton_infix_iff 59 v).mp h)
  unfold tdesktopLine
  rw [h1, e1, Split_append_sep k _ 58 [32] hk, Split_append_sep v _ 58 [32] hv]
  simp only
  rw [e2, h4]
  by_cases hp : hasPrefixOf v (str "#") = true
  · simp [hp]
  · simp [hp]

/-! ## Claims C11 and C13, and the counterexample of C12 -/

/-- C11 as stated fails when the value of the target begins with `#`: for the manifest
`t: ##fff;` then `k: t;` the table holds `#fff` for `t`, and the alias line stores `fff`
under `k`, the value of `t` less its leading `#`. -/
theorem C11_counterexample_hash_value :
    readTdesktopFile (some (str "t: ##fff;\nk: t;"))
        = .ok [(str "t", str "#fff"), (str "k", str "fff"), (str "whatever", str "ff00ff")]
      ∧ lookup [(str "t", str "#fff"), (str "k", str "fff"), (str "whatever", str "ff00ff")]
          (str "t") = str "#fff"
      ∧ lookup [(str "t", str "#fff"), (str "k", str "fff"), (str "whatever", str "ff00ff")]
          (str "k") = str "fff"
      ∧ str "fff" ≠ str "#fff" := by
  decide

/-- C11, as the code has it: `readTdesktopFile` resolves an alias by one lookup in the
table built from the preceding lines `pre` only. A line `k: t;` (names without `:` or `;`,
`t` not starting with `#`) stores under `k` the value `t` has at that point less a leading
`#` if it has one: exactly that value when it does not begin with `#`, and the empty string
when no preceding line defined `t`. -/
theorem C11_alias_one_lookup (pre : List GoString) (k t : GoString) (hk : 58 ∉ k)
    (ht : 58 ∉ t) (ht' : 59 ∉ t) (hh : hasPrefixOf t (str "#") = false) :
    tdesktopLine (pre.foldl tdesktopLine []) (k ++ str ": " ++ t ++ str ";")
        = assign (pre.foldl tdesktopLine []) k
            (trimPrefixOf (lookup (pre.foldl tdesktopLine []) t) (str "#"))
      ∧ (hasPrefixOf (lookup (pre.foldl tdesktopLine []) t) (str "#") = false →
          lookup (tdesktopLine (pre.foldl tdesktopLine []) (k ++ str ": " ++ t ++ str ";")) k
            = lookup (pre.foldl tdesktopLine []) t)
      ∧ (t ∉ keys (pre.foldl tdesktopLine []) →
          lookup (tdesktopLine (pre.foldl tdesktopLine []) (k ++ str ": " ++ t ++ str ";")) k
            = []) := by
  have h1 : tdesktopLine (pre.foldl tdesktopLine []) (k ++ str ": " ++ t ++ str ";")
      = assign (pre.foldl tdesktopLine []) k
          (trimPrefixOf (lookup (pre.foldl tdesktopLine []) t) (str "#")) := by
    have h2 := tdesktopLine_rule (pre.foldl tdesktopLine []) k t [] hk ht ht'
    rw [List.append_nil] at h2
    rw [h2, hh]
    simp
  refine ⟨h1, ?_, ?_⟩
  · intro h3
    rw [h1, lookup_assign, if_pos rfl, trimPrefixOf, h3]
    simp
  · intro h3
    rw [h1, lookup_assign, if_pos rfl, lookup_of_not_mem_keys _ _ h3]
    rfl

/-- The manifest `base: #010203;` then `accent: base;` yields `accent -> 010203`, and an
alias of a name defined by no earlier line yields the empty string. -/
theorem C11_witness :
    readTdesktopFile (some (str "base: #010203;\naccent: base;"))
        = .ok [(str "base", str "010203"), (str "accent", str "010203"),
            (str "whatever", str "ff00ff")]
      ∧ 58 ∉ str "accent" ∧ 58 ∉ str "base" ∧ 59 ∉ str "base"
      ∧ hasPrefixOf (str "base") (str "#") = false
      ∧ hasPrefixOf (lookup ([str "base: #010203;"].foldl tdesktopLine []) (str "base"))
          (str "#") = false
      ∧ lookup (tdesktopLine ([str "base: #010203;"].foldl tdesktopLine [])
          (str "accent" ++ str ": " ++ str "base" ++ str ";")) (str "accent") = str "010203"
      ∧ str "base" ∉ keys (([] : List GoString).foldl tdesktopLine [])
      ∧ lookup (tdesktopLine (([] : List GoString).foldl tdesktopLine [])
          (str "accent" ++ str ": " ++ str "base" ++ str ";")) (str "accent") = [] :=
  ⟨by decide, by decide, by decide, by decide, by decide, by decide,
    ((C11_alias_one_lookup [str "base: #010203;"] (str "accent") (str "base")
      (by decide) (by decide) (by decide) (by decide)).2.1 (by decide)).trans (by decide),
    by decide,
    (C11_alias_one_lookup [] (str "accent") (str "base")
      (by decide) (by decide) (by decide) (by decide)).2.2 (by decide)⟩

/-- C12 as stated fails on a line with text after the `;`: for `bg: #112233; // main` the
loop of `readTdesktopFile` stores `112233` under `bg`, while the whole text after the first
`: ` with a trailing `;` trimmed and without its `#` is `112233; // main`. It fails on an
alias line too: `accent: base;` stores the value of `base`, not the text `base`. -/
theorem C12_counterexample_text_after_semicolon :
    tdesktopLine [] (str "bg: #112233; // main") = [(str "bg", str "112233")]
      ∧ specTdesktopLine [] (str "bg: #112233; // main")
          = [(str "bg", str "112233; // main")]
      ∧ tdesktopLine [] (str "bg: #112233; // main")
          ≠ specTdesktopLine [] (str "bg: #112233; // main")
      ∧ tdesktopLine [(str "base", str "010203")] (str "accent: base;")
          = [(str "base", str "010203"), (str "accent", str "010203")]
      ∧ specTdesktopLine [(str "base", str "010203")] (str "accent: base;")
          = [(str "base", str "010203"), (str "accent", str "base")] := by
  decide

/-- C13: the table `readTdesktopFile` returns maps `whatever` to `ff00ff`, for every
manifest, one that defines a rule named `whatever` included; and it returns a table for
every manifest that can be opened and has no line too long for the scanner. -/
theorem C13_whatever_sentinel :
    (∀ (file : Option (List Nat)) (m : GoMap), readTdesktopFile file = .ok m →
        lookup m (str "whatever") = str "ff00ff")
      ∧ (∀ data : List Nat, (∀ l ∈ rawLines data, l.length < maxScanTokenSize) →
          ∃ m, readTdesktopFile (some data) = .ok m
            ∧ lookup m (str "whatever") = str "ff00ff") := by
  have key : ∀ (file : Option (List Nat)) (m : GoMap), readTdesktopFile file = .ok m →
      lookup m (str "whatever") = str "ff00ff" := by
    intro file m h
    unfold readTdesktopFile at h
    cases file with
    | none => cases h
    | some data =>
      simp only at h
      split at h
      · cases h
      · injection h with h'
        rw [← h', lookup_assign, if_pos rfl]
  refine ⟨key, ?_⟩
  intro data hlines
  have h1 : (scanTokens (rawLines data)).2 = false := (scanTokens_snd _).mpr hlines
  have h2 : readTdesktopFile (some data)
      = .ok (assign ((scanTokens (rawLines data)).1.foldl tdesktopLine [])
          (str "whatever") (str "ff00ff")) := by
    unfold readTdesktopFile
    simp only [h1]
    rfl
  exact ⟨_, h2, key _ _ h2⟩

/-- A manifest that defines `whatever` itself: the returned table still maps it to
`ff00ff`. -/
theorem C13_witness :
    readTdesktopFile (some (str "whatever: #000000;\nbg: whatever;"))
        = .ok [(str "whatever", str "ff00ff"), (str "bg", str "000000")]
      ∧ lookup [(str "whatever", str "ff00ff"), (str "bg", str "000000")] (str "whatever")
        = str "ff00ff"
      ∧ (∀ l ∈ rawLines (str "whatever: #000000;\nbg: whatever;"),
          l.length < maxScanTokenSize) :=
  ⟨by decide,
    C13_whatever_sentinel.1 (some (str "whatever: #000000;\nbg: whatever;")) _ (by decide),
    by decide⟩

/-! ## Assignments in a row: the last one wins -/

theorem foldl_assign_lookup_of_not_mem (l : List (GoString × GoString)) (m : GoMap)
    (k : GoString) (h : k ∉ keys l) :
    lookup (l.foldl (fun o e => assign o e.1 e.2) m) k = lookup m k := by
  induction l generalizing m with
  | nil => rfl
  | cons e l ih =>
    simp only [keys, List.map_cons, List.mem_cons, not_or] at h
    have h1 : ¬ e.1 = k := fun h' => h.1 h'.symm
    rw [List.foldl_cons, ih _ h.2, lookup_assign, if_neg h1]

theorem foldl_assign_lookup_last (before after : List (GoString × GoString))
    (e : GoString × GoString) (m : GoMap) (h : ∀ e' ∈ after, e'.1 ≠ e.1) :
    lookup ((before ++ e :: after).foldl (fun o e => assign o e.1 e.2) m) e.1 = e.2 := by
  have h1 : e.1 ∉ keys after := by
    intro h2
    obtain ⟨e', he', he1⟩ := List.mem_map.mp h2
    exact h e' he' he1
  rw [List.foldl_append, List.foldl_cons, foldl_assign_lookup_of_not_mem _ _ _ h1,
    lookup_assign, if_pos rfl]

theorem foldl_assign_mem_keys (l : List (GoString × GoString)) (m : GoMap) (k : GoString) :
    k ∈ keys (l.foldl (fun o e => assign o e.1 e.2) m) ↔ k ∈ keys m ∨ k ∈ keys l := by
  induction l generalizing m with
  | nil => simp [keys]
  | cons e l ih =>
    have h2 : k ∈ keys (e :: l) ↔ k = e.1 ∨ k ∈ keys l := by
      simp [keys]
    rw [List.foldl_cons, ih, mem_keys_assign, h2]
    tauto

theorem foldl_assign_nodup (l : List (GoString × GoString)) (m : GoMap)
    (h : (keys m).Nodup) : (keys (l.foldl (fun o e => assign o e.1 e.2) m)).Nodup := by
  induction l generalizing m with
  | nil => exact h
  | cons e l ih =>
    rw [List.foldl_cons]
    exact ih _ (nodup_keys_assign _ _ _ h)

/-! ## Lemmas on readMapFile -/

/-- The assignment the loop of `readMapFile` makes for one line. -/
theorem readMapLoop_cons_of_mem (line : GoString) (rest : List GoString) (m : GoMap)
    (h : 61 ∈ line) :
    readMapLoop (line :: rest) m
      = readMapLoop rest (assign m ((Split line (str "=")).headD [])
          ((Split line (str "=")).tail.headD [])) := by
  have e1 : str "=" = [61] := by decide
  have h1 := (Split_length_ge_two_iff 61 line).mpr h
  rw [readMapLoop, e1]
  cases hs : Split line [61] with
  | nil => rw [hs] at h1; simp at h1
  | cons r0 t =>
    cases t with
    | nil => rw [hs] at h1; simp at h1
    | cons r1 t' => rfl

theorem readMapLoop_cons_of_not_mem (line : GoString) (rest : List GoString) (m : GoMap)
    (h : 61 ∉ line) : readMapLoop (line :: rest) m = .fail .indexOutOfRange := by
  have e1 : str "=" = [61] := by decide
  rw [readMapLoop, e1,
    Split_of_no_occurrence line [61] (fun h' => h ((singleton_infix_iff 61 line).mp h'))]

/-- The loop of `readMapFile` assigns for every line in turn, and panics at the first line
without `=`. -/
theorem readMapLoop_eq (lines : List GoString) (m : GoMap) :
    readMapLoop lines m
      = if ∀ line ∈ lines, 61 ∈ line then
          .ok (lines.foldl (fun o line => assign o ((Split line (str "=")).headD [])
            ((Split line (str "=")).tail.headD [])) m)
        else .fail .indexOutOfRange := by
  induction lines generalizing m with
  | nil => simp [readMapLoop]
  | cons line rest ih =>
    by_cases h : 61 ∈ line
    · rw [readMapLoop_cons_of_mem line rest m h, ih]
      simp only [List.forall_mem_cons, h, true_and, List.foldl_cons]
    · rw [readMapLoop_cons_of_not_mem line rest m h]
      simp [h]

/-- The table `readMapFile` returns has one entry per key. -/
theorem readMapFile_nodup (file : Option (List Nat)) (m : GoMap)
    (h : readMapFile file = .ok m) : (keys m).Nodup := by
  cases file with
  | none =>
    simp only [readMapFile] at h
    injection h with h'
    rw [← h']
    simp [keys]
  | some data =>
    simp only [readMapFile] at h
    rw [readMapLoop_eq] at h
    split at h
    · cases h
    · rename_i filemap hm
      split at hm
      · injection hm with hm'
        split at h
        · cases h
        · injection h with h'
          rw [← h', ← hm']
          have := foldl_assign_nodup
            (((scanTokens (rawLines data)).1).map (fun line =>
              ((Split line (str "=")).headD [], (Split line (str "=")).tail.headD [])))
            [] (by simp [keys])
          rw [List.foldl_map] at this
          exact this
      · cases hm

theorem scanTokens_fst (ls : List GoString) (h : ∀ l ∈ ls, l.length < maxScanTokenSize) :
    (scanTokens ls).1 = ls.map dropCR := by
  induction ls with
  | nil => rfl
  | cons l ls ih =>
    have h1 : ¬ maxScanTokenSize ≤ l.length := by
      have := h l (List.mem_cons_self _ _)
      omega
    rw [scanTokens, if_neg h1, List.map_cons, ih (fun l' hl' => h l' (List.mem_cons_of_mem _ hl'))]

theorem rawLines_replicate (n : Nat) (c : Nat) (hc : c ≠ 10) :
    rawLines (List.replicate (n + 1) c) = [List.replicate (n + 1) c] := by
  induction n with
  | zero => simp [rawLines, hc]
  | succ n ih =>
    rw [List.replicate_succ, rawLines, if_neg hc, ih]

theorem readMapFile_of_scan_too_long (data : List Nat)
    (h : scanTokens (rawLines data) = ([], true)) :
    readMapFile (some data) = .fail .tokenTooLong := by
  unfold readMapFile
  simp only [h, readMapLoop]
  rfl

/-! ## Claim C19 -/

/-- C19 as stated fails on a file with a line too long for the scanner: the file of 70000
bytes `=` is one line, which contains `=`, yet `readMapFile` does not complete; the scan
ends with `ErrTooLong` and the function stops the program with `log.Fatal`. -/
theorem C19_counterexample_long_line :
    rawLines (List.replicate 70000 61) = [List.replicate 70000 61]
      ∧ (∀ line ∈ rawLines (List.replicate 70000 61), 61 ∈ line)
      ∧ readMapFile (some (List.replicate 70000 61)) = .fail .tokenTooLong := by
  have h1 : rawLines (List.replicate 70000 61) = [List.replicate 70000 61] :=
    rawLines_replicate 69999 61 (by decide)
  have h2 : scanTokens [List.replicate 70000 61] = ([], true) := by
    rw [scanTokens, if_pos]
    rw [List.length_replicate]
    decide
  refine ⟨h1, ?_, ?_⟩
  · rw [h1]
    intro line hl
    rw [List.mem_singleton.mp hl]
    exact List.mem_replicate.mpr ⟨by decide, rfl⟩
  · apply readMapFile_of_scan_too_long
    rw [h1]
    exact h2

/-- C19, as the code has it: `readMapFile` fails with index out of range on `rule[1]`
exactly when some line the scanner delivers contains no `=`. When every line delivered
contains a `=`, it completes if no line of the file is too long for the scanner (65536
bytes or more before its newline): every line of the file is then delivered and every one
makes its assignment, none is skipped. If a line is too long, the scan ends there and the
function stops the program with `log.Fatal`. -/
theorem C19_readMapFile_outcome (data : List Nat) :
    (readMapFile (some data) = .fail .indexOutOfRange
        ↔ ∃ line ∈ (scanTokens (rawLines data)).1, 61 ∉ line)
      ∧ ((∀ line ∈ (scanTokens (rawLines data)).1, 61 ∈ line) →
          (∀ l ∈ rawLines data, l.length < maxScanTokenSize) →
          (scanTokens (rawLines data)).1 = (rawLines data).map dropCR
            ∧ readMapFile (some data)
              = .ok ((scanTokens (rawLines data)).1.foldl
                  (fun o line => assign o ((Split line (str "=")).headD [])
                    ((Split line (str "=")).tail.headD [])) []))
      ∧ ((∀ line ∈ (scanTokens (rawLines data)).1, 61 ∈ line) →
          ¬ (∀ l ∈ rawLines data, l.length < maxScanTokenSize) →
          readMapFile (some data) = .fail .tokenTooLong) := by
  refine ⟨?_, ?_, ?_⟩
  · simp only [readMapFile, readMapLoop_eq]
    by_cases h : ∀ line ∈ (scanTokens (rawLines data)).1, 61 ∈ line
    · rw [if_pos h]
      constructor
      · intro h1
        simp only at h1
        split at h1 <;> cases h1
      · rintro ⟨line, hl, hn⟩
        exact absurd (h line hl) hn
    · rw [if_neg h]
      constructor
      · intro _
        by_contra h2
        apply h
        intro line hl
        by_contra h3
        exact h2 ⟨line, hl, h3⟩
      · intro _
        rfl
  · intro h hlen
    refine ⟨scanTokens_fst _ hlen, ?_⟩
    have h1 : (scanTokens (rawLines data)).2 = false := (scanTokens_snd _).mpr hlen
    simp only [readMapFile, readMapLoop_eq, if_pos h, h1]
    rfl
  · intro h hlen
    have h1 : (scanTokens (rawLines data)).2 = true := by
      cases h2 : (scanTokens (rawLines data)).2 with
      | true => rfl
      | false => exact absurd ((scanTokens_snd _).mp h2) hlen
    simp only [readMapFile, readMapLoop_eq, if_pos h, h1]
    rfl

/-- A file with a blank line fails with index out of range; the file `a=1`, `b=2=3`
completes, and both lines make their assignment. -/
theorem C19_witness :
    readMapFile (some (str "a=1\n\nb=2")) = .fail .indexOutOfRange
      ∧ (∀ line ∈ (scanTokens (rawLines (str "a=1\nb=2=3\n"))).1, 61 ∈ line)
      ∧ (∀ l ∈ rawLines (str "a=1\nb=2=3\n"), l.length < maxScanTokenSize)
      ∧ readMapFile (some (str "a=1\nb=2=3\n")) = .ok [(str "a", str "1"), (str "b", str "2")] :=
  ⟨(C19_readMapFile_outcome (str "a=1\n\nb=2")).1.mpr ⟨[], by decide, by decide⟩,
    by decide, by decide,
    (((C19_readMapFile_outcome (str "a=1\nb=2=3\n")).2.1 (by decide) (by decide)).2).trans
      (by decide)⟩

/-! ## Lemmas on readOverrideFile -/

theorem mem_keys_mergeInto (env : GoEnv) (o t : GoMap) (k : GoString) :
    k ∈ keys (mergeInto env o t) ↔ k ∈ keys o ∨ k ∈ keys t := by
  unfold mergeInto
  rw [foldl_assign_mem_keys, mem_keys_rangeOrder]

/-- Merging a table with one entry per key: its keys take its values, the others keep
theirs. -/
theorem lookup_mergeInto (env : GoEnv) (o t : GoMap) (k : GoString) (hn : (keys t).Nodup) :
    lookup (mergeInto env o t) k = if k ∈ keys t then lookup t k else lookup o k := by
  unfold mergeInto
  by_cases h : k ∈ keys t
  · rw [if_pos h]
    have h1 : (k, lookup t k) ∈ env.rangeOrder t :=
      (env.rangeOrder_perm t).mem_iff.mpr (mem_of_mem_keys t k h)
    obtain ⟨before, after, h2⟩ := List.append_of_mem h1
    have h3 : (keys (before ++ (k, lookup t k) :: after)).Nodup := by
      rw [← h2]
      exact (nodup_keys_rangeOrder env t).mpr hn
    have h4 : ∀ e' ∈ after, e'.1 ≠ k := by
      intro e' he' he1
      simp only [keys, List.map_append, List.map_cons] at h3
      have h5 := (List.nodup_cons.mp (List.nodup_append.mp h3).2.1).1
      exact h5 (List.mem_map.mpr ⟨e', he', he1⟩)
    rw [h2]
    exact foldl_assign_lookup_last before after (k, lookup t k) o h4
  · rw [if_neg h]
    apply foldl_assign_lookup_of_not_mem
    rw [mem_keys_rangeOrder]
    exact h

theorem lookup_foldl_mergeInto_of_not_mem (env : GoEnv) (ts : List GoMap) (o : GoMap)
    (k : GoString) (hn : ∀ t ∈ ts, (keys t).Nodup) (h : ∀ t ∈ ts, k ∉ keys t) :
    lookup (ts.foldl (mergeInto env) o) k = lookup o k := by
  induction ts generalizing o with
  | nil => rfl
  | cons t ts ih =>
    rw [List.foldl_cons,
      ih _ (fun t' ht' => hn t' (List.mem_cons_of_mem _ ht'))
        (fun t' ht' => h t' (List.mem_cons_of_mem _ ht')),
      lookup_mergeInto env o t k (hn t (List.mem_cons_self _ _)),
      if_neg (h t (List.mem_cons_self _ _))]

theorem mem_keys_foldl_mergeInto (env : GoEnv) (ts : List GoMap) (o : GoMap) (k : GoString) :
    k ∈ keys (ts.foldl (mergeInto env) o) ↔ k ∈ keys o ∨ ∃ t ∈ ts, k ∈ keys t := by
  induction ts generalizing o with
  | nil => simp
  | cons t ts ih =>
    rw [List.foldl_cons, ih, mem_keys_mergeInto]
    simp only [List.mem_cons, exists_eq_or_imp]
    tauto

/-- After a cascade of merges a key has the value of the last table that holds it. -/
theorem lookup_foldl_mergeInto_last (env : GoEnv) (before after : List GoMap) (t o : GoMap)
    (k : GoString) (hn : ∀ t' ∈ before ++ t :: after, (keys t').Nodup) (hk : k ∈ keys t)
    (h : ∀ t' ∈ after, k ∉ keys t') :
    lookup ((before ++ t :: after).foldl (mergeInto env) o) k = lookup t k := by
  rw [List.foldl_append, List.foldl_cons,
    lookup_foldl_mergeInto_of_not_mem env after _ k
      (fun t' ht' => hn t' (List.mem_append_right _ (List.mem_cons_of_mem _ ht'))) h,
    lookup_mergeInto env _ t k (hn t (List.mem_append_right _ (List.mem_cons_self _ _))),
    if_pos hk]

/-- The prefixes of a list that are not empty. -/
theorem inits_tail_cons (name : GoString) (rest : List GoString) :
    (name :: rest).inits.tail = [name] :: rest.inits.tail.map (fun p => name :: p) := by
  rw [List.inits_cons]
  cases rest with
  | nil => rfl
  | cons a r =>
    rw [List.inits_cons]
    rfl

/-- The names the loop of `readOverrideFile` opens are, in order, names built from the
prefixes of the components: the loop stops early only when a file makes `readMapFile`
fail. -/
theorem readOverrideLoop_opened_initial (env : GoEnv) (fs : GoString → Option (List Nat))
    (rest : List GoString) (fullname : GoString) (o : GoMap) :
    (readOverrideLoop env fs rest fullname o).opened
      <+: rest.inits.tail.map
          (fun p => fullname ++ (p.map (fun c => c ++ str ".")).flatten ++ str "map") := by
  induction rest generalizing fullname o with
  | nil => exact List.nil_prefix
  | cons name rest ih =>
    rw [inits_tail_cons, List.map_cons, List.map_map]
    have h1 : fullname ++ ([name].map (fun c => c ++ str ".")).flatten ++ str "map"
        = fullname ++ name ++ str "." ++ str "map" := by
      simp
    have h2 : (fun p => fullname ++ (p.map (fun c => c ++ str ".")).flatten ++ str "map")
          ∘ (fun p => name :: p)
        = fun p => (fullname ++ name ++ str ".")
            ++ (p.map (fun c => c ++ str ".")).flatten ++ str "map" := by
      funext p
      simp
    rw [h1, h2]
    rw [readOverrideLoop]
    split
    · exact ⟨_, rfl⟩
    · simp only
      exact List.prefix_cons_inj _ |>.mpr (ih _ _)

theorem readOverrideLoop_ok (env : GoEnv) (fs : GoString → Option (List Nat))
    (rest : List GoString) (fullname : GoString) (o : GoMap) (tables : List GoMap)
    (hread : (rest.inits.tail.map
        (fun p => fullname ++ (p.map (fun c => c ++ str ".")).flatten ++ str "map")).map
          (fun nm => readMapFile (fs nm)) = tables.map Outcome.ok) :
    (readOverrideLoop env fs rest fullname o).opened
        = rest.inits.tail.map
            (fun p => fullname ++ (p.map (fun c => c ++ str ".")).flatten ++ str "map")
      ∧ (readOverrideLoop env fs rest fullname o).result
        = .ok (tables.foldl (mergeInto env) o) := by
  induction rest generalizing fullname o tables with
  | nil =>
    cases tables with
    | nil => exact ⟨rfl, rfl⟩
    | cons t ts => simp at hread
  | cons name rest ih =>
    have h1 : fullname ++ ([name].map (fun c => c ++ str ".")).flatten ++ str "map"
        = fullname ++ name ++ str "." ++ str "map" := by
      simp
    have h2 : (fun p => fullname ++ (p.map (fun c => c ++ str ".")).flatten ++ str "map")
          ∘ (fun p => name :: p)
        = fun p => (fullname ++ name ++ str ".")
            ++ (p.map (fun c => c ++ str ".")).flatten ++ str "map" := by
      funext p
      simp
    rw [inits_tail_cons, List.map_cons, List.map_map, h1, h2] at hread ⊢
    cases tables with
    | nil => simp at hread
    | cons t ts =>
      rw [List.map_cons, List.map_cons, List.cons.injEq] at hread
      obtain ⟨hr1, hr2⟩ := hread
      obtain ⟨ih1, ih2⟩ := ih (fullname ++ name ++ str ".") (mergeInto env o t) ts hr2
      rw [readOverrideLoop]
      rw [hr1]
      simp only
      rw [ih1, ih2]
      exact ⟨rfl, rfl⟩

theorem flatten_dots_eq_intercalate (p : List GoString) (h : p ≠ []) :
    (p.map (fun c => c ++ str ".")).flatten ++ str "map"
      = (str ".").intercalate p ++ str ".map" := by
  have e : str ".map" = str "." ++ str "map" := by decide
  induction p with
  | nil => exact absurd rfl h
  | cons a p ih =>
    cases p with
    | nil =>
      rw [e]
      simp [List.intercalate]
    | cons b r =>
      have ih' := ih (by simp)
      simp only [List.map_cons, List.flatten_cons, List.append_assoc] at ih' ⊢
      rw [ih']
      simp [List.intercalate]

theorem cascadeNames_eq (components : List GoString) :
    components.inits.tail.map
        (fun p => ([] : GoString) ++ (p.map (fun c => c ++ str ".")).flatten ++ str "map")
      = cascadeNames components := by
  unfold cascadeNames
  apply List.map_congr_left
  intro p hp
  have hne : p ≠ [] := by
    intro h0
    subst h0
    cases components with
    | nil => simp at hp
    | cons a r =>
      rw [inits_tail_cons] at hp
      rcases List.mem_cons.mp hp with h1 | h1
      · cases h1
      · obtain ⟨q, _, hq⟩ := List.mem_map.mp h1
        cases hq
  rw [List.nil_append]
  exact flatten_dots_eq_intercalate p hne

theorem cascadeNames_length (components : List GoString) :
    (cascadeNames components).length = components.length := by
  unfold cascadeNames
  simp

/-! ## Claim C14 -/

/-- C14: for a theme stem with the dot-separated components c1..cn, `readOverrideFile`
gives files to `readMapFile` in the order `c1.map`, `c1.c2.map`, ..., `c1.c2...cn.map` and
no other file. When each of these files is missing or read by `readMapFile` without a
failure (`tables` are the tables read, the empty table for a missing file), it attempts
exactly these n files and returns a table that maps each key to the value it has in the
last table that holds it, and that has no key outside the tables. -/
theorem C14_override_cascade (env : GoEnv) (fs : GoString → Option (List Nat))
    (stem : GoString) :
    (readOverrideFile env fs stem).opened <+: cascadeNames (Split stem (str "."))
      ∧ ∀ tables : List GoMap,
          (cascadeNames (Split stem (str "."))).map (fun nm => readMapFile (fs nm))
            = tables.map Outcome.ok →
          (readOverrideFile env fs stem).opened = cascadeNames (Split stem (str "."))
            ∧ (readOverrideFile env fs stem).opened.length = (Split stem (str ".")).length
            ∧ ∃ m, (readOverrideFile env fs stem).result = .ok m
              ∧ ∀ k,
                (∀ before t after, tables = before ++ t :: after → k ∈ keys t →
                    (∀ t' ∈ after, k ∉ keys t') → lookup m k = lookup t k)
                ∧ ((∀ t ∈ tables, k ∉ keys t) → k ∉ keys m) := by
  constructor
  · have h := readOverrideLoop_opened_initial env fs (Split stem (str ".")) [] []
    rw [cascadeNames_eq] at h
    exact h
  · intro tables hread
    have hread' := hread
    rw [← cascadeNames_eq] at hread'
    obtain ⟨h1, h2⟩ := readOverrideLoop_ok env fs (Split stem (str ".")) [] [] tables hread'
    rw [cascadeNames_eq] at h1
    have hn : ∀ t ∈ tables, (keys t).Nodup := by
      intro t ht
      have h3 : Outcome.ok t ∈ tables.map Outcome.ok := List.mem_map_of_mem _ ht
      rw [← hread] at h3
      obtain ⟨nm, _, h4⟩ := List.mem_map.mp h3
      exact readMapFile_nodup _ _ h4
    refine ⟨h1, ?_, _, h2, ?_⟩
    · have h5 : (readOverrideFile env fs stem).opened = cascadeNames (Split stem (str ".")) := h1
      rw [h5, cascadeNames_length]
    · intro k
      constructor
      · intro before t after htab hk hafter
        subst htab
        exact lookup_foldl_mergeInto_last env before after t [] k hn hk hafter
      · intro hnone hmem
        rcases (mem_keys_foldl_mergeInto env tables [] k).mp hmem with h6 | ⟨t, ht, hkt⟩
        · simp [keys] at h6
        · exact hnone t ht hkt

/-- The stem `a.b.c` with the files `a.map` (`k=1`, `j=2`) and `a.b.c.map` (`k=3`), and
`a.b.map` missing: three files are attempted, `k` gets `3` and `j` keeps `2`. -/
theorem C14_witness :
    (cascadeNames (Split (str "a.b.c") (str "."))) = [str "a.map", str "a.b.map", str "a.b.c.map"]
      ∧ (cascadeNames (Split (str "a.b.c") (str "."))).map
          (fun nm => readMapFile
            ((fun n => if n = str "a.map" then some (str "k=1\nj=2")
              else if n = str "a.b.c.map" then some (str "k=3") else none) nm))
        = [[(str "k", str "1"), (str "j", str "2")], [], [(str "k", str "3")]].map Outcome.ok
      ∧ (readOverrideFile insertionEnv
          (fun n => if n = str "a.map" then some (str "k=1\nj=2")
            else if n = str "a.b.c.map" then some (str "k=3") else none)
          (str "a.b.c")).opened = [str "a.map", str "a.b.map", str "a.b.c.map"]
      ∧ (readOverrideFile insertionEnv
          (fun n => if n = str "a.map" then some (str "k=1\nj=2")
            else if n = str "a.b.c.map" then some (str "k=3") else none)
          (str "a.b.c")).result = .ok [(str "k", str "3"), (str "j", str "2")] :=
  ⟨by decide, by decide,
    (((C14_override_cascade insertionEnv
      (fun n => if n = str "a.map" then some (str "k=1\nj=2")
        else if n = str "a.b.c.map" then some (str "k=3") else none)
      (str "a.b.c")).2
      [[(str "k", str "1"), (str "j", str "2")], [], [(str "k", str "3")]] (by decide)).1).trans
      (by decide),
    by decide⟩

/-! ## The tiling loops -/

theorem foldl_preserve {σ ι : Type} (f : σ → ι → σ) (P : σ → Prop)
    (hP : ∀ s i, P s → P (f s i)) (l : List ι) (s : σ) (hs : P s) : P (l.foldl f s) := by
  induction l generalizing s with
  | nil => exact hs
  | cons i l ih => exact ih _ (hP s i hs)

theorem foldl_establish {σ ι : Type} (f : σ → ι → σ) (D P : σ → Prop)
    (hD : ∀ s i, D s → D (f s i)) (hP : ∀ s i, P s → P (f s i)) (i0 : ι)
    (h0 : ∀ s, D s → P (f s i0)) (l : List ι) (s : σ) (hs : D s) (hi : i0 ∈ l) :
    P (l.foldl f s) := by
  induction l generalizing s with
  | nil => simp at hi
  | cons i l ih =>
    rcases List.mem_cons.mp hi with h | h
    · subst h
      exact foldl_preserve f P hP l _ (h0 s hs)
    · exact ih _ (hD s i hs) h

theorem mod_eq_sub_of_le_of_lt (p a w : Nat) (h1 : a * w ≤ p) (h2 : p < a * w + w) :
    p % w = p - a * w := by
  have h3 : p = (p - a * w) + a * w := by omega
  have h4 : p - a * w < w := by omega
  calc p % w = ((p - a * w) + a * w) % w := by rw [← h3]
    _ = (p - a * w) % w := Nat.add_mul_mod_self_right _ _ _
    _ = p - a * w := Nat.mod_eq_of_lt h4

/-- One copy of the tile keeps the size of the canvas. -/
theorem drawSrc_size {α : Type} (dst src : Image α) (sp : Int × Int) :
    (drawSrc dst src sp).maxX = dst.maxX ∧ (drawSrc dst src sp).maxY = dst.maxY :=
  ⟨rfl, rfl⟩

/-- A copy of the tile at a multiple of its size leaves a canvas pixel that already holds
the tile pixel of its coordinates modulo the tile size as it is. -/
theorem drawSrc_keeps {α : Type} (img back : Image α) (x y px py : Nat)
    (h : back.pixel px py = img.pixel ((px % img.maxX : Nat) : Int) ((py % img.maxY : Nat) : Int)) :
    (drawSrc back img (-((x * img.maxX : Nat) : Int), -((y * img.maxY : Nat) : Int))).pixel
        px py
      = img.pixel ((px % img.maxX : Nat) : Int) ((py % img.maxY : Nat) : Int) := by
  simp only [drawSrc]
  split
  · rename_i hc
    obtain ⟨_, _, _, _, h5, h6, h7, h8⟩ := hc
    have e1 : px % img.maxX = px - x * img.maxX := by
      apply mod_eq_sub_of_le_of_lt
      · generalize x * img.maxX = a at h5 h6 ⊢
        omega
      · generalize x * img.maxX = a at h5 h6 ⊢
        omega
    have e2 : py % img.maxY = py - y * img.maxY := by
      apply mod_eq_sub_of_le_of_lt
      · generalize y * img.maxY = a at h7 h8 ⊢
        omega
      · generalize y * img.maxY = a at h7 h8 ⊢
        omega
    have e3 : (px : Int) + -((x * img.maxX : Nat) : Int) = ((px % img.maxX : Nat) : Int) := by
      rw [e1]
      generalize x * img.maxX = a at h5 h6 ⊢
      omega
    have e4 : (py : Int) + -((y * img.maxY : Nat) : Int) = ((py % img.maxY : Nat) : Int) := by
      rw [e2]
      generalize y * img.maxY = a at h7 h8 ⊢
      omega
    rw [e3, e4]
  · exact h

/-- The copy at `(px / w, py / h)` paints the canvas pixel `(px, py)`. -/
theorem drawSrc_paints {α : Type} (img back : Image α) (px py : Nat)
    (hw : 1 ≤ img.maxX) (hh : 1 ≤ img.maxY) (hx : px < back.maxX) (hy : py < back.maxY) :
    (drawSrc back img (-(((px / img.maxX) * img.maxX : Nat) : Int),
        -(((py / img.maxY) * img.maxY : Nat) : Int))).pixel px py
      = img.pixel ((px % img.maxX : Nat) : Int) ((py % img.maxY : Nat) : Int) := by
  have a1 : px / img.maxX * img.maxX ≤ px := Nat.div_mul_le_self _ _
  have a2 : px < px / img.maxX * img.maxX + img.maxX := by
    have h1 := Nat.div_add_mod' px img.maxX
    have h2 := Nat.mod_lt px (show 0 < img.maxX by omega)
    omega
  have b1 : py / img.maxY * img.maxY ≤ py := Nat.div_mul_le_self _ _
  have b2 : py < py / img.maxY * img.maxY + img.maxY := by
    have h1 := Nat.div_add_mod' py img.maxY
    have h2 := Nat.mod_lt py (show 0 < img.maxY by omega)
    omega
  have e1 := mod_eq_sub_of_le_of_lt px (px / img.maxX) img.maxX a1 a2
  have e2 := mod_eq_sub_of_le_of_lt py (py / img.maxY) img.maxY b1 b2
  simp only [drawSrc]
  rw [if_pos]
  · have e3 : (px : Int) + -((px / img.maxX * img.maxX : Nat) : Int)
        = ((px % img.maxX : Nat) : Int) := by
      rw [e1]
      generalize px / img.maxX * img.maxX = a at a1 a2 ⊢
      omega
    have e4 : (py : Int) + -((py / img.maxY * img.maxY : Nat) : Int)
        = ((py % img.maxY : Nat) : Int) := by
      rw [e2]
      generalize py / img.maxY * img.maxY = a at b1 b2 ⊢
      omega
    rw [e3, e4]
  · generalize px / img.maxX * img.maxX = a at a1 a2 ⊢
    generalize py / img.maxY * img.maxY = b at b1 b2 ⊢
    omega

/-- The inner tiling loop keeps the size of the canvas. -/
theorem tileInner_size {α : Type} (img : Image α) (x : Nat) (ys : List Nat) (s : Image α)
    (hs : s.maxX = 1920 ∧ s.maxY = 1920) :
    (ys.foldl (fun back y => drawSrc back img
        (-((x * img.maxX : Nat) : Int), -((y * img.maxY : Nat) : Int))) s).maxX = 1920
      ∧ (ys.foldl (fun back y => drawSrc back img
        (-((x * img.maxX : Nat) : Int), -((y * img.maxY : Nat) : Int))) s).maxY = 1920 :=
  foldl_preserve
    (fun back y => drawSrc back img
      (-((x * img.maxX : Nat) : Int), -((y * img.maxY : Nat) : Int)))
    (fun b : Image α => b.maxX = 1920 ∧ b.maxY = 1920)
    (fun _ _ h => h) ys s hs

/-- The inner tiling loop keeps a pixel that is already right. -/
theorem tileInner_keeps {α : Type} (img : Image α) (x px py : Nat) (ys : List Nat)
    (s : Image α)
    (hs : s.pixel px py
      = img.pixel ((px % img.maxX : Nat) : Int) ((py % img.maxY : Nat) : Int)) :
    (ys.foldl (fun back y => drawSrc back img
        (-((x * img.maxX : Nat) : Int), -((y * img.maxY : Nat) : Int))) s).pixel px py
      = img.pixel ((px % img.maxX : Nat) : Int) ((py % img.maxY : Nat) : Int) :=
  foldl_preserve
    (fun back y => drawSrc back img
      (-((x * img.maxX : Nat) : Int), -((y * img.maxY : Nat) : Int)))
    (fun b : Image α => b.pixel px py
      = img.pixel ((px % img.maxX : Nat) : Int) ((py % img.maxY : Nat) : Int))
    (fun s' y h => drawSrc_keeps img s' x y px py h) ys s hs

/-- The inner tiling loop of the column `px / w` paints the pixel `(px, py)` when it
reaches the row `py / h`. -/
theorem tileInner_paints {α : Type} (img : Image α) (px py : Nat) (ys : List Nat)
    (s : Image α) (hw : 1 ≤ img.maxX) (hh : 1 ≤ img.maxY) (hpx : px < 1920) (hpy : py < 1920)
    (hs : s.maxX = 1920 ∧ s.maxY = 1920) (hy : py / img.maxY ∈ ys) :
    (ys.foldl (fun back y => drawSrc back img
        (-(((px / img.maxX) * img.maxX : Nat) : Int), -((y * img.maxY : Nat) : Int)))
        s).pixel px py
      = img.pixel ((px % img.maxX : Nat) : Int) ((py % img.maxY : Nat) : Int) :=
  foldl_establish
    (fun back y => drawSrc back img
      (-(((px / img.maxX) * img.maxX : Nat) : Int), -((y * img.maxY : Nat) : Int)))
    (fun b : Image α => b.maxX = 1920 ∧ b.maxY = 1920)
    (fun b : Image α => b.pixel px py
      = img.pixel ((px % img.maxX : Nat) : Int) ((py % img.maxY : Nat) : Int))
    (fun _ _ h => h)
    (fun s' y h => drawSrc_keeps img s' (px / img.maxX) y px py h)
    (py / img.maxY)
    (fun s' h => drawSrc_paints img s' px py hw hh (by rw [h.1]; exact hpx)
      (by rw [h.2]; exact hpy))
    ys s hs hy

/-! ## Claim C16 -/

/-- C16: for every tile of width w >= 1 and height h >= 1, the tiling loops of `convertBg`
end (no division panics) with a canvas of 1920x1920 in which every pixel `(px, py)` holds
the tile's pixel `(px mod w, py mod h)`; no pixel is left unpainted, whether or not w and h
divide 1920 and also when they exceed 1920. -/
theorem C16_tiled_canvas {α : Type} (zero : α) (img : Image α) (hw : 1 ≤ img.maxX)
    (hh : 1 ≤ img.maxY) :
    ∃ back, convertBgTile zero img = some back
      ∧ back.maxX = 1920 ∧ back.maxY = 1920
      ∧ ∀ px py : Nat, px < 1920 → py < 1920 →
          back.pixel px py
            = img.pixel ((px % img.maxX : Nat) : Int) ((py % img.maxY : Nat) : Int) := by
  have h0 : ¬ (img.maxX = 0 ∨ img.maxY = 0) := by omega
  have hsize := foldl_preserve
    (fun back x => (List.range (1920 / img.maxY + 1)).foldl
      (fun back y => drawSrc back img
        (-((x * img.maxX : Nat) : Int), -((y * img.maxY : Nat) : Int))) back)
    (fun b : Image α => b.maxX = 1920 ∧ b.maxY = 1920)
    (fun s x h => tileInner_size img x _ s h)
    (List.range (1920 / img.maxX + 1)) (newRGBA zero 1920 1920) ⟨rfl, rfl⟩
  unfold convertBgTile
  simp only [if_neg h0]
  refine ⟨_, rfl, hsize.1, hsize.2, ?_⟩
  intro px py hpx hpy
  have hy : py / img.maxY ∈ List.range (1920 / img.maxY + 1) := by
    rw [List.mem_range]
    have := Nat.div_le_div_right (c := img.maxY) (Nat.le_of_lt hpy)
    omega
  have hx : px / img.maxX ∈ List.range (1920 / img.maxX + 1) := by
    rw [List.mem_range]
    have := Nat.div_le_div_right (c := img.maxX) (Nat.le_of_lt hpx)
    omega
  exact foldl_establish
    (fun back x => (List.range (1920 / img.maxY + 1)).foldl
      (fun back y => drawSrc back img
        (-((x * img.maxX : Nat) : Int), -((y * img.maxY : Nat) : Int))) back)
    (fun b : Image α => b.maxX = 1920 ∧ b.maxY = 1920)
    (fun b : Image α => b.pixel px py
      = img.pixel ((px % img.maxX : Nat) : Int) ((py % img.maxY : Nat) : Int))
    (fun s x h => tileInner_size img x _ s h)
    (fun s x h => tileInner_keeps img x px py _ s h)
    (px / img.maxX)
    (fun s h => tileInner_paints img px py _ s hw hh hpx hpy h hy)
    (List.range (1920 / img.maxX + 1)) (newRGBA zero 1920 1920) ⟨rfl, rfl⟩ hx

/-- A tile of 1000x700, which divides 1920 in neither direction. -/
theorem C16_witness :
    1 ≤ ({ maxX := 1000, maxY := 700, pixel := fun x y => x + 1000 * y } : Image Int).maxX
      ∧ 1 ≤ ({ maxX := 1000, maxY := 700, pixel := fun x y => x + 1000 * y } : Image Int).maxY
      ∧ ∃ back, convertBgTile 0
            ({ maxX := 1000, maxY := 700, pixel := fun x y => x + 1000 * y } : Image Int)
          = some back
        ∧ back.maxX = 1920 ∧ back.maxY = 1920
        ∧ ∀ px py : Nat, px < 1920 → py < 1920 →
            back.pixel px py
              = ({ maxX := 1000, maxY := 700, pixel := fun x y => x + 1000 * y }
                  : Image Int).pixel
                  ((px % ({ maxX := 1000, maxY := 700, pixel := fun x y => x + 1000 * y }
                    : Image Int).maxX : Nat) : Int)
                  ((py % ({ maxX := 1000, maxY := 700, pixel := fun x y => x + 1000 * y }
                    : Image Int).maxY : Nat) : Int) :=
  ⟨by decide, by decide,
    C16_tiled_canvas 0
      ({ maxX := 1000, maxY := 700, pixel := fun x y => x + 1000 * y } : Image Int)
      (by decide) (by decide)⟩

/-! ## The overrides left over -/

theorem mem_assign (m : GoMap) (k v : GoString) (e : GoString × GoString)
    (h : e ∈ assign m k v) : e ∈ m ∨ e = (k, v) := by
  induction m with
  | nil =>
    simp only [assign, List.mem_singleton] at h
    exact Or.inr h
  | cons a m ih =>
    obtain ⟨a1, a2⟩ := a
    by_cases hk : a1 = k
    · simp only [assign, hk, if_true] at h
      rcases List.mem_cons.mp h with h1 | h1
      · exact Or.inr h1
      · exact Or.inl (List.mem_cons_of_mem _ h1)
    · simp only [assign, hk, if_false] at h
      rcases List.mem_cons.mp h with h1 | h1
      · exact Or.inl (h1 ▸ List.mem_cons_self _ _)
      · rcases ih h1 with h2 | h2
        · exact Or.inl (List.mem_cons_of_mem _ h2)
        · exact Or.inr h2

/-- The colour of an override of 6 bytes or more. -/
theorem overrideColor_of_le (transmap : GoMap) (key value : GoString)
    (h : 6 ≤ value.length) :
    overrideColor transmap key value
      = .ok (if value.length = 6 then
          (if lookup transmap key ≠ [] then lookup transmap key ++ value
            else str "ff" ++ value)
          else value.drop 6 ++ value.take 6) := by
  unfold overrideColor
  by_cases h6 : value.length = 6
  · rw [if_pos h6, if_pos h6]
    split <;> rfl
  · rw [if_neg h6, if_neg h6, if_neg (by omega)]

theorem overrideColor_ne_nil (transmap : GoMap) (key value color : GoString)
    (h : overrideColor transmap key value = .ok color) : color ≠ [] := by
  have h6 := overrideColor_ok _ _ _ _ h
  rw [overrideColor_of_le _ _ _ h6] at h
  injection h with h'
  rw [← h']
  intro h0
  have h1 := congrArg List.length h0
  split at h1
  · split at h1
    · simp only [List.length_append, List.length_nil] at h1
      omega
    · simp only [List.length_append, List.length_nil] at h1
      omega
  · simp only [List.length_append, List.length_drop, List.length_take, List.length_nil] at h1
    omega

theorem overrideLoop_lookup_of_mem (transmap : GoMap) (l : List (GoString × GoString))
    (run : Run) (K V : GoString) (hn : (keys l).Nodup) (hmem : (K, V) ∈ l)
    (hall : ∀ e ∈ l, 6 ≤ e.2.length) :
    lookup (overrideLoop transmap l run).atthememap K
      = if V.length = 6 then
          (if lookup transmap K ≠ [] then lookup transmap K ++ V else str "ff" ++ V)
        else V.drop 6 ++ V.take 6 := by
  induction l generalizing run with
  | nil => simp at hmem
  | cons e l ih =>
    obtain ⟨key, value⟩ := e
    have h1 : key ∉ keys l := by
      simpa [keys] using (List.nodup_cons.mp hn).1
    have h2 : (keys l).Nodup := (List.nodup_cons.mp hn).2
    have h6 : 6 ≤ value.length := hall (key, value) (List.mem_cons_self _ _)
    rw [overrideLoop, overrideColor_of_le _ _ _ h6]
    simp only
    rcases List.mem_cons.mp hmem with h3 | h3
    · injection h3 with h4 h5
      subst h4; subst h5
      rw [overrideLoop_lookup_of_not_mem _ _ _ _ h1]
      simp only [lookup_assign, if_true]
    · exact ih _ h2 h3 (fun e he => hall e (List.mem_cons_of_mem _ he))

theorem overrideLoop_mem_keys_of_mem (transmap : GoMap) (l : List (GoString × GoString))
    (run : Run) (k : GoString) (hk : k ∈ keys l) (hall : ∀ e ∈ l, 6 ≤ e.2.length) :
    k ∈ keys (overrideLoop transmap l run).atthememap := by
  induction l generalizing run with
  | nil => simp [keys] at hk
  | cons e l ih =>
    obtain ⟨key, value⟩ := e
    have h6 : 6 ≤ value.length := hall (key, value) (List.mem_cons_self _ _)
    rw [overrideLoop, overrideColor_of_le _ _ _ h6]
    simp only
    have h2 : k ∈ keys ((key, value) :: l) ↔ k = key ∨ k ∈ keys l := by
      simp [keys]
    rcases h2.mp hk with h3 | h3
    · apply overrideLoop_keys_mono
      exact (mem_keys_assign _ _ _ _).mpr (Or.inl h3)
    · exact ih _ h3 (fun e he => hall e (List.mem_cons_of_mem _ he))

theorem overrideLoop_values_ne_nil (transmap : GoMap) (l : List (GoString × GoString))
    (run : Run) (h : ∀ e ∈ run.atthememap, e.2 ≠ []) :
    ∀ e ∈ (overrideLoop transmap l run).atthememap, e.2 ≠ [] := by
  induction l generalizing run with
  | nil => exact h
  | cons a l ih =>
    obtain ⟨key, value⟩ := a
    rw [overrideLoop]
    cases hc : overrideColor transmap key value with
    | fail f => exact h
    | ok color =>
      simp only
      apply ih
      intro e he
      rcases mem_assign _ _ _ _ he with h1 | h1
      · exact h e h1
      · rw [h1]
        exact overrideColor_ne_nil _ _ _ _ hc

theorem overrideLoop_wallpaper (transmap : GoMap) (l : List (GoString × GoString))
    (run : Run) : (overrideLoop transmap l run).wallpaper = run.wallpaper := by
  induction l generalizing run with
  | nil => rfl
  | cons e l ih =>
    obtain ⟨key, value⟩ := e
    simp only [overrideLoop]
    split
    · rfl
    · rw [ih]

/-! ## Recorded values are not empty -/

theorem ToUpper_ne_nil (env : GoEnv) (s : GoString) (h : s ≠ []) : ToUpper env s ≠ [] := by
  unfold ToUpper
  split
  · intro h0
    exact h (List.map_eq_nil_iff.mp h0)
  · exact env.unicodeUpper_ne_nil s h

theorem translatedColor_ne_nil (transmap : GoMap) (key desktopvalue : GoString) :
    translatedColor transmap key desktopvalue ≠ [] := by
  unfold translatedColor
  intro h0
  have h1 := congrArg List.length h0
  split at h1
  · split at h1
    · simp only [List.length_append, List.length_nil] at h1
      omega
    · simp only [List.length_nil] at h1
      omega
  · split at h1
    · simp only [List.length_append, List.length_drop, List.length_take, List.length_nil] at h1
      omega
    · revert h1
      decide

theorem translateLoop_values_ne_nil (env : GoEnv) (mapfile tdesktopmap transmap : GoMap)
    (l : List (GoString × GoString)) (run : Run) (h : ∀ e ∈ run.atthememap, e.2 ≠ []) :
    ∀ e ∈ (translateLoop env mapfile tdesktopmap transmap l run).atthememap, e.2 ≠ [] := by
  induction l generalizing run with
  | nil => exact h
  | cons a l ih =>
    obtain ⟨key, value⟩ := a
    rw [translateLoop]
    apply ih
    intro e he
    simp only [translateKey] at he
    rcases mem_assign _ _ _ _ he with h1 | h1
    · exact h e h1
    · rw [h1]
      exact ToUpper_ne_nil env _ (translatedColor_ne_nil _ _ _)

theorem translateLoop_wallpaper (env : GoEnv) (mapfile tdesktopmap transmap : GoMap)
    (l : List (GoString × GoString)) (run : Run) :
    (translateLoop env mapfile tdesktopmap transmap l run).wallpaper = run.wallpaper := by
  induction l generalizing run with
  | nil => rfl
  | cons e l ih =>
    obtain ⟨key, value⟩ := e
    simp only [translateLoop]
    rw [ih]
    rfl

theorem recordColors_values_ne_nil (env : GoEnv)
    (mapfile tdesktopmap transmap overridemap : GoMap) :
    ∀ e ∈ (recordColors env mapfile tdesktopmap transmap overridemap).atthememap,
      e.2 ≠ [] := by
  have h1 := translateLoop_values_ne_nil env mapfile tdesktopmap transmap
    (env.rangeOrder mapfile)
    { overridemap := overridemap, atthememap := [], stdout := [], lines := [],
      wallpaper := [], failure := none } (by simp)
  unfold recordColors
  simp only
  split
  · exact overrideLoop_values_ne_nil _ _ _ h1
  · exact h1

theorem recordColors_wallpaper (env : GoEnv)
    (mapfile tdesktopmap transmap overridemap : GoMap) :
    (recordColors env mapfile tdesktopmap transmap overridemap).wallpaper = [] := by
  unfold recordColors
  simp only
  split
  · rw [overrideLoop_wallpaper, translateLoop_wallpaper]
  · rw [translateLoop_wallpaper]

/-- The override table after the two loops is the table the first loop leaves, a part of
the table given; it has one entry per key when the table given has. -/
theorem recordColors_overridemap_nodup (env : GoEnv)
    (mapfile tdesktopmap transmap overridemap : GoMap) (hn : (keys overridemap).Nodup) :
    (keys (recordColors env mapfile tdesktopmap transmap overridemap).overridemap).Nodup := by
  have h1 : (keys (translateLoop env mapfile tdesktopmap transmap (env.rangeOrder mapfile)
        { overridemap := overridemap, atthememap := [], stdout := [], lines := [],
          wallpaper := [], failure := none }).overridemap).Nodup := by
    rw [translateLoop_overridemap]
    exact hn.sublist ((List.filter_sublist _).map Prod.fst)
  unfold recordColors
  simp only
  split
  · rw [overrideLoop_overridemap]
    exact h1
  · exact h1

/-- When the two loops end without a panic, the keys recorded are the keys of the
key-translation table and the keys of the overrides left over by the first loop. -/
theorem recordColors_mem_keys_iff (env : GoEnv)
    (mapfile tdesktopmap transmap overridemap : GoMap) (k : GoString)
    (hf : (recordColors env mapfile tdesktopmap transmap overridemap).failure = none) :
    k ∈ keys (recordColors env mapfile tdesktopmap transmap overridemap).atthememap
      ↔ k ∈ keys mapfile
        ∨ k ∈ keys (recordColors env mapfile tdesktopmap transmap overridemap).overridemap := by
  have hall : ∀ e ∈ (recordColors env mapfile tdesktopmap transmap overridemap).overridemap,
      6 ≤ e.2.length := by
    rw [recordColors_failure] at hf
    split at hf
    · assumption
    · cases hf
  have h1 : ∀ k, k ∈ keys (translateLoop env mapfile tdesktopmap transmap
        (env.rangeOrder mapfile)
        { overridemap := overridemap, atthememap := [], stdout := [], lines := [],
          wallpaper := [], failure := none }).atthememap ↔ k ∈ keys mapfile := by
    intro k
    rw [translateLoop_mem_keys, mem_keys_rangeOrder]
    simp [keys]
  revert hall
  unfold recordColors
  simp only
  split
  · intro hall
    rw [overrideLoop_overridemap] at hall ⊢
    constructor
    · intro h
      rcases overrideLoop_keys_subset _ _ _ _ h with h2 | h2
      · exact Or.inl ((h1 k).mp h2)
      · exact Or.inr ((mem_keys_rangeOrder env _ k).mp h2)
    · rintro (h | h)
      · exact overrideLoop_keys_mono _ _ _ _ ((h1 k).mpr h)
      · apply overrideLoop_mem_keys_of_mem
        · exact (mem_keys_rangeOrder env _ k).mpr h
        · intro e he
          exact hall e ((env.rangeOrder_perm _).mem_iff.mp he)
  · rename_i hlen
    intro _
    simp only [ne_eq, List.length_eq_zero, not_not] at hlen
    rw [h1 k, hlen]
    simp [keys]

/-- The value the two loops record for an override left over by the first loop, when no
override left over makes the second loop panic. -/
theorem recordColors_lookup_leftover (env : GoEnv)
    (mapfile tdesktopmap transmap overridemap : GoMap) (K V : GoString)
    (hn : (keys overridemap).Nodup)
    (hleft : (K, V) ∈ (recordColors env mapfile tdesktopmap transmap overridemap).overridemap)
    (hf : (recordColors env mapfile tdesktopmap transmap overridemap).failure = none) :
    lookup (recordColors env mapfile tdesktopmap transmap overridemap).atthememap K
      = if V.length = 6 then
          (if lookup transmap K ≠ [] then lookup transmap K ++ V else str "ff" ++ V)
        else V.drop 6 ++ V.take 6 := by
  have hall : ∀ e ∈ (recordColors env mapfile tdesktopmap transmap overridemap).overridemap,
      6 ≤ e.2.length := by
    rw [recordColors_failure] at hf
    split at hf
    · assumption
    · cases hf
  have hnd := recordColors_overridemap_nodup env mapfile tdesktopmap transmap overridemap hn
  revert hall hnd hleft
  unfold recordColors
  simp only
  split
  · intro hleft hall hnd
    rw [overrideLoop_overridemap] at hleft hall hnd
    apply overrideLoop_lookup_of_mem
    · exact (nodup_keys_rangeOrder env _).mpr hnd
    · exact (env.rangeOrder_perm _).mem_iff.mpr hleft
    · intro e he
      exact hall e ((env.rangeOrder_perm _).mem_iff.mp he)
  · rename_i hlen
    intro hleft _ _
    simp only [ne_eq, List.length_eq_zero, not_not] at hlen
    rw [hlen] at hleft
    simp at hleft

theorem recordColors_failure_none_of (env : GoEnv)
    (mapfile tdesktopmap transmap overridemap : GoMap) (converted : Option (List Nat))
    (hf : (makeAttheme env mapfile tdesktopmap transmap overridemap converted).failure
      ≠ some Failure.sliceBounds) :
    (recordColors env mapfile tdesktopmap transmap overridemap).failure = none := by
  rcases recordColors_failure_cases env mapfile tdesktopmap transmap overridemap with h | h
  · exact h
  · exact absurd ((makeAttheme_sliceBounds_iff _ _ _ _ _ _).mpr h) hf

/-- What a run that completes has written after the colour lines. -/
theorem makeAttheme_wallpaper_cases (env : GoEnv)
    (mapfile tdesktopmap transmap overridemap : GoMap) (converted : Option (List Nat))
    (hdone : (makeAttheme env mapfile tdesktopmap transmap overridemap converted).failure
      = none) :
    (lookup (recordColors env mapfile tdesktopmap transmap overridemap).atthememap
          (str "chat_wallpaper") = [] →
        ∃ data, converted = some data
          ∧ (makeAttheme env mapfile tdesktopmap transmap overridemap converted).wallpaper
            = [str "WPS\n"] ++ copyLoop data ++ [str "\nWPE"])
      ∧ (lookup (recordColors env mapfile tdesktopmap transmap overridemap).atthememap
          (str "chat_wallpaper") ≠ [] →
        (makeAttheme env mapfile tdesktopmap transmap overridemap converted).wallpaper
          = []) := by
  have hrec : (recordColors env mapfile tdesktopmap transmap overridemap).failure = none := by
    apply recordColors_failure_none_of env mapfile tdesktopmap transmap overridemap converted
    rw [hdone]
    exact fun h => nomatch h
  constructor
  · intro hw
    cases converted with
    | none =>
      exfalso
      have : (makeAttheme env mapfile tdesktopmap transmap overridemap none).failure
          = some Failure.openPanic := by
        unfold makeAttheme
        simp only [hrec, hw, if_true]
      rw [hdone] at this
      cases this
    | some data =>
      refine ⟨data, rfl, ?_⟩
      unfold makeAttheme
      simp only [hrec, hw, if_true]
  · intro hw
    unfold makeAttheme
    simp only [hrec, if_neg hw]
    exact recordColors_wallpaper _ _ _ _ _

/-! ## Claims C17, C18 and C20 -/

/-- C17: for every override `K -> V` left unconsumed by the first loop, when the second
loop ends without a panic: if V has 6 bytes the value recorded is alpha-prefix[K] followed
by V when K has an alpha prefix (not the empty string) and `ff` followed by V otherwise; if
V has 8 bytes it is V[6:8] followed by V[0:6]. The value is recorded and written as
composed, with the letter case of V: no upper-casing is applied. An override of a key
without translation is always left unconsumed. -/
theorem C17_override_only (env : GoEnv)
    (mapfile tdesktopmap transmap overridemap : GoMap) (converted : Option (List Nat))
    (K V : GoString) (hn : (keys overridemap).Nodup)
    (hleft : (K, V) ∈ (makeAttheme env mapfile tdesktopmap transmap overridemap
      converted).overridemap)
    (hf : (makeAttheme env mapfile tdesktopmap transmap overridemap converted).failure
      ≠ some Failure.sliceBounds) :
    (V.length = 6 → lookup transmap K ≠ [] →
        lookup (makeAttheme env mapfile tdesktopmap transmap overridemap
          converted).atthememap K = lookup transmap K ++ V)
      ∧ (V.length = 6 → lookup transmap K = [] →
        lookup (makeAttheme env mapfile tdesktopmap transmap overridemap
          converted).atthememap K = str "ff" ++ V)
      ∧ (V.length = 8 →
        lookup (makeAttheme env mapfile tdesktopmap transmap overridemap
          converted).atthememap K = V.drop 6 ++ V.take 6)
      ∧ colorLine (K, lookup (makeAttheme env mapfile tdesktopmap transmap overridemap
            converted).atthememap K)
          ∈ (makeAttheme env mapfile tdesktopmap transmap overridemap converted).lines
      ∧ (∀ K' V', K' ∉ keys mapfile → (K', V') ∈ overridemap →
          (K', V') ∈ (makeAttheme env mapfile tdesktopmap transmap overridemap
            converted).overridemap) := by
  have hrec := recordColors_failure_none_of env mapfile tdesktopmap transmap overridemap
    converted hf
  rw [makeAttheme_overridemap] at hleft
  have hval := recordColors_lookup_leftover env mapfile tdesktopmap transmap overridemap K V
    hn hleft hrec
  have hkey : K ∈ keys (makeAttheme env mapfile tdesktopmap transmap overridemap
      converted).atthememap := by
    rw [makeAttheme_atthememap, recordColors_mem_keys_iff _ _ _ _ _ _ hrec]
    exact Or.inr (List.mem_map.mpr ⟨(K, V), hleft, rfl⟩)
  rw [makeAttheme_atthememap] at *
  refine ⟨?_, ?_, ?_, ?_, ?_⟩
  · intro h6 ht
    rw [hval, if_pos h6, if_pos ht]
  · intro h6 ht
    rw [hval, if_pos h6, if_neg (by simpa using ht)]
  · intro h8
    rw [hval, if_neg (by omega)]
  · have := mem_makeAttheme_lines env mapfile tdesktopmap transmap overridemap converted K hf
      (by rw [makeAttheme_atthememap]; exact hkey)
    rw [makeAttheme_atthememap] at this
    exact this
  · intro K' V' hK' hV'
    rw [makeAttheme_overridemap, recordColors_overridemap]
    exact ⟨hV', fun h => hK' h.1⟩

/-- The overrides `z=aabbcc` and `w=aabbCCdd` of keys without translation, `z` with the
alpha prefix `80`: `80aabbcc` and `ddaabbCC`, in the letter case of the override file. -/
theorem C17_witness :
    (keys [(str "z", str "aabbcc"), (str "w", str "aabbCCdd")]).Nodup
      ∧ (str "w", str "aabbCCdd") ∈ (makeAttheme insertionEnv [] []
          [(str "z", str "80")] [(str "z", str "aabbcc"), (str "w", str "aabbCCdd")]
          (some [])).overridemap
      ∧ (makeAttheme insertionEnv [] [] [(str "z", str "80")]
          [(str "z", str "aabbcc"), (str "w", str "aabbCCdd")] (some [])).failure
        ≠ some Failure.sliceBounds
      ∧ lookup (makeAttheme insertionEnv [] [] [(str "z", str "80")]
          [(str "z", str "aabbcc"), (str "w", str "aabbCCdd")] (some [])).atthememap (str "w")
        = str "ddaabbCC"
      ∧ lookup (makeAttheme insertionEnv [] [] [(str "z", str "80")]
          [(str "z", str "aabbcc"), (str "w", str "aabbCCdd")] (some [])).atthememap (str "z")
        = str "80aabbcc" :=
  ⟨by decide, by decide, by decide,
    ((C17_override_only insertionEnv [] [] [(str "z", str "80")]
      [(str "z", str "aabbcc"), (str "w", str "aabbCCdd")] (some []) (str "w")
      (str "aabbCCdd") (by decide) (by decide) (by decide)).2.2.1 (by decide)).trans
      (by decide),
    ((C17_override_only insertionEnv [] [] [(str "z", str "80")]
      [(str "z", str "aabbcc"), (str "w", str "aabbCCdd")] (some []) (str "z")
      (str "aabbcc") (by decide) (by decide) (by decide)).1 (by decide) (by decide)).trans
      (by decide)⟩

/-- C18: the pass of `makeAttheme` over the overrides left by the first loop fails with
the slice panic exactly when one of them has a value of fewer than 6 bytes, and otherwise
completes; a value left over whose length is not 6 is recorded as V[6:] followed by V[:6].
On an override table with one entry per key, an override with the empty value is left over
by the first loop whether or not its key has a translation, so it makes the run fail. -/
theorem C18_slice_panic (env : GoEnv)
    (mapfile tdesktopmap transmap overridemap : GoMap) (converted : Option (List Nat)) :
    ((makeAttheme env mapfile tdesktopmap transmap overridemap converted).failure
          = some Failure.sliceBounds
        ↔ ∃ e ∈ (makeAttheme env mapfile tdesktopmap transmap overridemap
            converted).overridemap, e.2.length < 6)
      ∧ ((recordColors env mapfile tdesktopmap transmap overridemap).failure = none
        ↔ ∀ e ∈ (makeAttheme env mapfile tdesktopmap transmap overridemap
            converted).overridemap, 6 ≤ e.2.length)
      ∧ ((keys overridemap).Nodup →
          (makeAttheme env mapfile tdesktopmap transmap overridemap converted).failure
            ≠ some Failure.sliceBounds →
          ∀ K V, (K, V) ∈ (makeAttheme env mapfile tdesktopmap transmap overridemap
              converted).overridemap → V.length ≠ 6 →
            lookup (makeAttheme env mapfile tdesktopmap transmap overridemap
              converted).atthememap K = V.drop 6 ++ V.take 6)
      ∧ ((keys overridemap).Nodup → ∀ K, (K, []) ∈ overridemap →
          (K, []) ∈ (makeAttheme env mapfile tdesktopmap transmap overridemap
              converted).overridemap
            ∧ (makeAttheme env mapfile tdesktopmap transmap overridemap converted).failure
              = some Failure.sliceBounds) := by
  have hiff : (recordColors env mapfile tdesktopmap transmap overridemap).failure = none
      ↔ ∀ e ∈ (recordColors env mapfile tdesktopmap transmap overridemap).overridemap,
          6 ≤ e.2.length := by
    rw [recordColors_failure]
    constructor
    · intro h
      split at h
      · assumption
      · cases h
    · intro h
      rw [if_pos h]
  have hfail : (makeAttheme env mapfile tdesktopmap transmap overridemap converted).failure
        = some Failure.sliceBounds
      ↔ ∃ e ∈ (recordColors env mapfile tdesktopmap transmap overridemap).overridemap,
          e.2.length < 6 := by
    rw [makeAttheme_sliceBounds_iff, recordColors_failure]
    constructor
    · intro h
      split at h
      · cases h
      · rename_i hn
        by_contra hc
        apply hn
        intro e he
        by_contra h6
        exact hc ⟨e, he, by omega⟩
    · rintro ⟨e, he, h6⟩
      rw [if_neg]
      intro hall
      have := hall e he
      omega
  rw [makeAttheme_overridemap, makeAttheme_atthememap]
  refine ⟨hfail, hiff, ?_, ?_⟩
  · intro hn hf K V hleft h6
    have hrec := recordColors_failure_none_of env mapfile tdesktopmap transmap overridemap
      converted hf
    rw [recordColors_lookup_leftover env mapfile tdesktopmap transmap overridemap K V hn
      hleft hrec, if_neg h6]
  · intro hn K hK
    have hlook : lookup overridemap K = [] := lookup_of_mem _ _ _ hn hK
    have hleft : (K, ([] : GoString))
        ∈ (recordColors env mapfile tdesktopmap transmap overridemap).overridemap := by
      rw [recordColors_overridemap]
      exact ⟨hK, fun h => h.2 hlook⟩
    exact ⟨hleft, hfail.mpr ⟨(K, []), hleft, by simp⟩⟩

/-- The override file line `k=` with the translation `k=bg`: the entry is left over and the
run fails with the slice panic; the override `q=aabbccd` of 7 bytes is recorded as
`daabbcc`. -/
theorem C18_witness :
    readMapFile (some (str "k=")) = .ok [(str "k", [])]
      ∧ (keys [(str "k", ([] : GoString))]).Nodup
      ∧ (str "k", ([] : GoString)) ∈ [(str "k", ([] : GoString))]
      ∧ (makeAttheme insertionEnv [(str "k", str "bg")] [(str "bg", str "112233")] []
          [(str "k", [])] (some [])).failure = some Failure.sliceBounds
      ∧ (keys [(str "q", str "aabbccd")]).Nodup
      ∧ (makeAttheme insertionEnv [] [] [] [(str "q", str "aabbccd")] (some [])).failure
        ≠ some Failure.sliceBounds
      ∧ lookup (makeAttheme insertionEnv [] [] [] [(str "q", str "aabbccd")]
          (some [])).atthememap (str "q") = str "daabbcc" :=
  ⟨by decide, by decide, by decide,
    ((C18_slice_panic insertionEnv [(str "k", str "bg")] [(str "bg", str "112233")] []
      [(str "k", [])] (some [])).2.2.2 (by decide) (str "k") (by decide)).2,
    by decide, by decide,
    ((C18_slice_panic insertionEnv [] [] [] [(str "q", str "aabbccd")] (some [])).2.2.1
      (by decide) (by decide) (str "q") (str "aabbccd") (by decide) (by decide)).trans
      (by decide)⟩

/-- C20: no value `makeAttheme` records is the empty string; so, when it completes, the
wallpaper block (`WPS`, the bytes of `converted.jpg`, `WPE`) is written exactly when
`chat_wallpaper` is neither a key of the key-translation table nor the key of an override
left over by the first loop. A translation of `chat_wallpaper`, resolved or not, therefore
suppresses the block. -/
theorem C20_wallpaper_written (env : GoEnv)
    (mapfile tdesktopmap transmap overridemap : GoMap) (converted : Option (List Nat))
    (hdone : (makeAttheme env mapfile tdesktopmap transmap overridemap converted).failure
      = none) :
    (∀ e ∈ (makeAttheme env mapfile tdesktopmap transmap overridemap converted).atthememap,
        e.2 ≠ [])
      ∧ ((makeAttheme env mapfile tdesktopmap transmap overridemap converted).wallpaper ≠ []
        ↔ str "chat_wallpaper" ∉ keys mapfile
          ∧ str "chat_wallpaper" ∉ keys (makeAttheme env mapfile tdesktopmap transmap
              overridemap converted).overridemap)
      ∧ ((makeAttheme env mapfile tdesktopmap transmap overridemap converted).wallpaper ≠ [] →
          ∃ data, converted = some data
            ∧ (makeAttheme env mapfile tdesktopmap transmap overridemap converted).wallpaper
              = [str "WPS\n"] ++ copyLoop data ++ [str "\nWPE"])
      ∧ (str "chat_wallpaper" ∈ keys mapfile →
          (makeAttheme env mapfile tdesktopmap transmap overridemap converted).wallpaper
            = []) := by
  have hf : (makeAttheme env mapfile tdesktopmap transmap overridemap converted).failure
      ≠ some Failure.sliceBounds := by
    rw [hdone]
    exact fun h => nomatch h
  have hrec := recordColors_failure_none_of env mapfile tdesktopmap transmap overridemap
    converted hf
  have hval := recordColors_values_ne_nil env mapfile tdesktopmap transmap overridemap
  obtain ⟨hw1, hw2⟩ := makeAttheme_wallpaper_cases env mapfile tdesktopmap transmap
    overridemap converted hdone
  have hkeys := recordColors_mem_keys_iff env mapfile tdesktopmap transmap overridemap
    (str "chat_wallpaper") hrec
  have hlook : lookup (recordColors env mapfile tdesktopmap transmap overridemap).atthememap
        (str "chat_wallpaper") = []
      ↔ str "chat_wallpaper"
        ∉ keys (recordColors env mapfile tdesktopmap transmap overridemap).atthememap := by
    constructor
    · intro h hmem
      exact hval _ (mem_of_mem_keys _ _ hmem) h
    · exact lookup_of_not_mem_keys _ _
  have hwp : (makeAttheme env mapfile tdesktopmap transmap overridemap converted).wallpaper
        ≠ []
      ↔ lookup (recordColors env mapfile tdesktopmap transmap overridemap).atthememap
        (str "chat_wallpaper") = [] := by
    constructor
    · intro h
      by_contra hne
      exact h (hw2 hne)
    · intro h
      obtain ⟨data, _, hd⟩ := hw1 h
      rw [hd]
      simp
  rw [makeAttheme_atthememap, makeAttheme_overridemap]
  refine ⟨hval, ?_, ?_, ?_⟩
  · rw [hwp, hlook, hkeys]
    tauto
  · intro h
    exact hw1 (hwp.mp h)
  · intro h
    apply hw2
    intro h0
    exact (hlook.mp h0) (hkeys.mpr (Or.inl h))

/-- A translation `chat_wallpaper=nosuch` that is unresolved: `00FF00` is recorded and no
wallpaper block is written; without it the block is written. -/
theorem C20_witness :
    (makeAttheme insertionEnv [(str "chat_wallpaper", str "nosuch")]
        [(str "whatever", str "ff00ff")] [] [] (some [255, 216])).failure = none
      ∧ str "chat_wallpaper" ∈ keys [(str "chat_wallpaper", str "nosuch")]
      ∧ lookup (makeAttheme insertionEnv [(str "chat_wallpaper", str "nosuch")]
          [(str "whatever", str "ff00ff")] [] [] (some [255, 216])).atthememap
          (str "chat_wallpaper") = str "00FF00"
      ∧ (makeAttheme insertionEnv [(str "chat_wallpaper", str "nosuch")]
          [(str "whatever", str "ff00ff")] [] [] (some [255, 216])).wallpaper = []
      ∧ (makeAttheme insertionEnv [(str "text", str "fg")] [(str "fg", str "aabbccdd")] [] []
          (some [255, 216])).failure = none
      ∧ (makeAttheme insertionEnv [(str "text", str "fg")] [(str "fg", str "aabbccdd")] [] []
          (some [255, 216])).wallpaper ≠ [] :=
  ⟨by decide, by decide, by decide,
    (C20_wallpaper_written insertionEnv [(str "chat_wallpaper", str "nosuch")]
      [(str "whatever", str "ff00ff")] [] [] (some [255, 216]) (by decide)).2.2.2 (by decide),
    by decide,
    (C20_wallpaper_written insertionEnv [(str "text", str "fg")] [(str "fg", str "aabbccdd")]
      [] [] (some [255, 216]) (by decide)).2.1.mpr ⟨by decide, by decide⟩⟩

/-! ## The first occurrence of a separator -/

theorem cutFirst_eq_none_iff (sep s : GoString) (hsep : sep ≠ []) :
    cutFirst sep s = none ↔ ¬ sep <:+: s := by
  induction s with
  | nil =>
    simp only [cutFirst, if_neg hsep, true_iff]
    intro h
    exact hsep (List.eq_nil_of_infix_nil h)
  | cons c rest ih =>
    rw [cutFirst]
    by_cases hp : sep.isPrefixOf (c :: rest) = true
    · rw [if_pos hp]
      constructor
      · intro h
        cases h
      · intro h
        exact absurd (List.isPrefixOf_iff_prefix.mp hp).isInfix h
    · rw [if_neg hp]
      have hp' : ¬ sep <+: c :: rest := fun h => hp (List.isPrefixOf_iff_prefix.mpr h)
      rw [Option.map_eq_none', ih, List.infix_cons_iff]
      tauto

/-- The cut is at an occurrence of the separator, and the separator does not occur
earlier: no occurrence starts in the text before the cut. -/
theorem cutFirst_eq_some (sep s a b : GoString) (h : cutFirst sep s = some (a, b)) (hsep : sep ≠ []) :
    s = a ++ sep ++ b ∧ ¬ sep <:+: a ++ sep.dropLast := by
  induction s generalizing a b with
  | nil =>
    rw [cutFirst, if_neg hsep] at h
    cases h
  | cons c rest ih =>
    rw [cutFirst] at h
    by_cases hp : sep.isPrefixOf (c :: rest) = true
    · rw [if_pos hp] at h
      injection h with h
      injection h with h1 h2
      subst h1
      obtain ⟨t, ht⟩ := List.isPrefixOf_iff_prefix.mp hp
      constructor
      · rw [← h2, ← ht]
        simp
      · rw [List.nil_append]
        intro hin
        have h3 := hin.length_le
        have h4 : 0 < sep.length := List.length_pos.mpr hsep
        rw [List.length_dropLast] at h3
        omega
    · rw [if_neg hp] at h
      cases hc : cutFirst sep rest with
      | none =>
        rw [hc] at h
        cases h
      | some p =>
        obtain ⟨a', b'⟩ := p
        rw [hc] at h
        simp only [Option.map_some'] at h
        injection h with h
        injection h with h1 h2
        subst h1; subst h2
        obtain ⟨ih1, ih2⟩ := ih a' b' hc
        constructor
        · rw [ih1]
          simp
        · intro hin
          rw [List.cons_append, List.infix_cons_iff] at hin
          rcases hin with hin | hin
          · apply hp
            rw [List.isPrefixOf_iff_prefix]
            have h5 : c :: (a' ++ sep.dropLast) <+: c :: rest := by
              rw [ih1, List.append_assoc]
              have h6 : sep.dropLast <+: sep ++ b' :=
                (List.dropLast_prefix sep).trans (List.prefix_append _ _)
              exact (List.prefix_cons_inj c).mpr ((List.prefix_append_right_inj a').mpr h6)
            exact hin.trans h5
          · exact ih2 hin

/-- Go `strings.Split` cuts at the first occurrence and goes on with the rest. -/
theorem Split_eq_cutFirst (s sep : GoString) (hsep : sep ≠ []) :
    Split s sep
      = match cutFirst sep s with
        | none => [s]
        | some (a, b) => a :: Split b sep := by
  unfold Split
  induction s with
  | nil =>
    rw [cutFirst, if_neg hsep]
    rfl
  | cons c rest ih =>
    rw [splitAux, cutFirst]
    by_cases hp : sep.isPrefixOf (c :: rest) = true
    · rw [if_pos hp, if_pos hp]
      simp only
      obtain ⟨t, ht⟩ := List.isPrefixOf_iff_prefix.mp hp
      cases sep with
      | nil => exact absurd rfl hsep
      | cons a tl =>
        simp only [List.cons_append, List.cons.injEq] at ht
        obtain ⟨_, ht2⟩ := ht
        rw [← ht2]
        simp only [List.length_cons, Nat.add_sub_cancel, List.drop_succ_cons,
          List.drop_left]
        rw [splitAux_skip]
    · rw [if_neg hp, if_neg hp, ih]
      cases hc : cutFirst sep rest with
      | none => rfl
      | some p =>
        obtain ⟨a', b'⟩ := p
        rfl

/-- The first piece of `strings.Split` is the text before the first occurrence. -/
theorem Split_headD (s sep : GoString) (hsep : sep ≠ []) :
    (Split s sep).headD [] = beforeFirst sep s := by
  rw [Split_eq_cutFirst s sep hsep, beforeFirst]
  cases hc : cutFirst sep s with
  | none => rfl
  | some p =>
    obtain ⟨a, b⟩ := p
    rfl

/-- What `beforeFirst` is: the whole text when the separator does not occur in it, and
otherwise the beginning of the text that the separator follows and in which no occurrence
of the separator starts. -/
theorem beforeFirst_spec (sep s : GoString) (hsep : sep ≠ []) :
    (¬ sep <:+: s ∧ beforeFirst sep s = s)
      ∨ (beforeFirst sep s ++ sep <+: s
          ∧ ¬ sep <:+: beforeFirst sep s ++ sep.dropLast) := by
  unfold beforeFirst
  cases hc : cutFirst sep s with
  | none => exact Or.inl ⟨(cutFirst_eq_none_iff sep s hsep).mp hc, rfl⟩
  | some p =>
    obtain ⟨a, b⟩ := p
    obtain ⟨h1, h2⟩ := cutFirst_eq_some sep s a b hc hsep
    refine Or.inr ⟨?_, h2⟩
    rw [h1]
    exact List.prefix_append _ _

/-! ## Claim C12 -/

/-- C12, as the code has it: for every manifest line and every table, `readTdesktopFile`
splits the line at `: `. A line with no `: ` leaves the table unchanged. Otherwise the key
is the text before the first `: `, and the value text is what follows that `: ` up to the
next `: ` and then up to the first `;` (the whole of it when neither occurs); what comes
after is dropped. The value stored under the key is the value text without its leading `#`
when it starts with `#`, and otherwise the value the table holds for the value text as a
key, less a leading `#`. -/
theorem C12_manifest_line (filemap : GoMap) (line : GoString) :
    tdesktopLine filemap line
        = (match cutFirst (str ": ") line with
          | none => filemap
          | some (key, rest) =>
            assign filemap key (trimPrefixOf
              (if hasPrefixOf (beforeFirst (str ";") (beforeFirst (str ": ") rest)) (str "#")
                then beforeFirst (str ";") (beforeFirst (str ": ") rest)
                else lookup filemap (beforeFirst (str ";") (beforeFirst (str ": ") rest)))
              (str "#")))
      ∧ (cutFirst (str ": ") line = none ↔ ¬ str ": " <:+: line)
      ∧ (∀ key rest, cutFirst (str ": ") line = some (key, rest) →
          line = key ++ str ": " ++ rest ∧ ¬ str ": " <:+: key ++ [58]) := by
  have hs1 : str ": " ≠ [] := by decide
  have hs2 : str ";" ≠ [] := by decide
  refine ⟨?_, cutFirst_eq_none_iff _ _ hs1, ?_⟩
  · unfold tdesktopLine
    rw [Split_eq_cutFirst line (str ": ") hs1]
    cases hc : cutFirst (str ": ") line with
    | none => rfl
    | some p =>
      obtain ⟨key, rest⟩ := p
      simp only
      have h1 := Split_headD rest (str ": ") hs1
      cases hr : Split rest (str ": ") with
      | nil => exact absurd hr (splitAux_ne_nil _ _ _)
      | cons r1 rs =>
        rw [hr] at h1
        simp only [List.headD_cons] at h1
        simp only
        rw [Split_headD r1 (str ";") hs2, h1]
        by_cases hp : hasPrefixOf (beforeFirst (str ";") (beforeFirst (str ": ") rest))
            (str "#") = true
        · simp [hp]
        · simp [hp]
  · intro key rest h
    have h1 := cutFirst_eq_some (str ": ") line key rest h hs1
    have e : (str ": ").dropLast = [58] := by decide
    rw [e] at h1
    exact h1

/-- A rule whose key holds a `:` and that has a comment after the `;`, and an alias of a
name that holds a `:`: both lines are rules for the code. -/
theorem C12_witness :
    cutFirst (str ": ") (str "a:b: #112233; // main")
        = some (str "a:b", str "#112233; // main")
      ∧ tdesktopLine [(str "fg", str "aabbcc")] (str "a:b: #112233; // main")
        = [(str "fg", str "aabbcc"), (str "a:b", str "112233")]
      ∧ tdesktopLine [(str "a:b", str "112233")] (str "k: a:b;")
        = [(str "a:b", str "112233"), (str "k", str "112233")]
      ∧ ¬ str ": " <:+: str "// colours"
      ∧ tdesktopLine [(str "fg", str "aabbcc")] (str "// colours") = [(str "fg", str "aabbcc")]
      ∧ (str "a:b: #112233; // main" = str "a:b" ++ str ": " ++ str "#112233; // main"
        ∧ ¬ str ": " <:+: str "a:b" ++ [58]) :=
  ⟨by decide,
    (C12_manifest_line [(str "fg", str "aabbcc")] (str "a:b: #112233; // main")).1.trans
      (by decide),
    (C12_manifest_line [(str "a:b", str "112233")] (str "k: a:b;")).1.trans (by decide),
    by decide,
    (C12_manifest_line [(str "fg", str "aabbcc")] (str "// colours")).1.trans (by decide),
    (C12_manifest_line [(str "fg", str "aabbcc")] (str "a:b: #112233; // main")).2.2
      (str "a:b") (str "#112233; // main") (by decide)⟩

/-- C4 as stated fails in three places. For the manifest `bg: #112233;`, the translation
`k=bg` and no alpha prefix for `k`, the value emitted for `k` is the 6 digits `112233`; it
is not 8 digits, not composed with alpha `ff`, and not the sentinel. For the override
`z=aabbcc` of a key without translation, the value emitted is `ffaabbcc`, 8 hex digits that
are not in upper case. For the override `q=AABBCCD` of 7 digits of a key without
translation, the value emitted is `DAABBCC`, 7 digits and not the sentinel. -/
theorem C4_counterexample_six_digits :
    readTdesktopFile (some (str "bg: #112233;"))
        = .ok [(str "bg", str "112233"), (str "whatever", str "ff00ff")]
      ∧ (makeAttheme insertionEnv [(str "k", str "bg")]
          [(str "bg", str "112233"), (str "whatever", str "ff00ff")] [] []
          (some [])).failure = none
      ∧ (makeAttheme insertionEnv [(str "k", str "bg")]
          [(str "bg", str "112233"), (str "whatever", str "ff00ff")] [] []
          (some [])).lines = [str "k=#112233\n"]
      ∧ lookup (makeAttheme insertionEnv [(str "k", str "bg")]
          [(str "bg", str "112233"), (str "whatever", str "ff00ff")] [] []
          (some [])).atthememap (str "k") = str "112233"
      ∧ (str "112233").length ≠ 8
      ∧ str "112233" ≠ str "FF112233"
      ∧ str "112233" ≠ str "00FF00"
      ∧ (makeAttheme insertionEnv [] [(str "whatever", str "ff00ff")] []
          [(str "z", str "aabbcc")] (some [])).failure = none
      ∧ (makeAttheme insertionEnv [] [(str "whatever", str "ff00ff")] []
          [(str "z", str "aabbcc")] (some [])).lines = [str "z=#ffaabbcc\n"]
      ∧ ¬ (∀ c ∈ str "ffaabbcc", isUpperHexDigit c = true)
      ∧ (makeAttheme insertionEnv [] [(str "whatever", str "ff00ff")] []
          [(str "q", str "AABBCCD")] (some [])).failure = none
      ∧ (makeAttheme insertionEnv [] [(str "whatever", str "ff00ff")] []
          [(str "q", str "AABBCCD")] (some [])).lines = [str "q=#DAABBCC\n"]
      ∧ (str "DAABBCC").length ≠ 8
      ∧ str "DAABBCC" ≠ str "00FF00" := by
  decide

/-- C4, as the code has it. On tables with one entry per key, whose desktop and override
values are hex digits and whose alpha prefixes are two hex digits, every value that
`makeAttheme` records and emits is made of hex digits.

For a translated key K the value is in upper case and is either 8 digits long, or the 6
digits of a 6-digit colour V in upper case when K has no alpha-prefix entry (no `ff` is put
in front), or the sentinel `00FF00` when V has neither 6 nor 8 digits.

For an override V left over by the first loop (an override-only key) the value is made of
hex digits, in the letter case of V: exactly 8 of them when V has 6 or 8 digits, composed
with alpha `ff` when V has 6 digits and the key has no alpha-prefix entry, and V[6:]
followed by V[:6], as long as V, when V has another length.

Every entry recorded by a run that the slice panic does not stop is of one of these two
kinds, and its value is the one on the line written for its key. -/
theorem C4_emitted_values (env : GoEnv)
    (mapfile tdesktopmap transmap overridemap : GoMap) (converted : Option (List Nat))
    (hn : (keys mapfile).Nodup) (hno : (keys overridemap).Nodup)
    (hd : ∀ e ∈ tdesktopmap, ∀ c ∈ e.2, isHexDigit c = true)
    (hov : ∀ e ∈ overridemap, ∀ c ∈ e.2, isHexDigit c = true)
    (ht : ∀ e ∈ transmap, e.2.length = 2 ∧ ∀ c ∈ e.2, isHexDigit c = true) :
    (∀ K, K ∈ keys mapfile →
        (∀ c ∈ lookup (makeAttheme env mapfile tdesktopmap transmap overridemap
              converted).atthememap K, isUpperHexDigit c = true)
          ∧ ((lookup (makeAttheme env mapfile tdesktopmap transmap overridemap
                converted).atthememap K).length = 8
            ∨ ((desktopValue tdesktopmap overridemap K (lookup mapfile K)).length = 6
                ∧ K ∉ keys transmap
                ∧ lookup (makeAttheme env mapfile tdesktopmap transmap overridemap
                    converted).atthememap K
                  = (desktopValue tdesktopmap overridemap K (lookup mapfile K)).map
                      asciiUpper)
            ∨ ((desktopValue tdesktopmap overridemap K (lookup mapfile K)).length ≠ 6
                ∧ (desktopValue tdesktopmap overridemap K (lookup mapfile K)).length ≠ 8
                ∧ lookup (makeAttheme env mapfile tdesktopmap transmap overridemap
                    converted).atthememap K = str "00FF00"))
          ∧ ((makeAttheme env mapfile tdesktopmap transmap overridemap converted).failure
                ≠ some Failure.sliceBounds →
              colorLine (K, lookup (makeAttheme env mapfile tdesktopmap transmap overridemap
                  converted).atthememap K)
                ∈ (makeAttheme env mapfile tdesktopmap transmap overridemap
                    converted).lines))
      ∧ (∀ K V,
          (K, V) ∈ (makeAttheme env mapfile tdesktopmap transmap overridemap
            converted).overridemap →
          (makeAttheme env mapfile tdesktopmap transmap overridemap converted).failure
            ≠ some Failure.sliceBounds →
          (∀ c ∈ lookup (makeAttheme env mapfile tdesktopmap transmap overridemap
                converted).atthememap K, isHexDigit c = true)
            ∧ ((V.length = 6 ∨ V.length = 8) →
                (lookup (makeAttheme env mapfile tdesktopmap transmap overridemap
                  converted).atthememap K).length = 8)
            ∧ (V.length ≠ 6 →
                lookup (makeAttheme env mapfile tdesktopmap transmap overridemap
                  converted).atthememap K = V.drop 6 ++ V.take 6)
            ∧ (V.length = 6 → K ∉ keys transmap →
                lookup (makeAttheme env mapfile tdesktopmap transmap overridemap
                  converted).atthememap K = str "ff" ++ V)
            ∧ colorLine (K, lookup (makeAttheme env mapfile tdesktopmap transmap overridemap
                  converted).atthememap K)
                ∈ (makeAttheme env mapfile tdesktopmap transmap overridemap
                    converted).lines)
      ∧ ((makeAttheme env mapfile tdesktopmap transmap overridemap converted).failure
            ≠ some Failure.sliceBounds →
          ∀ e ∈ (makeAttheme env mapfile tdesktopmap transmap overridemap
              converted).atthememap,
            e.1 ∈ keys mapfile
              ∨ ∃ V, (e.1, V) ∈ (makeAttheme env mapfile tdesktopmap transmap overridemap
                  converted).overridemap) := by
  refine ⟨?_, ?_, ?_⟩
  · intro K hK
    exact translated_value_hex env mapfile tdesktopmap transmap overridemap converted K
      hn hno hK hd hov ht
  · intro K V hleft hf
    have hrec := recordColors_failure_none_of env mapfile tdesktopmap transmap overridemap
      converted hf
    have hleft' := hleft
    rw [makeAttheme_overridemap] at hleft'
    have hval := recordColors_lookup_leftover env mapfile tdesktopmap transmap overridemap
      K V hno hleft' hrec
    have hVmem : (K, V) ∈ overridemap :=
      ((recordColors_overridemap env mapfile tdesktopmap transmap overridemap (K, V)).mp
        hleft').1
    have hV : ∀ c ∈ V, isHexDigit c = true := hov (K, V) hVmem
    have hkey : K ∈ keys (makeAttheme env mapfile tdesktopmap transmap overridemap
        converted).atthememap := by
      rw [makeAttheme_atthememap, recordColors_mem_keys_iff _ _ _ _ _ _ hrec]
      exact Or.inr (List.mem_map.mpr ⟨(K, V), hleft', rfl⟩)
    have hline := mem_makeAttheme_lines env mapfile tdesktopmap transmap overridemap
      converted K hf hkey
    have halpha : lookup transmap K ≠ [] →
        (lookup transmap K).length = 2 ∧ ∀ c ∈ lookup transmap K, isHexDigit c = true := by
      intro hne
      rcases lookup_mem_or_nil transmap K with h0 | h0
      · exact absurd h0 hne
      · exact ht _ h0
    have hff : ∀ c ∈ str "ff", isHexDigit c = true := by decide
    rw [makeAttheme_atthememap] at hline ⊢
    refine ⟨?_, ?_, ?_, ?_, hline⟩
    · rw [hval]
      intro c hc
      split at hc
      · split at hc
        · rename_i hne
          rcases List.mem_append.mp hc with h1 | h1
          · exact (halpha hne).2 c h1
          · exact hV c h1
        · rcases List.mem_append.mp hc with h1 | h1
          · exact hff c h1
          · exact hV c h1
      · rcases List.mem_append.mp hc with h1 | h1
        · exact hV c (List.mem_of_mem_drop h1)
        · exact hV c (List.mem_of_mem_take h1)
    · intro h68
      rw [hval]
      split
      · rename_i h6
        split
        · rename_i hne
          rw [List.length_append, (halpha hne).1, h6]
        · rw [List.length_append, h6]
          rfl
      · rename_i h6
        have h8 : V.length = 8 := by
          rcases h68 with h | h
          · exact absurd h h6
          · exact h
        rw [List.length_append, List.length_drop, List.length_take, h8]
        rfl
    · intro h6
      rw [hval, if_neg h6]
    · intro h6 hk
      rw [hval, if_pos h6, if_neg (by simp [lookup_of_not_mem_keys _ _ hk])]
  · intro hf e he
    have hrec := recordColors_failure_none_of env mapfile tdesktopmap transmap overridemap
      converted hf
    rw [makeAttheme_atthememap] at he
    rw [makeAttheme_overridemap]
    have hk : e.1 ∈ keys (recordColors env mapfile tdesktopmap transmap
        overridemap).atthememap := List.mem_map.mpr ⟨e, he, rfl⟩
    rcases (recordColors_mem_keys_iff _ _ _ _ _ _ hrec).mp hk with h | h
    · exact Or.inl h
    · obtain ⟨e', he', he1⟩ := List.mem_map.mp h
      refine Or.inr ⟨e'.2, ?_⟩
      rw [← he1]
      exact he'

/-- Scenario S1 with an override-only key added (`bg: #112233;`, translation `chat_bg=bg`,
alpha prefix `chat_bg=cc`, override `z=aabbcc`): `CC112233` for the translated key,
`ffaabbcc` for the override-only key. -/
theorem C4_witness :
    (keys [(str "chat_bg", str "bg")]).Nodup
      ∧ (keys [(str "z", str "aabbcc")]).Nodup
      ∧ (∀ e ∈ [(str "bg", str "112233"), (str "whatever", str "ff00ff")],
          ∀ c ∈ e.2, isHexDigit c = true)
      ∧ (∀ e ∈ [(str "z", str "aabbcc")], ∀ c ∈ e.2, isHexDigit c = true)
      ∧ (∀ e ∈ [(str "chat_bg", str "cc")], e.2.length = 2 ∧ ∀ c ∈ e.2, isHexDigit c = true)
      ∧ str "chat_bg" ∈ keys [(str "chat_bg", str "bg")]
      ∧ (∀ c ∈ lookup (makeAttheme insertionEnv [(str "chat_bg", str "bg")]
            [(str "bg", str "112233"), (str "whatever", str "ff00ff")]
            [(str "chat_bg", str "cc")] [(str "z", str "aabbcc")]
            (some [])).atthememap (str "chat_bg"),
          isUpperHexDigit c = true)
      ∧ lookup (makeAttheme insertionEnv [(str "chat_bg", str "bg")]
            [(str "bg", str "112233"), (str "whatever", str "ff00ff")]
            [(str "chat_bg", str "cc")] [(str "z", str "aabbcc")]
            (some [])).atthememap (str "chat_bg")
          = str "CC112233"
      ∧ (str "z", str "aabbcc") ∈ (makeAttheme insertionEnv [(str "chat_bg", str "bg")]
            [(str "bg", str "112233"), (str "whatever", str "ff00ff")]
            [(str "chat_bg", str "cc")] [(str "z", str "aabbcc")] (some [])).overridemap
      ∧ (makeAttheme insertionEnv [(str "chat_bg", str "bg")]
            [(str "bg", str "112233"), (str "whatever", str "ff00ff")]
            [(str "chat_bg", str "cc")] [(str "z", str "aabbcc")] (some [])).failure
          ≠ some Failure.sliceBounds
      ∧ lookup (makeAttheme insertionEnv [(str "chat_bg", str "bg")]
            [(str "bg", str "112233"), (str "whatever", str "ff00ff")]
            [(str "chat_bg", str "cc")] [(str "z", str "aabbcc")]
            (some [])).atthememap (str "z")
          = str "ff" ++ str "aabbcc" :=
  ⟨by decide, by decide, by decide, by decide, by decide, by decide,
    ((C4_emitted_values insertionEnv [(str "chat_bg", str "bg")]
      [(str "bg", str "112233"), (str "whatever", str "ff00ff")]
      [(str "chat_bg", str "cc")] [(str "z", str "aabbcc")] (some [])
      (by decide) (by decide) (by decide) (by decide) (by decide)).1 (str "chat_bg")
      (by decide)).1,
    by decide, by decide, by decide,
    ((C4_emitted_values insertionEnv [(str "chat_bg", str "bg")]
      [(str "bg", str "112233"), (str "whatever", str "ff00ff")]
      [(str "chat_bg", str "cc")] [(str "z", str "aabbcc")] (some [])
      (by decide) (by decide) (by decide) (by decide) (by decide)).2.1 (str "z")
      (str "aabbcc") (by decide) (by decide)).2.2.2.1 (by decide) (by decide)⟩

end TDeskDroid
